import Mathlib

/-! Verification of truchain: confirmed settlement and the block-tick expiry drain.

A shallow embedding of

* `x/vote/tally_confirmed.go`: `confirmedPool`, `distributeRewardsConfirmed`,
  `voterCount`, `voterRewardAmount`;
* `x/voting/errors.go`: `ErrInvalidVote`;
* `x/challenge/tick.go`: `checkExpiredGames`, `returnFunds`.

Go values of the cosmos-sdk (`sdk.Coin`, `sdk.Int`, `sdk.Dec`, the bank keeper)
are modelled by their arithmetic meaning: `sdk.Int` is an integer, `sdk.Dec`
is that integer scaled by `10 ^ Precision`.  A Go panic is the `none` of an
`Option` result; a returned `sdk.Error` is a value `some e : Option Error`,
with `none` standing for `nil`.

The coin functions are embedded twice.  `Coin.Plus` and `Coin.Minus` are the
arithmetic alone, what the functions return where no check of the library
fires.  `Release.Plus`, `Release.Minus` and `Release.NewCoin` add the checks:
the 255 bits of `sdk.Int`, which every release of the sdk enforces, and the
panics on another denomination and on a negative amount, which depend on the
release.  The sources do not pin the release, so what is stated of
`Release.confirmedPool` and `Release.distributeRewardsConfirmed` is stated for
every release; where they return, they return what `confirmedPool` and
`distributeRewardsConfirmed` do.
-/

set_option autoImplicit false
set_option maxRecDepth 8000

namespace TruChain

/-! ## cosmos-sdk values -/

/-- An account address (`sdk.AccAddress`), a byte string read as a number. -/
abbrev AccAddress := Nat

/-- The `sdk.Coin` record: a denomination and an `sdk.Int` amount. -/
structure Coin where
  Denom : String
  Amount : Int
deriving DecidableEq, Repr

/-- The `sdk.Coins` slice. -/
abbrev Coins := List Coin

/-- Go `Coin.SameDenomAs`. -/
def Coin.SameDenomAs (coin coinB : Coin) : Bool :=
  coin.Denom == coinB.Denom

/-- Go `Coin.Plus`, the arithmetic alone: adds amounts of two coins with same
denom; a coin of another denomination leaves the receiver as it is.  The
panics of the library are in `Release.Plus`. -/
def Coin.Plus (coin coinB : Coin) : Coin :=
  if coin.SameDenomAs coinB then ⟨coin.Denom, coin.Amount + coinB.Amount⟩ else coin

/-- Go `Coin.Minus`, the arithmetic alone: subtracts amounts of two coins with
same denom.  The panics of the library are in `Release.Minus`. -/
def Coin.Minus (coin coinB : Coin) : Coin :=
  if coin.SameDenomAs coinB then ⟨coin.Denom, coin.Amount - coinB.Amount⟩ else coin

/-- The `sdk.Error` value: codespace, code and message. -/
structure Error where
  codespace : String
  code : Nat
  msg : String
deriving DecidableEq, Repr

/-- Number of decimal places of the fixed-point `sdk.Dec`. -/
def Precision : Nat := 10

/-- The scale `10 ^ Precision` of `sdk.Dec`. -/
def precisionReuse : Int := 10 ^ Precision

/-- Half of the scale: the tie point of `RoundInt`. -/
def fivePrecision : Int := precisionReuse / 2

/-- An `sdk.Dec`, held as its scaled integer. -/
abbrev Dec := Int

/-- Go `sdk.NewDecFromInt`. -/
def NewDecFromInt (i : Int) : Dec := i * precisionReuse

/-- Go `Dec.QuoInt`: truncated quotient of the scaled integer (`big.Int.Quo`), which
panics on a zero divisor. -/
def Dec.QuoInt (d : Dec) (i : Int) : Option Dec :=
  if i = 0 then none else some (Int.tdiv d i)

/-- The rounding of a non-negative scaled integer to an integer: remainder below
one half rounds down, above one half rounds up, exactly one half goes to the
even neighbour. -/
def chopPrecisionAndRoundNonNeg (d : Int) : Int :=
  let quo := Int.tdiv d precisionReuse
  let rem := Int.tmod d precisionReuse
  if rem = 0 then quo
  else if rem < fivePrecision then quo
  else if rem > fivePrecision then quo + 1
  else if quo % 2 = 0 then quo
  else quo + 1

/-- Go `chopPrecisionAndRound`: a negative value is negated, rounded and negated
back. -/
def chopPrecisionAndRound (d : Int) : Int :=
  if d < 0 then -(chopPrecisionAndRoundNonNeg (-d)) else chopPrecisionAndRoundNonNeg d

/-- Go `Dec.RoundInt`. -/
def Dec.RoundInt (d : Dec) : Int := chopPrecisionAndRound d

/-! ## vote positions -/

/-- The part of `backing.Backing` that settlement reads. -/
structure Backing where
  Creator : AccAddress
  Amount : Coin
  Interest : Coin
deriving DecidableEq, Repr

/-- The part of `challenge.Challenge` that settlement and the refund read. -/
structure Challenge where
  Creator : AccAddress
  Amount : Coin
deriving DecidableEq, Repr

/-- The part of `TokenVote` that settlement reads. -/
structure TokenVote where
  Creator : AccAddress
  Amount : Coin
deriving DecidableEq, Repr

/-- A value of interface type `app.Voter`: one of the three concrete kinds the
type switches know, or any other value, of which only the name of its dynamic
type matters (`none` for the nil interface value). -/
inductive Voter where
  | backing (v : Backing)
  | challenge (v : Challenge)
  | tokenVote (v : TokenVote)
  | other (typeName : Option String)
deriving DecidableEq, Repr

/-- The `poll` of a game: the positions on the true and on the false side. -/
structure poll where
  trueVotes : List Voter
  falseVotes : List Voter
deriving DecidableEq, Repr

/-- The result of `reflect.TypeOf(vote)`, as the name of the dynamic type. -/
def Voter.typeName : Voter → Option String
  | .backing _ => some "Backing"
  | .challenge _ => some "Challenge"
  | .tokenVote _ => some "TokenVote"
  | .other n => n

/-- Go `voting.DefaultCodespace`. -/
def DefaultCodespace : String := "voting"

/-- Go `voting.CodeUnknownVote`. -/
def CodeUnknownVote : Nat := 1204

/-- Go `ErrInvalidVote` (called without extra messages): an unknown Vote type
error, naming the dynamic type when there is one. -/
def ErrInvalidVote (vote : Voter) : Error :=
  match vote.typeName with
  | some name => ⟨DefaultCodespace, CodeUnknownVote, "Unrecognized Vote type: " ++ name⟩
  | none => ⟨DefaultCodespace, CodeUnknownVote, "Unknown Vote type"⟩

/-- Modelled from the spec: `app.NewCategoryCoin` is absent from the sources; the
reward is paid in the category denomination, so the coin keeps its amount and
takes the denomination given. -/
def NewCategoryCoin (toDenom : String) (src : Coin) : Coin :=
  ⟨toDenom, src.Amount⟩

/-! ## the bank keeper -/

/-- The `bank.Keeper` interface as settlement uses it: `AddCoins` acts on the
bank state and returns an error or nil. -/
structure BankKeeper (σ : Type) where
  AddCoins : σ → AccAddress → Coins → σ × Option Error

/-! ## `x/vote/tally_confirmed.go` -/

/-- Go `confirmedPool`: calculate reward pool for a confirmed story.  Returns the
pool as the pointer leaves it, and the error. -/
def confirmedPool : List Voter → Coin → Coin × Option Error
  | [], pool => (pool, none)
  | vote :: rest, pool =>
    match vote with
    | .backing v => confirmedPool rest (pool.Plus v.Interest)
    | .challenge v => confirmedPool rest (pool.Plus v.Amount)
    | .tokenVote v => confirmedPool rest (pool.Plus v.Amount)
    | .other n => (pool, some (ErrInvalidVote (.other n)))

/-- Go `voterCount`: count voters. -/
def voterCount (winners : List Voter) : Int :=
  winners.foldl (fun count voter =>
    match voter with
    | .tokenVote _ => count + 1
    | _ => count) 0

/-- Go `voterRewardAmount`: zero for no token voters, else the pool divided by the
voter count as a decimal, rounded to an integer.  `none` is a panic. -/
def voterRewardAmount (pool : Coin) (voterCount : Int) : Option Int :=
  if voterCount = 0 then some 0
  else
    let poolDec := NewDecFromInt pool.Amount
    (Dec.QuoInt poolDec voterCount).map Dec.RoundInt

/-- The local state of `distributeRewardsConfirmed`: the bank, the local `pool`
and the named result `err`. -/
structure Tally (σ : Type) where
  bank : σ
  pool : Coin
  err : Option Error

/-- The first loop of `distributeRewardsConfirmed`, "distribute reward to
winners".  `Except.error` is a `return err` out of the loop, `Except.ok` is
falling out of its end. -/
def rewardWinners {σ : Type} (bankKeeper : BankKeeper σ) (reward : Int) (denom : String) :
    List Voter → Tally σ → Except (Tally σ) (Tally σ)
  | [], st => .ok st
  | vote :: rest, st =>
    match vote with
    | .backing _ => rewardWinners bankKeeper reward denom rest st
    | .tokenVote v =>
      let r1 := bankKeeper.AddCoins st.bank v.Creator [v.Amount]
      match r1.2 with
      | some e => .error ⟨r1.1, st.pool, some e⟩
      | none =>
        let rewardCoin : Coin := ⟨st.pool.Denom, reward⟩
        let pool := st.pool.Minus rewardCoin
        let cred := NewCategoryCoin denom rewardCoin
        let r2 := bankKeeper.AddCoins r1.1 v.Creator [cred]
        rewardWinners bankKeeper reward denom rest ⟨r2.1, pool, r2.2⟩
    | v => .error ⟨st.bank, st.pool, some (ErrInvalidVote v)⟩

/-- The second loop of `distributeRewardsConfirmed`, "slash losers". -/
def slashLosers {σ : Type} (bankKeeper : BankKeeper σ) :
    List Voter → Tally σ → Except (Tally σ) (Tally σ)
  | [], st => .ok st
  | vote :: rest, st =>
    let st1 : Tally σ :=
      match vote with
      | .backing v =>
        let r := bankKeeper.AddCoins st.bank v.Creator [v.Amount]
        ⟨r.1, st.pool, r.2⟩
      | .challenge _ => st
      | .tokenVote _ => st
      | v => ⟨st.bank, st.pool, some (ErrInvalidVote v)⟩
    match st1.err with
    | some _ => .error st1
    | none => slashLosers bankKeeper rest st1

/-- Go `distributeRewardsConfirmed`.  The result holds the bank state, the local
pool and the returned error; `none` is a panic. -/
def distributeRewardsConfirmed {σ : Type} (bankKeeper : BankKeeper σ) (ctx : σ)
    (votes : poll) (pool : Coin) (denom : String) : Option (Tally σ) :=
  match voterRewardAmount pool (voterCount votes.trueVotes) with
  | none => none
  | some reward =>
    match rewardWinners bankKeeper reward denom votes.trueVotes ⟨ctx, pool, none⟩ with
    | .error st => some st
    | .ok st =>
      match slashLosers bankKeeper votes.falseVotes st with
      | .error st1 => some st1
      | .ok st1 => some ⟨st1.bank, st1.pool, none⟩

/-! ## the coin functions of the cosmos-sdk, release by release -/

/-- The bit length `sdk.Int` is bounded to (`maxBitLen` of the sdk): `Add` and
`Sub` panic on a result of more bits. -/
def maxBitLen : Nat := 255

/-- Whether an integer has at most `maxBitLen` bits. -/
def fitsInt (i : Int) : Bool := decide (-(2 ^ maxBitLen) < i ∧ i < 2 ^ maxBitLen)

/-- Go `Int.Add` of the sdk: the sum, or a panic (`none`) past 255 bits. -/
def sdkIntAdd (i i2 : Int) : Option Int :=
  if fitsInt (i + i2) then some (i + i2) else none

/-- Go `Int.Sub` of the sdk: the difference, or a panic (`none`) past 255 bits. -/
def sdkIntSub (i i2 : Int) : Option Int :=
  if fitsInt (i - i2) then some (i - i2) else none

/-- What a release of the cosmos-sdk checks in the coin functions that
settlement calls.  The sources do not pin the release they are built against,
and the releases differ: up to v0.25 `Plus` and `Minus` return the receiver
for a coin of another denomination and `Minus` allows a negative result; from
v0.27 they panic there, and `NewCoin` panics on a negative amount and, later,
on a denomination it does not accept.  Every release bounds `sdk.Int` to 255
bits. -/
structure Release where
  mismatchPanics : Bool
  negativeResultPanics : Bool
  negativeAmountPanics : Bool
  validDenom : String → Bool

/-- Go `Coin.Plus` with the checks of the release; `none` is a panic. -/
def Release.Plus (r : Release) (coin coinB : Coin) : Option Coin :=
  if coin.SameDenomAs coinB then
    match sdkIntAdd coin.Amount coinB.Amount with
    | none => none
    | some amount => some ⟨coin.Denom, amount⟩
  else if r.mismatchPanics then none
  else some coin

/-- Go `Coin.Minus` with the checks of the release; `none` is a panic. -/
def Release.Minus (r : Release) (coin coinB : Coin) : Option Coin :=
  if coin.SameDenomAs coinB then
    match sdkIntSub coin.Amount coinB.Amount with
    | none => none
    | some amount =>
      if r.negativeResultPanics && decide (amount < 0) then none
      else some ⟨coin.Denom, amount⟩
  else if r.mismatchPanics then none
  else some coin

/-- Go `sdk.NewCoin` with the checks of the release; `none` is a panic. -/
def Release.NewCoin (r : Release) (denom : String) (amount : Int) : Option Coin :=
  if r.negativeAmountPanics && decide (amount < 0) then none
  else if r.validDenom denom then some ⟨denom, amount⟩
  else none

/-- Go `confirmedPool` with the checks of the release: the pool as the pointer
leaves it and the error, or a panic (`none`). -/
def Release.confirmedPool (r : Release) : List Voter → Coin → Option (Coin × Option Error)
  | [], pool => some (pool, none)
  | vote :: rest, pool =>
    match vote with
    | .backing v =>
      match r.Plus pool v.Interest with
      | none => none
      | some pool1 => r.confirmedPool rest pool1
    | .challenge v =>
      match r.Plus pool v.Amount with
      | none => none
      | some pool1 => r.confirmedPool rest pool1
    | .tokenVote v =>
      match r.Plus pool v.Amount with
      | none => none
      | some pool1 => r.confirmedPool rest pool1
    | .other n => some (pool, some (ErrInvalidVote (.other n)))

/-- The first loop of `distributeRewardsConfirmed` with the checks of the
release; `none` is a panic. -/
def Release.rewardWinners {σ : Type} (r : Release) (bankKeeper : BankKeeper σ) (reward : Int)
    (denom : String) : List Voter → Tally σ → Option (Except (Tally σ) (Tally σ))
  | [], st => some (.ok st)
  | vote :: rest, st =>
    match vote with
    | .backing _ => r.rewardWinners bankKeeper reward denom rest st
    | .tokenVote v =>
      let r1 := bankKeeper.AddCoins st.bank v.Creator [v.Amount]
      match r1.2 with
      | some e => some (.error ⟨r1.1, st.pool, some e⟩)
      | none =>
        match r.NewCoin st.pool.Denom reward with
        | none => none
        | some rewardCoin =>
          match r.Minus st.pool rewardCoin with
          | none => none
          | some pool =>
            let cred := NewCategoryCoin denom rewardCoin
            let r2 := bankKeeper.AddCoins r1.1 v.Creator [cred]
            r.rewardWinners bankKeeper reward denom rest ⟨r2.1, pool, r2.2⟩
    | v => some (.error ⟨st.bank, st.pool, some (ErrInvalidVote v)⟩)

/-- Go `distributeRewardsConfirmed` with the checks of the release.  The result
holds the bank state, the local pool and the returned error; `none` is a
panic. -/
def Release.distributeRewardsConfirmed {σ : Type} (r : Release) (bankKeeper : BankKeeper σ)
    (ctx : σ) (votes : poll) (pool : Coin) (denom : String) : Option (Tally σ) :=
  match voterRewardAmount pool (voterCount votes.trueVotes) with
  | none => none
  | some reward =>
    match r.rewardWinners bankKeeper reward denom votes.trueVotes ⟨ctx, pool, none⟩ with
    | none => none
    | some (.error st) => some st
    | some (.ok st) =>
      match slashLosers bankKeeper votes.falseVotes st with
      | .error st1 => some st1
      | .ok st1 => some ⟨st1.bank, st1.pool, none⟩

/-- The share in the words of the spec: the pool divided by the voter count,
rounded to the nearest integer on the first ten decimals of the quotient, a
tie going to the even neighbour; 0 for no voters. -/
def nearestShare (p n : Int) : Int :=
  if n = 0 then 0
  else
    let t := (p % n * 10000000000) / n
    if t < 5000000000 then p / n
    else if t > 5000000000 then p / n + 1
    else if (p / n) % 2 = 0 then p / n
    else p / n + 1

/-! ## reading a poll -/

/-- Whether the position is a `backing.Backing`. -/
def Voter.isBacking : Voter → Bool
  | .backing _ => true
  | _ => false

/-- Whether the position is a `challenge.Challenge`. -/
def Voter.isChallenge : Voter → Bool
  | .challenge _ => true
  | _ => false

/-- Whether the position is a `TokenVote`. -/
def Voter.isTokenVote : Voter → Bool
  | .tokenVote _ => true
  | _ => false

/-- The kinds the winners loop accepts: Backing and TokenVote. -/
def Voter.isWinnerKind (v : Voter) : Bool := v.isBacking || v.isTokenVote

/-- The kinds of the variant set: Backing, Challenge and TokenVote. -/
def Voter.isKnownKind (v : Voter) : Bool := v.isBacking || v.isChallenge || v.isTokenVote

/-- The Backings of a list of positions, in order. -/
def backings (votes : List Voter) : List Backing :=
  votes.filterMap fun v => match v with
    | .backing b => some b
    | _ => none

/-- The Challenges of a list of positions, in order. -/
def challenges (votes : List Voter) : List Challenge :=
  votes.filterMap fun v => match v with
    | .challenge c => some c
    | _ => none

/-- The TokenVotes of a list of positions, in order. -/
def tokenVotes (votes : List Voter) : List TokenVote :=
  votes.filterMap fun v => match v with
    | .tokenVote t => some t
    | _ => none

/-- One call of `AddCoins`: the account credited and the coins. -/
abbrev Transfer := AccAddress × Coins

/-- The bank state after a list of `AddCoins` calls made one after the other. -/
def applyTransfers {σ : Type} (bankKeeper : BankKeeper σ) (ctx : σ) (ts : List Transfer) : σ :=
  ts.foldl (fun s t => (bankKeeper.AddCoins s t.1 t.2).1) ctx

/-- The transfers a true-side position is due: a TokenVote gets its stake back
and one reward coin in the category denomination; nothing else is paid. -/
def winnerTransfers (reward : Int) (denom : String) : Voter → List Transfer
  | .tokenVote v => [(v.Creator, [v.Amount]), (v.Creator, [⟨denom, reward⟩])]
  | _ => []

/-- The transfers a false-side position is due: a Backing gets its amount back;
nothing else is paid. -/
def loserTransfers : Voter → List Transfer
  | .backing v => [(v.Creator, [v.Amount])]
  | _ => []

/-- All transfers of a confirmed settlement with share `reward`, in the order
they are made. -/
def confirmedTransfers (reward : Int) (denom : String) (votes : poll) : List Transfer :=
  votes.trueVotes.flatMap (winnerTransfers reward denom) ++ votes.falseVotes.flatMap loserTransfers

/-- A bank that never fails. -/
def BankKeeper.neverFails {σ : Type} (bankKeeper : BankKeeper σ) : Prop :=
  ∀ s addr coins, (bankKeeper.AddCoins s addr coins).2 = none

/-! ## banks to run the code on -/

/-- A bank held as the journal of the credits made to it. -/
abbrev Journal := List Transfer

/-- The bank that records every credit and never fails. -/
def journalKeeper : BankKeeper Journal :=
  ⟨fun s addr coins => (s ++ [(addr, coins)], none)⟩

/-- The balance of an account in one denomination: the sum of the amounts
credited to it in that denomination. -/
def Journal.balance (s : Journal) (addr : AccAddress) (denom : String) : Int :=
  (s.map fun t =>
    if t.1 = addr then ((t.2.filter fun c => c.Denom = denom).map Coin.Amount).sum else 0).sum

/-- Go `trubank.ErrTransferringCoinsToUser` (`x/trubank/errors.go`).  The message
names the account by its number here, where the code prints the address. -/
def ErrTransferringCoinsToUser (creator : AccAddress) : Error :=
  ⟨"tbank", 1201, "Coins could not be added to the user " ++ toString creator⟩

/-- A bank that records every credit but refuses coins of one denomination,
leaving its state as it was. -/
def refusingKeeper (refused : String) : BankKeeper Journal :=
  ⟨fun s addr coins =>
    if coins.any (fun c => c.Denom == refused) then (s, some (ErrTransferringCoinsToUser addr))
    else (s ++ [(addr, coins)], none)⟩

/-! ## `x/challenge/tick.go` -/

/-- The part of a validation game the tick reads; `Started` is the result of
the method `game.Started()`. -/
structure Game where
  ID : Int
  StoryID : Int
  ExpiresTime : Int
  Started : Bool
deriving DecidableEq, Repr

/-- The challenge `Keeper` as the tick uses it: the game keeper, the challenge
IDs stored under the key space of a game in iteration order, the challenge
lookup `Get`, the bank keeper and the story keeper. -/
structure Keeper (β γ : Type) where
  gameKeeperGet : Int → Except Error Game
  challengeIDs : Int → List Int
  Get : Int → Except Error Challenge
  bankKeeper : BankKeeper β
  EndChallenge : γ → Int → γ × Option Error

/-- What a tick leaves: the queue, the bank, the stories and the error. -/
structure Tick (β γ : Type) where
  queue : List Int
  bank : β
  stories : γ
  err : Option Error

/-- The loop of `returnFunds` over the challenge IDs of a game. -/
def returnFundsLoop {β γ : Type} (k : Keeper β γ) : List Int → β → β × Option Error
  | [], b => (b, none)
  | challengeID :: rest, b =>
    match k.Get challengeID with
    | .error e => (b, some e)
    | .ok challenge =>
      let r := k.bankKeeper.AddCoins b challenge.Creator [challenge.Amount]
      match r.2 with
      | some e => (r.1, some e)
      | none => returnFundsLoop k rest r.1

/-- Go `returnFunds`: iterates through the challenge keyspace and returns funds. -/
def returnFunds {β γ : Type} (k : Keeper β γ) (b : β) (gameID : Int) : β × Option Error :=
  returnFundsLoop k (k.challengeIDs gameID) b

/-- Go `checkExpiredGames`: checks each validation game to see if it has expired,
calling itself until the head of the queue has not expired.  `now` is the
block time. -/
def checkExpiredGames {β γ : Type} (k : Keeper β γ) (now : Int) :
    List Int → β → γ → Tick β γ
  | [], b, s => ⟨[], b, s, none⟩
  | gameID :: rest, b, s =>
    match k.gameKeeperGet gameID with
    | .error e => ⟨gameID :: rest, b, s, some e⟩
    | .ok game =>
      if game.ExpiresTime > now then ⟨gameID :: rest, b, s, none⟩
      else if !game.Started then
        let r := returnFunds k b game.ID
        match r.2 with
        | some e => ⟨rest, r.1, s, some e⟩
        | none =>
          let r2 := k.EndChallenge s game.StoryID
          match r2.2 with
          | some e => ⟨rest, r.1, r2.1, some e⟩
          | none => checkExpiredGames k now rest r.1 r2.1
      else checkExpiredGames k now rest b s

/-- Whether the queued ID resolves to a game whose `ExpiresTime` is not after
the block time. -/
def hasExpired {β γ : Type} (k : Keeper β γ) (now : Int) (gameID : Int) : Bool :=
  match k.gameKeeperGet gameID with
  | .ok game => decide (game.ExpiresTime ≤ now)
  | .error _ => false

/-- Go `NewResponseEndBlock`: is called at the end of every block tick; an error
of `checkExpiredGames` is a panic (`none`). -/
def NewResponseEndBlock {β γ : Type} (k : Keeper β γ) (now : Int) (q : List Int) (b : β)
    (s : γ) : Option (Tick β γ) :=
  match (checkExpiredGames k now q b s).err with
  | some _ => none
  | none => some (checkExpiredGames k now q b s)

/-! ## stories -/

/-- The lifecycle state of a story. -/
inductive State where
  | Created
  | Challenged
  | Confirmed
  | Rejected
  | Expired
deriving DecidableEq, Repr

/-- The `app.Timestamp` of a record. -/
structure Timestamp where
  CreatedBlock : Int
  CreatedTime : Int
  UpdatedBlock : Int
  UpdatedTime : Int
deriving DecidableEq, Repr

/-- The `Story` record, with the fields `NewStory` fills. -/
structure Story where
  ID : Int
  Body : String
  CategoryID : Int
  Creator : AccAddress
  GameID : Int
  State : State
  Kind : Int
  Timestamp : Timestamp
deriving DecidableEq, Repr

/-- The stories of the key-value store.  A story is stored under the key of its
own `ID` (`setStory`), so the store is the list of its records, newest first. -/
abbrev StoryStore := List Story

/-- Modelled from the spec: `ErrStoryNotFound` is absent from the sources; it is
the not-found error of a story ID, its code and text are placeholders. -/
def ErrStoryNotFound (storyID : Int) : Error :=
  ⟨"stories", 0, "Story with id " ++ toString storyID ++ " not found"⟩

/-- Go `GetStory`: the story with the given id, or the not-found error. -/
def GetStory (store : StoryStore) (storyID : Int) : Except Error Story :=
  match store.find? (fun story => story.ID == storyID) with
  | none => .error (ErrStoryNotFound storyID)
  | some story => .ok story

/-- Go `setStory`: saves a story under the key of its ID, replacing what was there. -/
def setStory (store : StoryStore) (story : Story) : StoryStore :=
  story :: store.filter (fun old => old.ID != story.ID)

/-- Modelled from the spec: `EndChallenge` of the story keeper is absent from the
sources; the spec has the claim marked Expired, and an unknown story ID is a
returned not-found error, as in `StartChallenge`. -/
def EndChallenge (store : StoryStore) (storyID : Int) : StoryStore × Option Error :=
  match GetStory store storyID with
  | .error e => (store, some e)
  | .ok story => (setStory store { story with State := .Expired }, none)

/-- A challenge keeper over the journal bank and the story store, for a game
table, a challenge index and a challenge table. -/
def storeKeeper (games : Int → Except Error Game) (index : Int → List Int)
    (table : Int → Except Error Challenge) : Keeper Journal StoryStore :=
  ⟨games, index, table, journalKeeper, EndChallenge⟩

/-- The challenges an index lists, in order, leaving out IDs that do not
resolve. -/
def challengesOf {β γ : Type} (k : Keeper β γ) (gameID : Int) : List Challenge :=
  (k.challengeIDs gameID).filterMap fun id =>
    match k.Get id with
    | .ok c => some c
    | .error _ => none

/-! ## `x/claim/keeper.go` -/

/-- A value of Go type `uint64`: arithmetic wraps at `2 ^ 64`. -/
def uint64 (n : Nat) : Nat := n % 2 ^ 64

/-- Go `Coin.Add` of the sdk the claim module is written against: the sum as a
new coin, leaving the receiver as it is; different denominations are a panic
(`none`). -/
def Coin.Add (coin coinB : Coin) : Option Coin :=
  if coin.Denom = coinB.Denom then some ⟨coin.Denom, coin.Amount + coinB.Amount⟩ else none

/-- The `Claim` record: identity, content and the running totals. -/
structure Claim where
  ID : Nat
  CommunityID : String
  Body : String
  Creator : AccAddress
  Source : String
  TotalBacked : Coin
  TotalChallenged : Coin
  TotalStakers : Nat
  CreatedTime : Int
deriving DecidableEq, Repr

/-- The stake denomination (`app.StakeDenom`). -/
def StakeDenom : String := "trusteak"

/-- Modelled from the spec: `NewClaim` is absent from the sources; a new claim
has the identity and content given and running totals of zero. -/
def NewClaim (id : Nat) (communityID body : String) (creator : AccAddress) (source : String)
    (createdTime : Int) : Claim :=
  ⟨id, communityID, body, creator, source, ⟨StakeDenom, 0⟩, ⟨StakeDenom, 0⟩, 0, createdTime⟩

/-- Modelled from the spec: the error constructors of the claim module are absent
from the sources; this is the validation error of a body that is too short,
its code and text are placeholders. -/
def ErrInvalidBodyTooShort (body : String) : Error :=
  ⟨"claim", 1, "Invalid body, too short: " ++ body⟩

/-- Modelled from the spec: the validation error of a body that is too long; code
and text are placeholders. -/
def ErrInvalidBodyTooLong : Error :=
  ⟨"claim", 2, "Invalid body, too long"⟩

/-- Modelled from the spec: the validation error of a jailed creator; code and
text are placeholders. -/
def ErrCreatorJailed (creator : AccAddress) : Error :=
  ⟨"claim", 3, "Creator is jailed: " ++ toString creator⟩

/-- Modelled from the spec: the validation error of an invalid community; code and
text are placeholders. -/
def ErrInvalidCommunityID (id : String) : Error :=
  ⟨"claim", 4, "Invalid community: " ++ id⟩

/-- Modelled from the spec: the not-found error of a claim ID; code and text are
placeholders. -/
def ErrUnknownClaim (id : Nat) : Error :=
  ⟨"claim", 5, "Unknown claim: " ++ toString id⟩

/-- The part of a `community.Community` that `SubmitClaim` reads. -/
structure Community where
  ID : String
deriving DecidableEq, Repr

/-- The claim `Keeper`: the two length parameters of its parameter store, and
the account keeper and the community keeper it calls, each returning its
value together with an error or nil. -/
structure ClaimKeeper where
  minClaimLength : Int
  maxClaimLength : Int
  IsJailed : AccAddress → Bool × Option Error
  Community : String → Community × Option Error

/-- The key-value store of the claim module, by key space: the claim-ID counter
under `ClaimIDKey`, the claim records under the key of their ID (newest
first), and the three association key spaces. -/
structure ClaimStore where
  claimID : Option Nat
  claims : List Claim
  communityClaims : List (String × Nat)
  creatorClaims : List (AccAddress × Nat)
  createdTimeClaims : List (Int × Nat)
deriving DecidableEq, Repr

/-- Writing one association key: the key carries the claim ID, so writing it
again changes nothing. -/
def setAssociation {α : Type} [DecidableEq α] (entries : List (α × Nat)) (a : α) (claimID : Nat) :
    List (α × Nat) :=
  if (a, claimID) ∈ entries then entries else (a, claimID) :: entries

/-- Go `Claim`: gets a single claim by its ID; `none` is `ok = false`. -/
def ClaimKeeper.Claim (store : ClaimStore) (id : Nat) : Option TruChain.Claim :=
  store.claims.find? (fun claim => claim.ID == id)

/-- Go `setClaim`: sets a claim in store, under the key of its ID. -/
def ClaimKeeper.setClaim (store : ClaimStore) (claim : TruChain.Claim) : ClaimStore :=
  { store with claims := claim :: store.claims.filter (fun old => old.ID != claim.ID) }

/-- Go `claimID`: gets the highest claim ID. -/
def ClaimKeeper.claimID (store : ClaimStore) : Nat × Option Error :=
  match store.claimID with
  | none => (0, some (ErrUnknownClaim 0))
  | some claimID => (claimID, none)

/-- Go `setClaimID`: set the claim ID. -/
def ClaimKeeper.setClaimID (store : ClaimStore) (claimID : Nat) : ClaimStore :=
  { store with claimID := some claimID }

/-- Go `setCommunityClaim`: sets a community to claim association in store. -/
def ClaimKeeper.setCommunityClaim (store : ClaimStore) (communityID : String) (claimID : Nat) :
    ClaimStore :=
  { store with communityClaims := setAssociation store.communityClaims communityID claimID }

/-- Go `setCreatorClaim`. -/
def ClaimKeeper.setCreatorClaim (store : ClaimStore) (creator : AccAddress) (claimID : Nat) :
    ClaimStore :=
  { store with creatorClaims := setAssociation store.creatorClaims creator claimID }

/-- Go `setCreatedTimeClaim`. -/
def ClaimKeeper.setCreatedTimeClaim (store : ClaimStore) (createdTime : Int) (claimID : Nat) :
    ClaimStore :=
  { store with createdTimeClaims := setAssociation store.createdTimeClaims createdTime claimID }

/-- Go `validateLength`: the body is measured in runes. -/
def ClaimKeeper.validateLength (k : ClaimKeeper) (body : String) : Option Error :=
  let len : Int := body.length
  if len < k.minClaimLength then some (ErrInvalidBodyTooShort body)
  else if len > k.maxClaimLength then some ErrInvalidBodyTooLong
  else none

/-- Go `SubmitClaim`: creates a new claim in the claim key-value store.  `now` is
the block time.  Returns the store and the claim or the error. -/
def ClaimKeeper.SubmitClaim (k : ClaimKeeper) (now : Int) (store : ClaimStore)
    (body communityID : String) (creator : AccAddress) (source : String) :
    ClaimStore × Except Error TruChain.Claim :=
  match k.validateLength body with
  | some err => (store, .error err)
  | none =>
    let jailed := k.IsJailed creator
    match jailed.2 with
    | some err => (store, .error err)
    | none =>
      if jailed.1 then (store, .error (ErrCreatorJailed creator))
      else
        let community := k.Community communityID
        match community.2 with
        | some _ => (store, .error (ErrInvalidCommunityID community.1.ID))
        | none =>
          let id := ClaimKeeper.claimID store
          match id.2 with
          | some err => (store, .error err)
          | none =>
            let claimID := id.1
            let claim := NewClaim claimID communityID body creator source now
            let s1 := ClaimKeeper.setClaim store claim
            let s2 := ClaimKeeper.setClaimID s1 (uint64 (claimID + 1))
            let s3 := ClaimKeeper.setCommunityClaim s2 claim.CommunityID claimID
            let s4 := ClaimKeeper.setCreatorClaim s3 claim.Creator claimID
            let s5 := ClaimKeeper.setCreatedTimeClaim s4 claim.CreatedTime claimID
            (s5, .ok claim)

/-- Go `AddBackingStake`: adds a stake amount to the total backing amount.  The
sum computed by `claim.TotalBacked.Add(stake)` is not assigned.  `none` is a
panic. -/
def ClaimKeeper.AddBackingStake (store : ClaimStore) (id : Nat) (stake : Coin) :
    Option (ClaimStore × Option Error) :=
  match ClaimKeeper.Claim store id with
  | none => some (store, some (ErrUnknownClaim id))
  | some claim =>
    match claim.TotalBacked.Add stake with
    | none => none
    | some _ =>
      let claim1 := { claim with TotalStakers := uint64 (claim.TotalStakers + 1) }
      some (ClaimKeeper.setClaim store claim1, none)

/-- Go `AddChallengeStake`: adds a stake amount to the total challenge amount. -/
def ClaimKeeper.AddChallengeStake (store : ClaimStore) (id : Nat) (stake : Coin) :
    Option (ClaimStore × Option Error) :=
  match ClaimKeeper.Claim store id with
  | none => some (store, some (ErrUnknownClaim id))
  | some claim =>
    match claim.TotalChallenged.Add stake with
    | none => none
    | some _ =>
      let claim1 := { claim with TotalStakers := uint64 (claim.TotalStakers + 1) }
      some (ClaimKeeper.setClaim store claim1, none)

/-- One submission: the arguments of `SubmitClaim` and the block time. -/
structure Submission where
  now : Int
  body : String
  communityID : String
  creator : AccAddress
  source : String
deriving DecidableEq, Repr

/-- Submissions made one after the other: the store left and the IDs of the
claims of the successful ones, in order. -/
def ClaimKeeper.submitAll (k : ClaimKeeper) : ClaimStore → List Submission → ClaimStore × List Nat
  | store, [] => (store, [])
  | store, sub :: rest =>
    let r := k.SubmitClaim sub.now store sub.body sub.communityID sub.creator sub.source
    match r.2 with
    | .error _ => k.submitAll r.1 rest
    | .ok claim =>
      let r2 := k.submitAll r.1 rest
      (r2.1, claim.ID :: r2.2)

/-- The store a successful `SubmitClaim` leaves, from the counter value `n`. -/
def submittedStore (store : ClaimStore) (n : Nat) (claim : Claim) : ClaimStore :=
  ClaimKeeper.setCreatedTimeClaim
    (ClaimKeeper.setCreatorClaim
      (ClaimKeeper.setCommunityClaim
        (ClaimKeeper.setClaimID (ClaimKeeper.setClaim store claim) (uint64 (n + 1)))
        claim.CommunityID n)
      claim.Creator n)
    claim.CreatedTime n

/-! ## `x/story/keeper.go` -/

/-- The block header of the context: height and time. -/
structure Header where
  Height : Int
  Time : Int
deriving DecidableEq, Repr

/-- Modelled from the spec: `app.NewTimestamp` is absent from the sources; a new
record is created and updated at the block of the header. -/
def NewTimestamp (header : Header) : Timestamp :=
  ⟨header.Height, header.Time, header.Height, header.Time⟩

/-- Modelled from the spec: `Timestamp.Update` is absent from the sources; the
record keeps its creation and is updated at the block of the header. -/
def Timestamp.Update (t : Timestamp) (header : Header) : Timestamp :=
  ⟨t.CreatedBlock, t.CreatedTime, header.Height, header.Time⟩

/-- The key of one entry of a story list: the category, the challenged flag of
the key space, and the timestamp. -/
structure ListKey where
  CategoryID : Int
  Challenged : Bool
  Timestamp : Timestamp
deriving DecidableEq, Repr

/-- Modelled from the spec: `storyIDsByCategoryKey` is absent from the sources; the
index is keyed by category, timestamp and the challenged flag. -/
def storyIDsByCategoryKey (categoryID : Int) (timestamp : Timestamp) (challenged : Bool) :
    ListKey :=
  ⟨categoryID, challenged, timestamp⟩

/-- The order of the keys of one key space: by creation, then by update. -/
def Timestamp.before (a b : Timestamp) : Bool :=
  decide (a.CreatedTime < b.CreatedTime) ||
  (decide (a.CreatedTime = b.CreatedTime) &&
    (decide (a.CreatedBlock < b.CreatedBlock) ||
    (decide (a.CreatedBlock = b.CreatedBlock) &&
      (decide (a.UpdatedTime < b.UpdatedTime) ||
      (decide (a.UpdatedTime = b.UpdatedTime) && decide (a.UpdatedBlock < b.UpdatedBlock))))))

/-- The order of the keys of the store: by category, key space and timestamp. -/
def ListKey.before (a b : ListKey) : Bool :=
  decide (a.CategoryID < b.CategoryID) ||
  (decide (a.CategoryID = b.CategoryID) &&
    ((!a.Challenged && b.Challenged) ||
    (a.Challenged == b.Challenged && a.Timestamp.before b.Timestamp)))

/-- The `Set` of the key-value store on the entries of the story lists, which
are held in the order of their keys: the value of a key that is there is
replaced, a new key is put in its place. -/
def listSet : List (ListKey × Int) → ListKey → Int → List (ListKey × Int)
  | [], key, value => [(key, value)]
  | (key0, value0) :: rest, key, value =>
    if key0 = key then (key, value) :: rest
    else if key.before key0 then (key, value) :: (key0, value0) :: rest
    else (key0, value0) :: listSet rest key value

/-- The key-value store of the story module: the story records under the key of
their ID, the entries of the story lists in key order, and the counter of
`GetNextID`. -/
structure StoryKV where
  stories : StoryStore
  lists : List (ListKey × Int)
  len : Int
deriving DecidableEq, Repr

/-- The story `Keeper`: the category keeper it calls, as the error or nil of
`GetCategory`. -/
structure StoryKeeper where
  GetCategory : Int → Option Error

/-- Modelled from the spec: `category.ErrInvalidCategory` is absent from the
sources; the validation error of an invalid category reference, its code and
text are placeholders. -/
def ErrInvalidCategory (categoryID : Int) : Error :=
  ⟨"categories", 0, "Invalid category: " ++ toString categoryID⟩

/-- Modelled from the spec: `ErrStoriesWithCategoryNotFound` is absent from the
sources; the not-found error of the stories of a category, its code and text
are placeholders. -/
def ErrStoriesWithCategoryNotFound (categoryID : Int) : Error :=
  ⟨"stories", 1, "Stories with category " ++ toString categoryID ++ " not found"⟩

/-- Modelled from the spec: `GetNextID` is absent from the sources; story IDs are
a counter of the store, the next ID is one more than the last. -/
def GetNextID (store : StoryKV) : Int × StoryKV :=
  (store.len + 1, { store with len := store.len + 1 })

/-- Go `appendStoriesList`: sets the story ID under the key. -/
def appendStoriesList (store : StoryKV) (key : ListKey) (story : Story) : StoryKV :=
  { store with lists := listSet store.lists key story.ID }

/-- Go `UpdateStory`: updates an existing story in the store. -/
def UpdateStory (ctx : Header) (store : StoryKV) (story : Story) : StoryKV :=
  let newStory : Story :=
    ⟨story.ID, story.Body, story.CategoryID, story.Creator, story.GameID, story.State,
      story.Kind, story.Timestamp.Update ctx⟩
  { store with stories := setStory store.stories newStory }

/-- Go `StartChallenge`: records challenging a story. -/
def StoryKeeper.StartChallenge (_k : StoryKeeper) (ctx : Header) (store : StoryKV)
    (storyID : Int) : StoryKV × Option Error :=
  match GetStory store.stories storyID with
  | .error err => (store, some err)
  | .ok story0 =>
    let story : Story := { story0 with State := .Challenged }
    let s1 := UpdateStory ctx store story
    let s2 := appendStoriesList s1
      (storyIDsByCategoryKey story.CategoryID story.Timestamp true) story
    (s2, none)

/-- Go `NewStory`: adds a story to the key-value store. -/
def StoryKeeper.NewStory (k : StoryKeeper) (ctx : Header) (store : StoryKV) (body : String)
    (categoryID : Int) (creator : AccAddress) (kind : Int) : StoryKV × Int × Option Error :=
  match k.GetCategory categoryID with
  | some _ => (store, 0, some (ErrInvalidCategory categoryID))
  | none =>
    let next := GetNextID store
    let story : Story :=
      ⟨next.1, body, categoryID, creator, 0, .Created, kind, NewTimestamp ctx⟩
    let s1 : StoryKV := { next.2 with stories := setStory next.2.stories story }
    let s2 := appendStoriesList s1 (storyIDsByCategoryKey categoryID story.Timestamp false) story
    (s2, story.ID, none)

/-- Go `storyIDsByCategory`: the story IDs under the key space of a category,
in key order. -/
def storyIDsByCategory (store : StoryKV) (catID : Int) (challenged : Bool) : List Int :=
  (store.lists.filter fun e => e.1.CategoryID == catID && e.1.Challenged == challenged).map
    fun e => e.2

/-- The loop of `storiesByID`, from the stories collected so far. -/
def storiesByIDLoop (store : StoryKV) : List Int → List Story → List Story × Option Error
  | [], stories => (stories, none)
  | storyID :: rest, stories =>
    match GetStory store.stories storyID with
    | .error _ => (stories, some (ErrStoryNotFound storyID))
    | .ok story => storiesByIDLoop store rest (stories ++ [story])

/-- Go `storiesByID`. -/
def storiesByID (store : StoryKV) (storyIDs : List Int) : List Story × Option Error :=
  storiesByIDLoop store storyIDs []

/-- Go `storiesByCategory`. -/
def storiesByCategory (store : StoryKV) (catID : Int) (challenged : Bool) :
    List Story × Option Error :=
  let storyIDs := storyIDsByCategory store catID challenged
  if storyIDs.length = 0 then ([], some (ErrStoriesWithCategoryNotFound catID))
  else storiesByID store storyIDs

/-- Go `GetStoriesByCategory`: gets the stories for a given category id. -/
def GetStoriesByCategory (store : StoryKV) (catID : Int) : List Story × Option Error :=
  storiesByCategory store catID false

/-- Go `GetChallengedStoriesWithCategory`: gets all challenged stories for a
category. -/
def GetChallengedStoriesWithCategory (store : StoryKV) (catID : Int) :
    List Story × Option Error :=
  storiesByCategory store catID true

/-- The inner loop of `GetFeedByCategory`: whether the story ID matches one of
the challenged story IDs. -/
def isMatch (sid : Int) : List Int → Bool
  | [] => false
  | cid :: rest => if sid == cid then true else isMatch sid rest

/-- The outer loop of `GetFeedByCategory`: make a list of all unchallenged story
ids. -/
def unchallengedStoryIDs (challengedStoryIDs : List Int) : List Int → List Int → List Int
  | [], acc => acc
  | sid :: rest, acc =>
    if !isMatch sid challengedStoryIDs then
      unchallengedStoryIDs challengedStoryIDs rest (acc ++ [sid])
    else unchallengedStoryIDs challengedStoryIDs rest acc

/-- The local `feedIDs` of `GetFeedByCategory`: challenged story ids, then
unchallenged story ids. -/
def feedIDs (store : StoryKV) (catID : Int) : List Int :=
  let storyIDs := storyIDsByCategory store catID false
  let challengedStoryIDs := storyIDsByCategory store catID true
  challengedStoryIDs ++ unchallengedStoryIDs challengedStoryIDs storyIDs []

/-- Go `GetFeedByCategory`: gets stories ordered by challenged stories first. -/
def GetFeedByCategory (store : StoryKV) (catID : Int) : List Story × Option Error :=
  storiesByID store (feedIDs store catID)

/-- One operation on the story store. -/
inductive StoryOp where
  | newStory (ctx : Header) (body : String) (categoryID : Int) (creator : AccAddress) (kind : Int)
  | startChallenge (ctx : Header) (storyID : Int)
deriving DecidableEq, Repr

/-- The store after one operation. -/
def StoryKeeper.apply (k : StoryKeeper) (store : StoryKV) : StoryOp → StoryKV
  | .newStory ctx body categoryID creator kind =>
    (k.NewStory ctx store body categoryID creator kind).1
  | .startChallenge ctx storyID => (k.StartChallenge ctx store storyID).1

/-- The store after a sequence of operations. -/
def StoryKeeper.run (k : StoryKeeper) (store : StoryKV) (ops : List StoryOp) : StoryKV :=
  ops.foldl k.apply store

/-- The empty story store. -/
def emptyStoryKV : StoryKV := ⟨[], [], 0⟩

/-- The place of a state in the lifecycle: Created, then Challenged, then the
terminal states. -/
def State.rank : State → Nat
  | .Created => 0
  | .Challenged => 1
  | .Confirmed => 2
  | .Rejected => 2
  | .Expired => 2

/-- The stores the operations keep: every story record has an ID the counter
has passed and is Created or Challenged, and every entry of the story lists is
the ID of a stored story. -/
def StoryKV.wellFormed (store : StoryKV) : Prop :=
  (∀ st ∈ store.stories, st.ID ≤ store.len ∧ st.State.rank ≤ 1) ∧
  (∀ e ∈ store.lists, ∃ st, GetStory store.stories e.2 = .ok st)

/-! ## example data -/

/-- A game table for examples: game `n` is on story `n + 6`, expires at time
`100 * n` and never started. -/
def sampleGames (gameID : Int) : Except Error Game :=
  .ok ⟨gameID, gameID + 6, 100 * gameID, false⟩

/-- A challenge index for examples: game 1 holds the challenges 11 and 12. -/
def sampleIndex (gameID : Int) : List Int :=
  if gameID = 1 then [11, 12] else []

/-- A challenge table for examples: challenge `n` was made by account `n` with
a stake of 10. -/
def sampleTable (challengeID : Int) : Except Error Challenge :=
  .ok ⟨challengeID.toNat, ⟨"trusteak", 10⟩⟩

/-- A story for examples, in state Challenged. -/
def sampleStory (storyID : Int) : Story :=
  ⟨storyID, "Body of story.", 1, 1, 0, .Challenged, 0, ⟨0, 0, 0, 0⟩⟩

/-- The example keeper over a bank that refuses the stake denomination. -/
def sampleRefusingKeeper : Keeper Journal StoryStore :=
  ⟨sampleGames, sampleIndex, sampleTable, refusingKeeper "trusteak", EndChallenge⟩

/-- The example stores keep the stories 7 and 8. -/
def sampleInv (_ : Journal) (s : StoryStore) : Prop :=
  (∃ story, GetStory s 7 = .ok story) ∧ (∃ story, GetStory s 8 = .ok story)

/-- A claim keeper for examples: bodies of 25 to 350 runes, account 9 jailed,
account 8 unknown to the account keeper, the community "crypto" known. -/
def sampleClaimKeeper : ClaimKeeper :=
  ⟨25, 350,
   fun creator =>
     if creator = 8 then (false, some ⟨"account", 0, "account not found"⟩)
     else (decide (creator = 9), none),
   fun id => if id = "crypto" then (⟨id⟩, none) else (⟨""⟩, some ⟨"community", 0, "not found"⟩)⟩

/-- A body of 30 runes. -/
def sampleBody : String := "Bitcoin is a store of value!!!"

/-- A store for examples: the counter at 1 and no claim. -/
def sampleClaimStore : ClaimStore := ⟨some 1, [], [], [], []⟩

/-- A story keeper for examples: every category is found. -/
def sampleStoryKeeper : StoryKeeper := ⟨fun _ => none⟩

/-- A game table for examples in which game 3 does not resolve. -/
def sampleGamesBut3 (gameID : Int) : Except Error Game :=
  if gameID = 3 then .error ⟨"games", 0, "Game not found"⟩ else sampleGames gameID

/-- A stored claim for examples: claim 1, with nothing staked yet. -/
def sampleClaim : Claim := NewClaim 1 "crypto" sampleBody 1 "http://x" 100

/-- A store for examples holding claim 1, the counter at 2. -/
def sampleClaimStore1 : ClaimStore :=
  ⟨some 2, [sampleClaim], [("crypto", 1)], [(1, 1)], [(100, 1)]⟩

/-- A store for examples whose counter holds the largest `uint64`. -/
def sampleClaimStoreMax : ClaimStore := ⟨some (2 ^ 64 - 1), [], [], [], []⟩

/-- A submission for examples: a body of 30 runes in the community "crypto" by
account 1. -/
def sampleSubmission : Submission := ⟨100, sampleBody, "crypto", 1, "http://x"⟩

/-- A store for examples: story 7, listed in category 1, has expired. -/
def sampleExpiredKV : StoryKV := ⟨[{ sampleStory 7 with State := .Expired }],
   [(storyIDsByCategoryKey 1 ⟨0, 0, 0, 0⟩ false, 7)], 7⟩

/-- Operations for examples: three stories of category 1, made in the blocks 1,
2 and 3. -/
def sampleStoryOps : List StoryOp :=
  [.newStory ⟨1, 10⟩ "Body of story one." 1 1 0,
   .newStory ⟨2, 20⟩ "Body of story two." 1 2 0,
   .newStory ⟨3, 30⟩ "Body of story three." 1 1 0]

/-- A store for examples: the three stories, story 2 challenged in block 4. -/
def sampleFeedKV : StoryKV :=
  sampleStoryKeeper.run emptyStoryKV (sampleStoryOps ++ [.startChallenge ⟨4, 40⟩ 2])

/-- A release for examples that checks as v0.25 does: no panic on another
denomination or on a negative amount. -/
def lenientRelease : Release := ⟨false, false, false, fun _ => true⟩

/-- A release for examples that checks as v0.27 and later do: a panic on another
denomination and on a negative amount. -/
def strictRelease : Release := ⟨true, true, true, fun _ => true⟩

/-! ## lemmas: coins and rounding -/

/-- Function `Coin.Plus` on a coin of the same denomination adds the amounts. -/
theorem Coin.Plus_sameDenom (coin coinB : Coin) (h : coinB.Denom = coin.Denom) :
    coin.Plus coinB = ⟨coin.Denom, coin.Amount + coinB.Amount⟩ := by
  simp [Coin.Plus, Coin.SameDenomAs, h]

/-- Function `Coin.Minus` on a coin of the same denomination subtracts the amounts. -/
theorem Coin.Minus_sameDenom (coin coinB : Coin) (h : coinB.Denom = coin.Denom) :
    coin.Minus coinB = ⟨coin.Denom, coin.Amount - coinB.Amount⟩ := by
  simp [Coin.Minus, Coin.SameDenomAs, h]

/-- The scale of `sdk.Dec` as a numeral. -/
theorem precisionReuse_eq : precisionReuse = 10000000000 := by
  norm_num [precisionReuse, Precision]

/-- The tie point of `RoundInt` as a numeral. -/
theorem fivePrecision_eq : fivePrecision = 5000000000 := by
  norm_num [fivePrecision, precisionReuse_eq]

/-- The scaled quotient splits into the integer quotient and the first decimals
of the fraction. -/
theorem scaled_quotient (p n : Int) (hn : 0 < n) :
    (p * precisionReuse) / n = (p % n * precisionReuse) / n + p / n * precisionReuse := by
  have h : p * precisionReuse = p % n * precisionReuse + n * (p / n * precisionReuse) := by
    have := Int.ediv_add_emod p n
    calc p * precisionReuse = (n * (p / n) + p % n) * precisionReuse := by rw [this]
      _ = p % n * precisionReuse + n * (p / n * precisionReuse) := by ring
  conv_lhs => rw [h]
  exact Int.add_mul_ediv_left _ _ (ne_of_gt hn)

/-- What `voterRewardAmount` computes for a non-negative pool and a positive
count, in terms of the decimals `t` of the fraction. -/
theorem voterRewardAmount_decimals (pool : Coin) (n : Int) (hp : 0 ≤ pool.Amount) (hn : 0 < n) :
    ∃ t : Int, t = (pool.Amount % n * 10000000000) / n ∧ 0 ≤ t ∧ t < 10000000000 ∧
      voterRewardAmount pool n = some
        (if t = 0 then pool.Amount / n
         else if t < 5000000000 then pool.Amount / n
         else if t > 5000000000 then pool.Amount / n + 1
         else if (pool.Amount / n) % 2 = 0 then pool.Amount / n
         else pool.Amount / n + 1) := by
  have hr0 : 0 ≤ pool.Amount % n := Int.emod_nonneg _ (ne_of_gt hn)
  have hrn : pool.Amount % n < n := Int.emod_lt_of_pos _ hn
  have hq0 : 0 ≤ pool.Amount / n := Int.ediv_nonneg hp (le_of_lt hn)
  refine ⟨(pool.Amount % n * 10000000000) / n, rfl, ?_, ?_, ?_⟩
  · exact Int.ediv_nonneg (by positivity) (le_of_lt hn)
  · rw [Int.ediv_lt_iff_lt_mul hn]; nlinarith
  · have ht0 : 0 ≤ (pool.Amount % n * 10000000000) / n :=
      Int.ediv_nonneg (by positivity) (le_of_lt hn)
    have htS : (pool.Amount % n * 10000000000) / n < 10000000000 := by
      rw [Int.ediv_lt_iff_lt_mul hn]; nlinarith
    have hd : Int.tdiv (pool.Amount * precisionReuse) n
        = (pool.Amount % n * 10000000000) / n + pool.Amount / n * 10000000000 := by
      rw [Int.tdiv_eq_ediv (by rw [precisionReuse_eq]; positivity) (le_of_lt hn),
        scaled_quotient _ _ hn, precisionReuse_eq]
    have hd0 : 0 ≤ (pool.Amount % n * 10000000000) / n + pool.Amount / n * 10000000000 := by
      positivity
    have hquo : ((pool.Amount % n * 10000000000) / n + pool.Amount / n * 10000000000) / 10000000000
        = pool.Amount / n := by
      rw [Int.add_mul_ediv_right _ _ (by norm_num), Int.ediv_eq_zero_of_lt ht0 htS]; simp
    have hrem : ((pool.Amount % n * 10000000000) / n + pool.Amount / n * 10000000000) % 10000000000
        = (pool.Amount % n * 10000000000) / n := by
      rw [Int.add_mul_emod_self, Int.emod_eq_of_lt ht0 htS]
    simp only [voterRewardAmount, ne_of_gt hn, if_false, NewDecFromInt, Dec.QuoInt,
      Option.map_some', Dec.RoundInt, chopPrecisionAndRound, hd]
    simp only [not_lt.mpr hd0, if_false, chopPrecisionAndRoundNonNeg,
      precisionReuse_eq, fivePrecision_eq,
      Int.tdiv_eq_ediv hd0 (by norm_num : (0:Int) ≤ 10000000000),
      Int.tmod_eq_emod hd0 (by norm_num : (0:Int) ≤ 10000000000), hquo, hrem]

/-- The pool of positions whose coins are all in the denomination of the pool. -/
theorem confirmedPool_sameDenom (falseVotes : List Voter) (pool : Coin)
    (hkind : ∀ v ∈ falseVotes, v.isKnownKind = true)
    (hb : ∀ b ∈ backings falseVotes, b.Interest.Denom = pool.Denom)
    (hc : ∀ c ∈ challenges falseVotes, c.Amount.Denom = pool.Denom)
    (ht : ∀ t ∈ tokenVotes falseVotes, t.Amount.Denom = pool.Denom) :
    confirmedPool falseVotes pool =
      (⟨pool.Denom, pool.Amount
          + ((backings falseVotes).map fun b => b.Interest.Amount).sum
          + ((challenges falseVotes).map fun c => c.Amount.Amount).sum
          + ((tokenVotes falseVotes).map fun t => t.Amount.Amount).sum⟩, none) := by
  induction falseVotes generalizing pool with
  | nil => simp [confirmedPool, backings, challenges, tokenVotes]
  | cons v rest ih =>
    have hrest : ∀ w ∈ rest, w.isKnownKind = true := fun w hw => hkind w (List.mem_cons_of_mem _ hw)
    cases v with
    | backing b =>
      have hd : b.Interest.Denom = pool.Denom := hb b (by simp [backings])
      simp only [confirmedPool]
      rw [Coin.Plus_sameDenom _ _ hd]
      rw [ih ⟨pool.Denom, pool.Amount + b.Interest.Amount⟩ hrest (fun x hx => hb x (by simpa [backings] using Or.inr hx))
        (fun x hx => hc x (by simpa [challenges] using hx))
        (fun x hx => ht x (by simpa [tokenVotes] using hx))]
      simp [backings, challenges, tokenVotes]
      ring
    | challenge c =>
      have hd : c.Amount.Denom = pool.Denom := hc c (by simp [challenges])
      simp only [confirmedPool]
      rw [Coin.Plus_sameDenom _ _ hd]
      rw [ih ⟨pool.Denom, pool.Amount + c.Amount.Amount⟩ hrest (fun x hx => hb x (by simpa [backings] using hx))
        (fun x hx => hc x (by simpa [challenges] using Or.inr hx))
        (fun x hx => ht x (by simpa [tokenVotes] using hx))]
      simp [backings, challenges, tokenVotes]
      ring
    | tokenVote t =>
      have hd : t.Amount.Denom = pool.Denom := ht t (by simp [tokenVotes])
      simp only [confirmedPool]
      rw [Coin.Plus_sameDenom _ _ hd]
      rw [ih ⟨pool.Denom, pool.Amount + t.Amount.Amount⟩ hrest (fun x hx => hb x (by simpa [backings] using hx))
        (fun x hx => hc x (by simpa [challenges] using hx))
        (fun x hx => ht x (by simpa [tokenVotes] using Or.inr hx))]
      simp [backings, challenges, tokenVotes]
      ring
    | other n =>
      have := hkind (.other n) (by simp)
      simp [Voter.isKnownKind, Voter.isBacking, Voter.isChallenge, Voter.isTokenVote] at this

/-- Function `Coin.Plus` keeps the denomination of the receiver. -/
theorem Coin.Plus_Denom (coin coinB : Coin) : (coin.Plus coinB).Denom = coin.Denom := by
  unfold Coin.Plus
  split <;> rfl

/-- Function `confirmedPool` over the three known kinds returns no error and
keeps the denomination of the pool. -/
theorem confirmedPool_known (falseVotes : List Voter) (pool : Coin)
    (hkind : ∀ v ∈ falseVotes, v.isKnownKind = true) :
    (confirmedPool falseVotes pool).2 = none ∧
      (confirmedPool falseVotes pool).1.Denom = pool.Denom := by
  induction falseVotes generalizing pool with
  | nil => simp [confirmedPool]
  | cons v rest ih =>
    have hrest : ∀ w ∈ rest, w.isKnownKind = true := fun w hw => hkind w (List.mem_cons_of_mem _ hw)
    cases v with
    | backing b =>
      simp only [confirmedPool]
      exact ⟨(ih _ hrest).1, by rw [(ih _ hrest).2, Coin.Plus_Denom]⟩
    | challenge c =>
      simp only [confirmedPool]
      exact ⟨(ih _ hrest).1, by rw [(ih _ hrest).2, Coin.Plus_Denom]⟩
    | tokenVote t =>
      simp only [confirmedPool]
      exact ⟨(ih _ hrest).1, by rw [(ih _ hrest).2, Coin.Plus_Denom]⟩
    | other n =>
      have := hkind (.other n) (by simp)
      simp [Voter.isKnownKind, Voter.isBacking, Voter.isChallenge, Voter.isTokenVote] at this

/-! ## lemmas: the loops of settlement -/

/-- Transfers made one list after the other. -/
theorem applyTransfers_append {σ : Type} (bk : BankKeeper σ) (ctx : σ) (ts us : List Transfer) :
    applyTransfers bk ctx (ts ++ us) = applyTransfers bk (applyTransfers bk ctx ts) us := by
  simp [applyTransfers, List.foldl_append]

/-- The counting loop of `voterCount` from any starting count. -/
theorem voterCount_acc (votes : List Voter) (c : Int) :
    votes.foldl (fun count voter =>
      match voter with
      | .tokenVote _ => count + 1
      | _ => count) c = c + ((tokenVotes votes).length : Int) := by
  induction votes generalizing c with
  | nil => simp [tokenVotes]
  | cons v rest ih =>
    cases v <;> simp [List.foldl_cons, ih, tokenVotes]
    ring

/-- Function `voterCount` is the number of TokenVotes. -/
theorem voterCount_eq (votes : List Voter) :
    voterCount votes = ((tokenVotes votes).length : Int) := by
  have h := voterCount_acc votes 0
  simpa [voterCount] using h

/-- The winners loop on a bank that never fails, over Backings and TokenVotes. -/
theorem rewardWinners_neverFails {σ : Type} (bk : BankKeeper σ) (hbank : bk.neverFails)
    (reward : Int) (denom : String) (votes : List Voter) (st : Tally σ)
    (hkind : ∀ v ∈ votes, v.isWinnerKind = true) (herr : st.err = none) :
    rewardWinners bk reward denom votes st =
      .ok ⟨applyTransfers bk st.bank (votes.flatMap (winnerTransfers reward denom)),
        ⟨st.pool.Denom, st.pool.Amount - reward * ((tokenVotes votes).length : Int)⟩, none⟩ := by
  induction votes generalizing st with
  | nil =>
    cases st
    simp_all [rewardWinners, applyTransfers, tokenVotes]
  | cons v rest ih =>
    have hrest : ∀ w ∈ rest, w.isWinnerKind = true := fun w hw => hkind w (List.mem_cons_of_mem _ hw)
    cases v with
    | backing b =>
      simp only [rewardWinners]
      rw [ih st hrest herr]
      simp [winnerTransfers, tokenVotes]
    | tokenVote t =>
      simp only [rewardWinners, hbank st.bank t.Creator [t.Amount]]
      rw [ih _ hrest (hbank _ _ _)]
      simp [winnerTransfers, tokenVotes, applyTransfers, NewCategoryCoin, Coin.Minus_sameDenom]
      ring
    | challenge c =>
      have := hkind (.challenge c) (by simp)
      simp [Voter.isWinnerKind, Voter.isBacking, Voter.isTokenVote] at this
    | other n =>
      have := hkind (.other n) (by simp)
      simp [Voter.isWinnerKind, Voter.isBacking, Voter.isTokenVote] at this

/-- The winners loop stops at the first position that is neither a Backing nor a
TokenVote. -/
theorem rewardWinners_rejects {σ : Type} (bk : BankKeeper σ) (hbank : bk.neverFails)
    (reward : Int) (denom : String) (pre : List Voter) (w : Voter) (post : List Voter)
    (st : Tally σ) (hkind : ∀ v ∈ pre, v.isWinnerKind = true) (hw : w.isWinnerKind = false)
    (herr : st.err = none) :
    rewardWinners bk reward denom (pre ++ w :: post) st =
      .error ⟨applyTransfers bk st.bank (pre.flatMap (winnerTransfers reward denom)),
        ⟨st.pool.Denom, st.pool.Amount - reward * ((tokenVotes pre).length : Int)⟩,
        some (ErrInvalidVote w)⟩ := by
  induction pre generalizing st with
  | nil =>
    cases st
    cases w <;>
      simp_all [rewardWinners, applyTransfers, tokenVotes, Voter.isWinnerKind, Voter.isBacking,
        Voter.isTokenVote]
  | cons v rest ih =>
    have hrest : ∀ x ∈ rest, x.isWinnerKind = true := fun x hx => hkind x (List.mem_cons_of_mem _ hx)
    cases v with
    | backing b =>
      rw [List.cons_append]
      simp only [rewardWinners]
      rw [ih st hrest herr]
      simp [winnerTransfers, tokenVotes]
    | tokenVote t =>
      rw [List.cons_append]
      simp only [rewardWinners, hbank st.bank t.Creator [t.Amount]]
      rw [ih _ hrest (hbank _ _ _)]
      simp [winnerTransfers, tokenVotes, applyTransfers, NewCategoryCoin, Coin.Minus_sameDenom]
      ring
    | challenge c =>
      have := hkind (.challenge c) (by simp)
      simp [Voter.isWinnerKind, Voter.isBacking, Voter.isTokenVote] at this
    | other n =>
      have := hkind (.other n) (by simp)
      simp [Voter.isWinnerKind, Voter.isBacking, Voter.isTokenVote] at this

/-- The losers loop on a bank that never fails, over the three known kinds. -/
theorem slashLosers_neverFails {σ : Type} (bk : BankKeeper σ) (hbank : bk.neverFails)
    (votes : List Voter) (st : Tally σ)
    (hkind : ∀ v ∈ votes, v.isKnownKind = true) (herr : st.err = none) :
    slashLosers bk votes st =
      .ok ⟨applyTransfers bk st.bank (votes.flatMap loserTransfers), st.pool, none⟩ := by
  induction votes generalizing st with
  | nil =>
    cases st
    simp_all [slashLosers, applyTransfers]
  | cons v rest ih =>
    have hrest : ∀ w ∈ rest, w.isKnownKind = true := fun w hw => hkind w (List.mem_cons_of_mem _ hw)
    cases v with
    | backing b =>
      simp only [slashLosers, hbank st.bank b.Creator [b.Amount]]
      rw [ih _ hrest rfl]
      simp [loserTransfers, applyTransfers]
    | tokenVote t =>
      simp only [slashLosers, herr]
      rw [ih _ hrest herr]
      simp [loserTransfers]
    | challenge c =>
      simp only [slashLosers, herr]
      rw [ih _ hrest herr]
      simp [loserTransfers]
    | other n =>
      have := hkind (.other n) (by simp)
      simp [Voter.isKnownKind, Voter.isBacking, Voter.isChallenge, Voter.isTokenVote] at this

/-- The losers loop stops at the first position of unknown kind. -/
theorem slashLosers_rejects {σ : Type} (bk : BankKeeper σ) (hbank : bk.neverFails)
    (pre : List Voter) (n : Option String) (post : List Voter) (st : Tally σ)
    (hkind : ∀ v ∈ pre, v.isKnownKind = true) (herr : st.err = none) :
    slashLosers bk (pre ++ .other n :: post) st =
      .error ⟨applyTransfers bk st.bank (pre.flatMap loserTransfers), st.pool,
        some (ErrInvalidVote (.other n))⟩ := by
  induction pre generalizing st with
  | nil =>
    cases st
    simp_all [slashLosers, applyTransfers]
  | cons v rest ih =>
    have hrest : ∀ w ∈ rest, w.isKnownKind = true := fun w hw => hkind w (List.mem_cons_of_mem _ hw)
    cases v with
    | backing b =>
      rw [List.cons_append]
      simp only [slashLosers, hbank st.bank b.Creator [b.Amount]]
      rw [ih _ hrest rfl]
      simp [loserTransfers, applyTransfers]
    | tokenVote t =>
      rw [List.cons_append]
      simp only [slashLosers, herr]
      rw [ih _ hrest herr]
      simp [loserTransfers]
    | challenge c =>
      rw [List.cons_append]
      simp only [slashLosers, herr]
      rw [ih _ hrest herr]
      simp [loserTransfers]
    | other m =>
      have := hkind (.other m) (by simp)
      simp [Voter.isKnownKind, Voter.isBacking, Voter.isChallenge, Voter.isTokenVote] at this

/-- The share is the floor quotient, or one more when at least half a voter
count is left over. -/
theorem voterRewardAmount_cases (pool : Coin) (n : Int) (hp : 0 ≤ pool.Amount) (hn : 0 < n) :
    voterRewardAmount pool n = some (pool.Amount / n) ∨
      (voterRewardAmount pool n = some (pool.Amount / n + 1) ∧ n ≤ 2 * (pool.Amount % n)) := by
  obtain ⟨t, ht, ht0, htS, hv⟩ := voterRewardAmount_decimals pool n hp hn
  have h1 : 5000000000 ≤ t → 5000000000 * n ≤ pool.Amount % n * 10000000000 := by
    intro h; rw [ht] at h; exact (Int.le_ediv_iff_mul_le hn).mp h
  rw [hv]
  split_ifs with a b c d
  · exact Or.inl rfl
  · exact Or.inl rfl
  · exact Or.inr ⟨rfl, by have := h1 (by omega); omega⟩
  · exact Or.inl rfl
  · exact Or.inr ⟨rfl, by have := h1 (by omega); omega⟩

/-- Function `voterRewardAmount` never panics. -/
theorem voterRewardAmount_isSome (pool : Coin) (n : Int) :
    ∃ reward, voterRewardAmount pool n = some reward := by
  by_cases h : n = 0
  · exact ⟨0, by simp [voterRewardAmount, h]⟩
  · exact ⟨_, by simp [voterRewardAmount, h, Dec.QuoInt]; rfl⟩

/-- Settlement of a poll of valid positions on a bank that never fails. -/
theorem distributeRewardsConfirmed_neverFails {σ : Type} (bk : BankKeeper σ)
    (hbank : bk.neverFails) (ctx : σ) (votes : poll) (pool : Coin) (denom : String)
    (reward : Int) (hr : voterRewardAmount pool (voterCount votes.trueVotes) = some reward)
    (htrue : ∀ v ∈ votes.trueVotes, v.isWinnerKind = true)
    (hfalse : ∀ v ∈ votes.falseVotes, v.isKnownKind = true) :
    distributeRewardsConfirmed bk ctx votes pool denom =
      some ⟨applyTransfers bk ctx (confirmedTransfers reward denom votes),
        ⟨pool.Denom, pool.Amount - reward * ((tokenVotes votes.trueVotes).length : Int)⟩, none⟩ := by
  unfold distributeRewardsConfirmed
  rw [hr]
  simp only
  rw [rewardWinners_neverFails bk hbank reward denom votes.trueVotes _ htrue rfl]
  simp only
  rw [slashLosers_neverFails bk hbank votes.falseVotes _ hfalse rfl]
  simp [confirmedTransfers, applyTransfers_append]

/-- The recording bank never fails. -/
theorem journalKeeper_neverFails : journalKeeper.neverFails := by
  intro s addr coins; rfl

/-- On the recording bank the transfers made are appended to the journal. -/
theorem applyTransfers_journal (s : Journal) (ts : List Transfer) :
    applyTransfers journalKeeper s ts = s ++ ts := by
  induction ts generalizing s with
  | nil => simp [applyTransfers]
  | cons t rest ih =>
    have := ih (s ++ [t])
    simp only [applyTransfers, List.foldl_cons] at this ⊢
    simpa [journalKeeper] using this

/-- A list either passes a test everywhere or has a first element failing it. -/
theorem exists_first_failing {α : Type} (p : α → Bool) (l : List α)
    (h : ∃ x ∈ l, p x = false) :
    ∃ pre w post, l = pre ++ w :: post ∧ (∀ v ∈ pre, p v = true) ∧ p w = false := by
  induction l with
  | nil => simp at h
  | cons a rest ih =>
    by_cases ha : p a = true
    · have h2 : ∃ x ∈ rest, p x = false := by
        obtain ⟨x, hx, hpx⟩ := h
        rcases List.mem_cons.mp hx with e | e
        · subst e; simp [ha] at hpx
        · exact ⟨x, e, hpx⟩
      obtain ⟨pre, w, post, e, hpre, hw⟩ := ih h2
      refine ⟨a :: pre, w, post, by simp [e], ?_, hw⟩
      intro v hv
      rcases List.mem_cons.mp hv with e2 | e2
      · subst e2; exact ha
      · exact hpre v e2
    · exact ⟨[], a, rest, rfl, by simp, by simpa using ha⟩

/-- Function `confirmedPool` stops at the first position of unknown kind. -/
theorem confirmedPool_rejects (pre : List Voter) (n : Option String) (post : List Voter)
    (pool : Coin) (hkind : ∀ v ∈ pre, v.isKnownKind = true) :
    (confirmedPool (pre ++ .other n :: post) pool).2 = some (ErrInvalidVote (.other n)) := by
  induction pre generalizing pool with
  | nil => simp [confirmedPool]
  | cons v rest ih =>
    have hrest : ∀ w ∈ rest, w.isKnownKind = true := fun w hw => hkind w (List.mem_cons_of_mem _ hw)
    rw [List.cons_append]
    cases v with
    | backing b => simp only [confirmedPool]; exact ih _ hrest
    | challenge c => simp only [confirmedPool]; exact ih _ hrest
    | tokenVote t => simp only [confirmedPool]; exact ih _ hrest
    | other m =>
      have := hkind (.other m) (by simp)
      simp [Voter.isKnownKind, Voter.isBacking, Voter.isChallenge, Voter.isTokenVote] at this

/-- Settlement of a poll whose true side holds a position the winners loop
rejects. -/
theorem distributeRewardsConfirmed_rejects_true {σ : Type} (bk : BankKeeper σ)
    (hbank : bk.neverFails) (ctx : σ) (pool : Coin) (denom : String)
    (pre : List Voter) (w : Voter) (post falseVotes : List Voter) (reward : Int)
    (hr : voterRewardAmount pool (voterCount (pre ++ w :: post)) = some reward)
    (hpre : ∀ v ∈ pre, v.isWinnerKind = true) (hw : w.isWinnerKind = false) :
    distributeRewardsConfirmed bk ctx ⟨pre ++ w :: post, falseVotes⟩ pool denom =
      some ⟨applyTransfers bk ctx (pre.flatMap (winnerTransfers reward denom)),
        ⟨pool.Denom, pool.Amount - reward * ((tokenVotes pre).length : Int)⟩,
        some (ErrInvalidVote w)⟩ := by
  unfold distributeRewardsConfirmed
  simp only
  rw [hr]
  simp only
  rw [rewardWinners_rejects bk hbank reward denom pre w post _ hpre hw rfl]

/-- Settlement of a poll whose true side is valid and whose false side holds a
position of unknown kind. -/
theorem distributeRewardsConfirmed_rejects_false {σ : Type} (bk : BankKeeper σ)
    (hbank : bk.neverFails) (ctx : σ) (pool : Coin) (denom : String)
    (trueVotes pre : List Voter) (n : Option String) (post : List Voter) (reward : Int)
    (hr : voterRewardAmount pool (voterCount trueVotes) = some reward)
    (htrue : ∀ v ∈ trueVotes, v.isWinnerKind = true)
    (hpre : ∀ v ∈ pre, v.isKnownKind = true) :
    distributeRewardsConfirmed bk ctx ⟨trueVotes, pre ++ .other n :: post⟩ pool denom =
      some ⟨applyTransfers bk ctx
          (trueVotes.flatMap (winnerTransfers reward denom) ++ pre.flatMap loserTransfers),
        ⟨pool.Denom, pool.Amount - reward * ((tokenVotes trueVotes).length : Int)⟩,
        some (ErrInvalidVote (.other n))⟩ := by
  unfold distributeRewardsConfirmed
  simp only
  rw [hr]
  simp only
  rw [rewardWinners_neverFails bk hbank reward denom trueVotes _ htrue rfl]
  simp only
  rw [slashLosers_rejects bk hbank pre n post _ hpre rfl]
  simp [applyTransfers_append]

/-- A `return err` out of the winners loop carries an error. -/
theorem rewardWinners_error_isSome {σ : Type} (bk : BankKeeper σ) (reward : Int)
    (denom : String) (votes : List Voter) (st st1 : Tally σ)
    (h : rewardWinners bk reward denom votes st = .error st1) : ∃ e, st1.err = some e := by
  induction votes generalizing st with
  | nil => simp [rewardWinners] at h
  | cons v rest ih =>
    cases v with
    | backing b => exact ih st (by simpa [rewardWinners] using h)
    | tokenVote t =>
      simp only [rewardWinners] at h
      cases h1 : (bk.AddCoins st.bank t.Creator [t.Amount]).2 with
      | none => rw [h1] at h; exact ih _ h
      | some e =>
        rw [h1] at h
        simp only [Except.error.injEq] at h
        exact ⟨e, by rw [← h]⟩
    | challenge c =>
      simp only [rewardWinners, Except.error.injEq] at h
      exact ⟨_, by rw [← h]⟩
    | other n =>
      simp only [rewardWinners, Except.error.injEq] at h
      exact ⟨_, by rw [← h]⟩

/-- The winners loop never falls out of its end when the list holds a position
that is neither a Backing nor a TokenVote, whatever the bank does. -/
theorem rewardWinners_error_of_rejected {σ : Type} (bk : BankKeeper σ) (reward : Int)
    (denom : String) (votes : List Voter) (st : Tally σ)
    (h : ∃ w ∈ votes, w.isWinnerKind = false) :
    ∃ st1, rewardWinners bk reward denom votes st = .error st1 := by
  induction votes generalizing st with
  | nil => simp at h
  | cons v rest ih =>
    have hrest : v.isWinnerKind = true → ∃ w ∈ rest, w.isWinnerKind = false := by
      intro hv
      obtain ⟨w, hw, hk⟩ := h
      rcases List.mem_cons.mp hw with e | e
      · subst e; rw [hv] at hk; exact absurd hk (by simp)
      · exact ⟨w, e, hk⟩
    cases v with
    | backing b =>
      simp only [rewardWinners]
      exact ih st (hrest rfl)
    | tokenVote t =>
      simp only [rewardWinners]
      cases h1 : (bk.AddCoins st.bank t.Creator [t.Amount]).2 with
      | none => exact ih _ (hrest rfl)
      | some e => exact ⟨_, rfl⟩
    | challenge c => exact ⟨_, rfl⟩
    | other n => exact ⟨_, rfl⟩

/-- The losers loop returns an error when the list holds a position of unknown
kind, whatever the bank does. -/
theorem slashLosers_error_of_unknown {σ : Type} (bk : BankKeeper σ) (votes : List Voter)
    (st : Tally σ) (h : ∃ w ∈ votes, w.isKnownKind = false) :
    ∃ st1 e, slashLosers bk votes st = .error st1 ∧ st1.err = some e := by
  induction votes generalizing st with
  | nil => simp at h
  | cons v rest ih =>
    have hrest : v.isKnownKind = true → ∃ w ∈ rest, w.isKnownKind = false := by
      intro hv
      obtain ⟨w, hw, hk⟩ := h
      rcases List.mem_cons.mp hw with e | e
      · subst e; rw [hv] at hk; exact absurd hk (by simp)
      · exact ⟨w, e, hk⟩
    cases v with
    | backing b =>
      simp only [slashLosers]
      cases h1 : (bk.AddCoins st.bank b.Creator [b.Amount]).2 with
      | none => exact ih _ (hrest rfl)
      | some e => exact ⟨_, e, rfl, rfl⟩
    | tokenVote t =>
      simp only [slashLosers]
      cases h1 : st.err with
      | none => exact ih _ (hrest rfl)
      | some e => exact ⟨_, e, rfl, h1⟩
    | challenge c =>
      simp only [slashLosers]
      cases h1 : st.err with
      | none => exact ih _ (hrest rfl)
      | some e => exact ⟨_, e, rfl, h1⟩
    | other n => exact ⟨_, _, rfl, rfl⟩

/-- Settlement of a poll that holds a position of unknown kind never returns
nil, whatever the bank does. -/
theorem distributeRewardsConfirmed_never_nil {σ : Type} (bk : BankKeeper σ) (ctx : σ)
    (votes : poll) (pool : Coin) (denom : String)
    (h : ∃ v, (v ∈ votes.trueVotes ∨ v ∈ votes.falseVotes) ∧ v.isKnownKind = false) :
    ∃ st e, distributeRewardsConfirmed bk ctx votes pool denom = some st ∧ st.err = some e := by
  obtain ⟨reward, hr⟩ := voterRewardAmount_isSome pool (voterCount votes.trueVotes)
  unfold distributeRewardsConfirmed
  rw [hr]
  simp only
  cases hw : rewardWinners bk reward denom votes.trueVotes ⟨ctx, pool, none⟩ with
  | error st =>
    obtain ⟨e, he⟩ := rewardWinners_error_isSome bk reward denom _ _ _ hw
    exact ⟨st, e, rfl, he⟩
  | ok st =>
    simp only
    obtain ⟨v, hv, hk⟩ := h
    have hvF : v ∈ votes.falseVotes := by
      rcases hv with h1 | h1
      · exfalso
        have hwk : v.isWinnerKind = false := by
          cases v <;> simp_all [Voter.isWinnerKind, Voter.isKnownKind, Voter.isBacking,
            Voter.isTokenVote, Voter.isChallenge]
        obtain ⟨st1, h2⟩ := rewardWinners_error_of_rejected bk reward denom votes.trueVotes
          ⟨ctx, pool, none⟩ ⟨v, h1, hwk⟩
        rw [h2] at hw
        exact absurd hw (by simp)
      · exact h1
    obtain ⟨st1, e, h3, h4⟩ := slashLosers_error_of_unknown bk votes.falseVotes st ⟨v, hvF, hk⟩
    rw [h3]
    exact ⟨st1, e, rfl, h4⟩

/-! ## lemmas: the block tick -/

/-- The tick on a queue whose games all resolve and whose refund steps all
succeed in the states of an invariant: no error, the queue is left without
its expired head games, and the invariant still holds. -/
theorem checkExpiredGames_drains {β γ : Type} (k : Keeper β γ) (now : Int) (q : List Int)
    (b : β) (s : γ) (Inv : β → γ → Prop) (hInv : Inv b s)
    (hget : ∀ id ∈ q, ∃ g, k.gameKeeperGet id = .ok g)
    (hstep : ∀ id ∈ q, ∀ g, k.gameKeeperGet id = .ok g → g.Started = false →
      ∀ b0 s0, Inv b0 s0 →
        (returnFunds k b0 g.ID).2 = none ∧ (k.EndChallenge s0 g.StoryID).2 = none ∧
        Inv (returnFunds k b0 g.ID).1 (k.EndChallenge s0 g.StoryID).1) :
    (checkExpiredGames k now q b s).err = none ∧
      (checkExpiredGames k now q b s).queue = q.dropWhile (hasExpired k now) := by
  induction q generalizing b s with
  | nil => simp [checkExpiredGames]
  | cons id rest ih =>
    obtain ⟨g, hg⟩ := hget id (by simp)
    have ih2 := fun b0 s0 h0 => ih b0 s0 h0 (fun x hx => hget x (List.mem_cons_of_mem _ hx))
      (fun x hx => hstep x (List.mem_cons_of_mem _ hx))
    by_cases hexp : g.ExpiresTime > now
    · have hp : hasExpired k now id = false := by simp [hasExpired, hg]; omega
      simp [checkExpiredGames, hg, hexp, List.dropWhile_cons, hp]
    · have hp : hasExpired k now id = true := by simp [hasExpired, hg]; omega
      by_cases hst : g.Started = true
      · simp only [checkExpiredGames, hg, hexp, if_false, hst, Bool.not_true, List.dropWhile_cons,
          hp, if_true]
        exact ih2 b s hInv
      · have hst2 : g.Started = false := by simpa using hst
        obtain ⟨h1, h2, h3⟩ := hstep id (by simp) g hg hst2 b s hInv
        simp only [checkExpiredGames, hg, hexp, if_false, hst2, Bool.not_false, if_true, h1, h2,
          List.dropWhile_cons, hp]
        exact ih2 _ _ h3

/-- The refund loop on the recording bank, when every listed ID resolves. -/
theorem returnFundsLoop_storeKeeper (games : Int → Except Error Game) (index : Int → List Int)
    (table : Int → Except Error Challenge) (ids : List Int) (b : Journal)
    (h : ∀ id ∈ ids, ∃ c, table id = .ok c) :
    returnFundsLoop (storeKeeper games index table) ids b =
      (b ++ (ids.filterMap fun id =>
          match table id with
          | .ok c => some c
          | .error _ => none).map (fun c => (c.Creator, [c.Amount])), none) := by
  induction ids generalizing b with
  | nil => simp [returnFundsLoop]
  | cons id rest ih =>
    obtain ⟨c, hc⟩ := h id (by simp)
    have hk : (storeKeeper games index table).Get id = .ok c := hc
    simp only [returnFundsLoop, hk]
    have hb : (storeKeeper games index table).bankKeeper.AddCoins b c.Creator [c.Amount]
        = (b ++ [(c.Creator, [c.Amount])], none) := rfl
    simp only [hb]
    rw [ih _ (fun x hx => h x (List.mem_cons_of_mem _ hx))]
    simp [List.filterMap_cons, hc]

/-- Function `returnFunds` on the recording bank, when every challenge ID of the game
resolves: every challenge is credited once, in index order. -/
theorem returnFunds_storeKeeper (games : Int → Except Error Game) (index : Int → List Int)
    (table : Int → Except Error Challenge) (gameID : Int) (b : Journal)
    (h : ∀ id ∈ index gameID, ∃ c, table id = .ok c) :
    returnFunds (storeKeeper games index table) b gameID =
      (b ++ (challengesOf (storeKeeper games index table) gameID).map
        (fun c => (c.Creator, [c.Amount])), none) :=
  returnFundsLoop_storeKeeper games index table (index gameID) b h

/-- Looking up a story after `setStory`. -/
theorem GetStory_setStory (s : StoryStore) (story : Story) (storyID : Int) :
    GetStory (setStory s story) storyID =
      if story.ID = storyID then .ok story else GetStory s storyID := by
  by_cases h : story.ID = storyID
  · simp [GetStory, setStory, h]
  · have hf : (s.filter (fun old => old.ID != story.ID)).find? (fun x => x.ID == storyID)
        = s.find? (fun x => x.ID == storyID) := by
      induction s with
      | nil => rfl
      | cons a rest ih =>
        by_cases ha : a.ID = story.ID
        · have hne : ¬ a.ID = storyID := fun e => h (ha ▸ e)
          have hbeq : (story.ID == storyID) = false := by simpa using h
          simp [List.filter_cons, ha, List.find?_cons, hbeq, ih]
        · by_cases hb : a.ID = storyID
          · have hne : ¬ storyID = story.ID := fun e => h e.symm
            simp [List.filter_cons, List.find?_cons, hb, hne]
          · simp [List.filter_cons, ha, List.find?_cons, hb, ih]
    simp [GetStory, setStory, h, List.find?_cons, hf]

/-- Function `EndChallenge` on a stored story marks it Expired. -/
theorem EndChallenge_stored (s : StoryStore) (storyID : Int) (story : Story)
    (h : GetStory s storyID = .ok story) :
    EndChallenge s storyID = (setStory s { story with State := .Expired }, none) := by
  simp [EndChallenge, h]

/-- A stored story carries the ID it is stored under. -/
theorem GetStory_ID (s : StoryStore) (storyID : Int) (story : Story)
    (h : GetStory s storyID = .ok story) : story.ID = storyID := by
  unfold GetStory at h
  cases hf : s.find? (fun x => x.ID == storyID) with
  | none => simp [hf] at h
  | some st =>
    simp [hf] at h
    subst h
    have := List.find?_some hf
    simpa using this

/-- The balance after a list of credits. -/
theorem Journal.balance_append (b ts : Journal) (addr : AccAddress) (denom : String) :
    Journal.balance (b ++ ts) addr denom = Journal.balance b addr denom + Journal.balance ts addr denom := by
  simp [Journal.balance, List.map_append, List.sum_append]

/-- The balance that refunding a list of challenges adds to an account. -/
theorem Journal.balance_refunds (chs : List Challenge) (addr : AccAddress) (denom : String) :
    Journal.balance (chs.map fun c => (c.Creator, [c.Amount])) addr denom =
      ((chs.filter fun c => c.Creator = addr ∧ c.Amount.Denom = denom).map
        fun c => c.Amount.Amount).sum := by
  induction chs with
  | nil => simp [Journal.balance]
  | cons c rest ih =>
    have hcons : Journal.balance ((c :: rest).map fun c => (c.Creator, [c.Amount])) addr denom
        = (if c.Creator = addr then (if c.Amount.Denom = denom then c.Amount.Amount else 0) else 0)
          + Journal.balance (rest.map fun c => (c.Creator, [c.Amount])) addr denom := by
      simp only [Journal.balance, List.map_cons, List.sum_cons]
      congr 1
      by_cases h1 : c.Creator = addr
      · by_cases h2 : c.Amount.Denom = denom
        · simp [h1, h2, List.filter_cons]
        · simp [h1, h2, List.filter_cons]
      · simp [h1]
    rw [hcons, ih]
    by_cases h1 : c.Creator = addr
    · by_cases h2 : c.Amount.Denom = denom
      · simp [h1, h2, List.filter_cons]
      · simp [h1, h2, List.filter_cons]
    · simp [h1, List.filter_cons]

/-- The tick at a head game that is not due: nothing is touched. -/
theorem checkExpiredGames_not_due {β γ : Type} (k : Keeper β γ) (now : Int) (gameID : Int)
    (rest : List Int) (b : β) (s : γ) (g : Game) (hg : k.gameKeeperGet gameID = .ok g)
    (h : now < g.ExpiresTime) :
    checkExpiredGames k now (gameID :: rest) b s = ⟨gameID :: rest, b, s, none⟩ := by
  simp [checkExpiredGames, hg, h]

/-- On the example keeper the refund step of a queued game succeeds and keeps
the stories 7 and 8 stored. -/
theorem sample_refund_step (id : Int) (hid : id ∈ [(1 : Int), 2]) (g : Game)
    (hg : (storeKeeper sampleGames sampleIndex sampleTable).gameKeeperGet id = .ok g)
    (b0 : Journal) (s0 : StoryStore) (h0 : sampleInv b0 s0) :
    (returnFunds (storeKeeper sampleGames sampleIndex sampleTable) b0 g.ID).2 = none ∧
    ((storeKeeper sampleGames sampleIndex sampleTable).EndChallenge s0 g.StoryID).2 = none ∧
    sampleInv (returnFunds (storeKeeper sampleGames sampleIndex sampleTable) b0 g.ID).1
      ((storeKeeper sampleGames sampleIndex sampleTable).EndChallenge s0 g.StoryID).1 := by
  have hg2 : g = ⟨id, id + 6, 100 * id, false⟩ := by
    have : (Except.ok ⟨id, id + 6, 100 * id, false⟩ : Except Error Game) = .ok g := hg
    injection this with e
    exact e.symm
  obtain ⟨⟨s7, h7⟩, ⟨s8, h8⟩⟩ := h0
  have key : ∀ (sid : Int) (st : Story), GetStory s0 sid = .ok st →
      (EndChallenge s0 sid).2 = none ∧ sampleInv
        (returnFunds (storeKeeper sampleGames sampleIndex sampleTable) b0 g.ID).1
        (EndChallenge s0 sid).1 := by
    intro sid st hst
    rw [EndChallenge_stored s0 sid st hst]
    refine ⟨rfl, ?_, ?_⟩
    · simp only [GetStory_setStory]
      split_ifs
      · exact ⟨_, rfl⟩
      · exact ⟨s7, h7⟩
    · simp only [GetStory_setStory]
      split_ifs
      · exact ⟨_, rfl⟩
      · exact ⟨s8, h8⟩
  refine ⟨?_, ?_⟩
  · rw [returnFunds_storeKeeper sampleGames sampleIndex sampleTable g.ID b0
      (fun x _ => ⟨_, rfl⟩)]
  · simp only [List.mem_cons, List.mem_singleton, List.not_mem_nil, or_false] at hid
    rcases hid with e | e
    · subst e; subst hg2; exact key 7 s7 h7
    · subst e; subst hg2; exact key 8 s8 h8

/-- A queued game that has expired resolves to a game whose time has come. -/
theorem hasExpired_iff {β γ : Type} (k : Keeper β γ) (now : Int) (id : Int) :
    hasExpired k now id = true ↔ ∃ g, k.gameKeeperGet id = .ok g ∧ g.ExpiresTime ≤ now := by
  unfold hasExpired
  cases h : k.gameKeeperGet id with
  | error e => simp
  | ok g => simp

/-- Whatever happens, the tick removes a head run of the queue, and every game
it removes has expired. -/
theorem checkExpiredGames_removes_head_run {β γ : Type} (k : Keeper β γ) (now : Int)
    (q : List Int) (b : β) (s : γ) :
    ∃ n, (checkExpiredGames k now q b s).queue = q.drop n ∧
      ∀ id ∈ q.take n, hasExpired k now id = true := by
  induction q generalizing b s with
  | nil => exact ⟨0, by simp [checkExpiredGames], by simp⟩
  | cons id rest ih =>
    cases hg : k.gameKeeperGet id with
    | error e => exact ⟨0, by simp [checkExpiredGames, hg], by simp⟩
    | ok g =>
      by_cases hexp : g.ExpiresTime > now
      · exact ⟨0, by simp [checkExpiredGames, hg, hexp], by simp⟩
      · have hp : hasExpired k now id = true := by simp [hasExpired, hg]; omega
        have step : ∀ n, (∀ x ∈ rest.take n, hasExpired k now x = true) →
            ∀ x ∈ (id :: rest).take (n + 1), hasExpired k now x = true := by
          intro n hn x hx
          simp only [List.take_succ_cons, List.mem_cons] at hx
          rcases hx with e | e
          · subst e; exact hp
          · exact hn x e
        by_cases hst : g.Started = true
        · obtain ⟨n, hq, hn⟩ := ih b s
          refine ⟨n + 1, ?_, step n hn⟩
          simp only [checkExpiredGames, hg, hexp, if_false, hst, Bool.not_true, List.drop_succ_cons]
          exact hq
        · have hst2 : g.Started = false := by simpa using hst
          cases h1 : (returnFunds k b g.ID).2 with
          | some e =>
            refine ⟨1, ?_, step 0 (by simp)⟩
            simp [checkExpiredGames, hg, hexp, hst2, h1]
          | none =>
            cases h2 : (k.EndChallenge s g.StoryID).2 with
            | some e =>
              refine ⟨1, ?_, step 0 (by simp)⟩
              simp [checkExpiredGames, hg, hexp, hst2, h1, h2]
            | none =>
              obtain ⟨n, hq, hn⟩ := ih (returnFunds k b g.ID).1 (k.EndChallenge s g.StoryID).1
              refine ⟨n + 1, ?_, step n hn⟩
              simp only [checkExpiredGames, hg, hexp, if_false, hst2, Bool.not_false, if_true,
                h1, h2, List.drop_succ_cons]
              exact hq

/-- The tick never makes the queue longer. -/
theorem checkExpiredGames_queue_length {β γ : Type} (k : Keeper β γ) (now : Int)
    (q : List Int) (b : β) (s : γ) :
    (checkExpiredGames k now q b s).queue.length ≤ q.length := by
  obtain ⟨n, hq, _⟩ := checkExpiredGames_removes_head_run k now q b s
  rw [hq, List.length_drop]
  omega

/-- An error of the tick leaves the state untouched when it is the head of the
queue that does not resolve; any other error comes after the head was popped. -/
theorem checkExpiredGames_error_cases {β γ : Type} (k : Keeper β γ) (now : Int)
    (q : List Int) (b : β) (s : γ) (e : Error)
    (h : (checkExpiredGames k now q b s).err = some e) :
    ((checkExpiredGames k now q b s).queue = q ∧ (checkExpiredGames k now q b s).bank = b ∧
      (checkExpiredGames k now q b s).stories = s ∧
      ∃ id rest, q = id :: rest ∧ k.gameKeeperGet id = .error e) ∨
    (checkExpiredGames k now q b s).queue.length < q.length := by
  cases q with
  | nil => simp [checkExpiredGames] at h
  | cons id rest =>
    cases hg : k.gameKeeperGet id with
    | error e0 =>
      left
      have hr : checkExpiredGames k now (id :: rest) b s = ⟨id :: rest, b, s, some e0⟩ := by
        simp [checkExpiredGames, hg]
      rw [hr] at h ⊢
      simp only [Option.some.injEq] at h
      subst h
      exact ⟨rfl, rfl, rfl, id, rest, rfl, hg⟩
    | ok g =>
      right
      by_cases hexp : g.ExpiresTime > now
      · simp [checkExpiredGames, hg, hexp] at h
      · by_cases hst : g.Started = true
        · have hr : checkExpiredGames k now (id :: rest) b s = checkExpiredGames k now rest b s := by
            simp [checkExpiredGames, hg, hexp, hst]
          rw [hr]
          have := checkExpiredGames_queue_length k now rest b s
          simp only [List.length_cons]
          omega
        · have hst2 : g.Started = false := by simpa using hst
          cases h1 : (returnFunds k b g.ID).2 with
          | some e1 => simp [checkExpiredGames, hg, hexp, hst2, h1]
          | none =>
            cases h2 : (k.EndChallenge s g.StoryID).2 with
            | some e2 => simp [checkExpiredGames, hg, hexp, hst2, h1, h2]
            | none =>
              have hr : checkExpiredGames k now (id :: rest) b s =
                  checkExpiredGames k now rest (returnFunds k b g.ID).1
                    (k.EndChallenge s g.StoryID).1 := by
                simp [checkExpiredGames, hg, hexp, hst2, h1, h2]
              rw [hr]
              have := checkExpiredGames_queue_length k now rest (returnFunds k b g.ID).1
                (k.EndChallenge s g.StoryID).1
              simp only [List.length_cons]
              omega

/-! ## lemmas: the claim keeper -/

/-- Function `SubmitClaim` either returns an error and the store as it was, or
reads the counter and returns the new claim and the store with it. -/
theorem SubmitClaim_cases (k : ClaimKeeper) (now : Int) (store : ClaimStore)
    (body communityID : String) (creator : AccAddress) (source : String) :
    (∃ e, k.SubmitClaim now store body communityID creator source = (store, .error e)) ∨
    (∃ n, store.claimID = some n ∧
      k.SubmitClaim now store body communityID creator source =
        (submittedStore store n (NewClaim n communityID body creator source now),
          .ok (NewClaim n communityID body creator source now))) := by
  unfold ClaimKeeper.SubmitClaim
  cases h1 : k.validateLength body with
  | some e => exact Or.inl ⟨e, rfl⟩
  | none =>
    simp only
    cases h2 : (k.IsJailed creator).2 with
    | some e => exact Or.inl ⟨e, rfl⟩
    | none =>
      simp only
      by_cases h3 : (k.IsJailed creator).1 = true
      · simp only [h3, if_true]
        exact Or.inl ⟨_, rfl⟩
      · simp only [h3, if_false]
        cases h4 : (k.Community communityID).2 with
        | some e => exact Or.inl ⟨_, rfl⟩
        | none =>
          simp only
          cases h5 : store.claimID with
          | none =>
            simp only [ClaimKeeper.claimID, h5]
            exact Or.inl ⟨_, rfl⟩
          | some n =>
            simp only [ClaimKeeper.claimID, h5]
            exact Or.inr ⟨n, rfl, rfl⟩

/-- Looking up a claim after `setClaim`. -/
theorem Claim_setClaim (store : ClaimStore) (claim : Claim) (id : Nat) :
    ClaimKeeper.Claim (ClaimKeeper.setClaim store claim) id =
      if claim.ID = id then some claim else ClaimKeeper.Claim store id := by
  by_cases h : claim.ID = id
  · simp [ClaimKeeper.Claim, ClaimKeeper.setClaim, h]
  · have hbeq : (claim.ID == id) = false := by simpa using h
    have hf : (store.claims.filter (fun old => old.ID != claim.ID)).find? (fun x => x.ID == id)
        = store.claims.find? (fun x => x.ID == id) := by
      induction store.claims with
      | nil => rfl
      | cons a rest ih =>
        by_cases ha : a.ID = claim.ID
        · have hne : ¬ a.ID = id := fun e => h (ha ▸ e)
          simp [List.filter_cons, ha, List.find?_cons, hbeq, ih]
        · by_cases hb : a.ID = id
          · have hne : ¬ id = claim.ID := fun e => h e.symm
            simp [List.filter_cons, List.find?_cons, hb, hne]
          · simp [List.filter_cons, ha, List.find?_cons, hb, ih]
    simp [ClaimKeeper.Claim, ClaimKeeper.setClaim, h, List.find?_cons, hf, hbeq]

/-- The claim and the counter in the store a successful `SubmitClaim` leaves. -/
theorem submittedStore_reads (store : ClaimStore) (n : Nat) (claim : Claim) (h : claim.ID = n) :
    ClaimKeeper.Claim (submittedStore store n claim) n = some claim ∧
    (submittedStore store n claim).claimID = some (uint64 (n + 1)) := by
  refine ⟨?_, rfl⟩
  have : ClaimKeeper.Claim (submittedStore store n claim) n
      = ClaimKeeper.Claim (ClaimKeeper.setClaim store claim) n := rfl
  rw [this, Claim_setClaim, if_pos h]

/-- Submissions that cannot exhaust the counter get the IDs from the counter
value on, one after the other. -/
theorem submitAll_ids (k : ClaimKeeper) (subs : List Submission) (store : ClaimStore) (n : Nat)
    (hn : store.claimID = some n) (hlt : n + subs.length < 2 ^ 64) :
    (k.submitAll store subs).2 = List.range' n (k.submitAll store subs).2.length := by
  induction subs generalizing store n with
  | nil => simp [ClaimKeeper.submitAll]
  | cons sub rest ih =>
    simp only [List.length_cons] at hlt
    rcases SubmitClaim_cases k sub.now store sub.body sub.communityID sub.creator sub.source
      with ⟨e, he⟩ | ⟨m, hm, hok⟩
    · simp only [ClaimKeeper.submitAll, he]
      exact ih store n hn (by omega)
    · have hmn : m = n := by rw [hn] at hm; exact (Option.some.inj hm).symm
      subst hmn
      simp only [ClaimKeeper.submitAll, hok]
      have hc : (submittedStore store m
          (NewClaim m sub.communityID sub.body sub.creator sub.source sub.now)).claimID
          = some (m + 1) := by
        show some (uint64 (m + 1)) = some (m + 1)
        rw [uint64, Nat.mod_eq_of_lt (by omega)]
      have := ih _ (m + 1) hc (by omega)
      rw [this]
      simp [NewClaim, List.range'_succ]

/-! ## lemmas: the story keeper -/

/-- After `listSet` the key holds the value. -/
theorem mem_listSet_self (l : List (ListKey × Int)) (key : ListKey) (value : Int) :
    (key, value) ∈ listSet l key value := by
  induction l with
  | nil => simp [listSet]
  | cons e rest ih =>
    obtain ⟨key0, value0⟩ := e
    unfold listSet
    split_ifs <;> simp [ih]

/-- Every entry after `listSet` is the entry set or an entry that was there. -/
theorem mem_listSet (l : List (ListKey × Int)) (key : ListKey) (value : Int)
    (e : ListKey × Int) (h : e ∈ listSet l key value) : e = (key, value) ∨ e ∈ l := by
  induction l with
  | nil => simpa [listSet] using h
  | cons e0 rest ih =>
    obtain ⟨key0, value0⟩ := e0
    unfold listSet at h
    split_ifs at h
    · rcases List.mem_cons.mp h with h1 | h1
      · exact Or.inl h1
      · exact Or.inr (List.mem_cons_of_mem _ h1)
    · rcases List.mem_cons.mp h with h1 | h1
      · exact Or.inl h1
      · exact Or.inr h1
    · rcases List.mem_cons.mp h with h1 | h1
      · exact Or.inr (by rw [h1]; exact List.mem_cons_self _ _)
      · rcases ih h1 with h2 | h2
        · exact Or.inl h2
        · exact Or.inr (List.mem_cons_of_mem _ h2)

/-- The IDs of a key space are the values of its entries. -/
theorem mem_storyIDsByCategory (store : StoryKV) (catID : Int) (challenged : Bool) (id : Int) :
    id ∈ storyIDsByCategory store catID challenged ↔
      ∃ ts, (storyIDsByCategoryKey catID ts challenged, id) ∈ store.lists := by
  unfold storyIDsByCategory storyIDsByCategoryKey
  simp only [List.mem_map, List.mem_filter, Bool.and_eq_true, beq_iff_eq]
  constructor
  · rintro ⟨⟨key, v⟩, ⟨hmem, hc, hf⟩, hv⟩
    simp only at hc hf hv
    subst hv
    refine ⟨key.Timestamp, ?_⟩
    have : key = ⟨catID, challenged, key.Timestamp⟩ := by
      cases key; simp_all
    rw [← this]; exact hmem
  · rintro ⟨ts, hmem⟩
    exact ⟨_, ⟨hmem, rfl, rfl⟩, rfl⟩

/-- The loop of `storiesByID` over IDs that all resolve collects their stories,
in order, and returns no error. -/
theorem storiesByIDLoop_resolved (store : StoryKV) (ids : List Int) (acc : List Story)
    (h : ∀ id ∈ ids, ∃ st, GetStory store.stories id = .ok st) :
    ∃ sts, storiesByIDLoop store ids acc = (acc ++ sts, none) ∧ sts.map (fun st => st.ID) = ids ∧
      ∀ id ∈ ids, ∀ st, GetStory store.stories id = .ok st → st ∈ sts := by
  induction ids generalizing acc with
  | nil => exact ⟨[], by simp [storiesByIDLoop], rfl, by simp⟩
  | cons id rest ih =>
    obtain ⟨st, hst⟩ := h id (by simp)
    obtain ⟨sts, h1, h2, h3⟩ := ih (acc ++ [st]) (fun x hx => h x (List.mem_cons_of_mem _ hx))
    refine ⟨st :: sts, ?_, ?_, ?_⟩
    · simp only [storiesByIDLoop, hst, h1, List.append_assoc, List.singleton_append]
    · simp [h2, GetStory_ID store.stories id st hst]
    · intro x hx y hy
      rcases List.mem_cons.mp hx with e | e
      · subst e
        rw [hst] at hy
        injection hy with hy
        subst hy
        exact List.mem_cons_self _ _
      · exact List.mem_cons_of_mem _ (h3 x e y hy)

/-- The inner loop of the feed decides membership. -/
theorem isMatch_eq (sid : Int) (cids : List Int) : isMatch sid cids = decide (sid ∈ cids) := by
  induction cids with
  | nil => simp [isMatch]
  | cons c rest ih =>
    by_cases h : sid = c
    · simp [isMatch, h]
    · simp [isMatch, h, ih]

/-- The outer loop of the feed keeps, in order, the IDs that are not challenged. -/
theorem unchallengedStoryIDs_eq (cids ids acc : List Int) :
    unchallengedStoryIDs cids ids acc = acc ++ ids.filter (fun sid => decide (sid ∉ cids)) := by
  induction ids generalizing acc with
  | nil => simp [unchallengedStoryIDs]
  | cons sid rest ih =>
    by_cases h : sid ∈ cids
    · simp [unchallengedStoryIDs, isMatch_eq, h, ih, List.filter_cons]
    · simp [unchallengedStoryIDs, isMatch_eq, h, ih, List.filter_cons]

/-- The fields `StartChallenge` writes for a stored story. -/
theorem StartChallenge_stored_eq (k : StoryKeeper) (ctx : Header) (store : StoryKV)
    (storyID : Int) (story : Story) (h : GetStory store.stories storyID = .ok story) :
    k.StartChallenge ctx store storyID =
      (⟨setStory store.stories
          { story with State := .Challenged, Timestamp := story.Timestamp.Update ctx },
        listSet store.lists (storyIDsByCategoryKey story.CategoryID story.Timestamp true)
          story.ID, store.len⟩, none) := by
  simp [StoryKeeper.StartChallenge, h, UpdateStory, appendStoriesList]

/-- A story read from the store is one of its records. -/
theorem GetStory_mem (s : StoryStore) (storyID : Int) (story : Story)
    (h : GetStory s storyID = .ok story) : story ∈ s := by
  unfold GetStory at h
  cases hf : s.find? (fun x => x.ID == storyID) with
  | none => simp [hf] at h
  | some st =>
    simp [hf] at h
    subst h
    exact List.mem_of_find?_eq_some hf

/-- A record of the store after `setStory` is the record set or an older one. -/
theorem mem_setStory (s : StoryStore) (story x : Story) (h : x ∈ setStory s story) :
    x = story ∨ x ∈ s := by
  unfold setStory at h
  rcases List.mem_cons.mp h with h1 | h1
  · exact Or.inl h1
  · exact Or.inr (List.mem_filter.mp h1).1

/-- An ID that resolves still resolves after `setStory`. -/
theorem GetStory_setStory_resolves (s : StoryStore) (story : Story) (storyID : Int)
    (h : ∃ st, GetStory s storyID = .ok st) :
    ∃ st, GetStory (setStory s story) storyID = .ok st := by
  rw [GetStory_setStory]
  split_ifs
  · exact ⟨story, rfl⟩
  · exact h

/-- The record set is read under its ID. -/
theorem GetStory_setStory_self (s : StoryStore) (story : Story) :
    GetStory (setStory s story) story.ID = .ok story := by
  rw [GetStory_setStory]
  simp

/-- The store `NewStory` writes for a category that is found. -/
theorem NewStory_found_eq (k : StoryKeeper) (ctx : Header) (store : StoryKV) (body : String)
    (categoryID : Int) (creator : AccAddress) (kind : Int) (h : k.GetCategory categoryID = none) :
    k.NewStory ctx store body categoryID creator kind =
      (⟨setStory store.stories
          ⟨store.len + 1, body, categoryID, creator, 0, .Created, kind, NewTimestamp ctx⟩,
        listSet store.lists (storyIDsByCategoryKey categoryID (NewTimestamp ctx) false)
          (store.len + 1), store.len + 1⟩, store.len + 1, none) := by
  simp [StoryKeeper.NewStory, h, GetNextID, appendStoriesList]

/-- One operation keeps the store well formed. -/
theorem apply_wellFormed (k : StoryKeeper) (store : StoryKV) (op : StoryOp)
    (h : store.wellFormed) : (k.apply store op).wellFormed := by
  obtain ⟨h1, h2⟩ := h
  cases op with
  | newStory ctx body categoryID creator kind =>
    simp only [StoryKeeper.apply]
    cases hc : k.GetCategory categoryID with
    | some e =>
      have hr : (k.NewStory ctx store body categoryID creator kind).1 = store := by
        simp [StoryKeeper.NewStory, hc]
      rw [hr]
      exact ⟨h1, h2⟩
    | none =>
      rw [NewStory_found_eq k ctx store body categoryID creator kind hc]
      refine ⟨?_, ?_⟩
      · intro st hst
        rcases mem_setStory _ _ _ hst with e | e
        · subst e
          exact ⟨le_refl _, Nat.zero_le _⟩
        · exact ⟨by have := (h1 st e).1; show st.ID ≤ store.len + 1; omega, (h1 st e).2⟩
      · intro e he
        rcases mem_listSet _ _ _ _ he with e1 | e1
        · subst e1
          exact ⟨_, GetStory_setStory_self _ _⟩
        · exact GetStory_setStory_resolves _ _ _ (h2 e e1)
  | startChallenge ctx storyID =>
    simp only [StoryKeeper.apply]
    cases hg : GetStory store.stories storyID with
    | error e =>
      have hr : (k.StartChallenge ctx store storyID).1 = store := by
        simp [StoryKeeper.StartChallenge, hg]
      rw [hr]
      exact ⟨h1, h2⟩
    | ok story =>
      rw [StartChallenge_stored_eq k ctx store storyID story hg]
      refine ⟨?_, ?_⟩
      · intro st hst
        rcases mem_setStory _ _ _ hst with e | e
        · subst e
          exact ⟨(h1 story (GetStory_mem _ _ _ hg)).1, le_refl _⟩
        · exact h1 st e
      · intro e he
        rcases mem_listSet _ _ _ _ he with e1 | e1
        · subst e1
          exact ⟨_, GetStory_setStory_self _ _⟩
        · exact GetStory_setStory_resolves _ _ _ (h2 e e1)

/-- A sequence of operations keeps the store well formed. -/
theorem run_wellFormed (k : StoryKeeper) (ops : List StoryOp) (store : StoryKV)
    (h : store.wellFormed) : (k.run store ops).wellFormed := by
  induction ops generalizing store with
  | nil => exact h
  | cons op rest ih => exact ih _ (apply_wellFormed k store op h)

/-- The empty store is well formed. -/
theorem emptyStoryKV_wellFormed : emptyStoryKV.wellFormed :=
  ⟨by simp [emptyStoryKV], by simp [emptyStoryKV]⟩

/-- One operation on a well-formed store keeps every stored story and does not
move its state backward. -/
theorem apply_forward (k : StoryKeeper) (store : StoryKV) (op : StoryOp)
    (h : store.wellFormed) (storyID : Int) (story : Story)
    (hs : GetStory store.stories storyID = .ok story) :
    ∃ later, GetStory (k.apply store op).stories storyID = .ok later ∧
      story.State.rank ≤ later.State.rank := by
  have hmem := GetStory_mem _ _ _ hs
  have hid := GetStory_ID _ _ _ hs
  cases op with
  | newStory ctx body categoryID creator kind =>
    simp only [StoryKeeper.apply]
    cases hc : k.GetCategory categoryID with
    | some e =>
      have hr : (k.NewStory ctx store body categoryID creator kind).1 = store := by
        simp [StoryKeeper.NewStory, hc]
      rw [hr]
      exact ⟨story, hs, le_refl _⟩
    | none =>
      rw [NewStory_found_eq k ctx store body categoryID creator kind hc]
      refine ⟨story, ?_, le_refl _⟩
      show GetStory (setStory _ _) storyID = _
      rw [GetStory_setStory]
      have := (h.1 story hmem).1
      have hne : ¬ store.len + 1 = storyID := by omega
      simp [hne, hs]
  | startChallenge ctx sid =>
    simp only [StoryKeeper.apply]
    cases hg : GetStory store.stories sid with
    | error e =>
      have hr : (k.StartChallenge ctx store sid).1 = store := by
        simp [StoryKeeper.StartChallenge, hg]
      rw [hr]
      exact ⟨story, hs, le_refl _⟩
    | ok story0 =>
      rw [StartChallenge_stored_eq k ctx store sid story0 hg]
      show ∃ later, GetStory (setStory _ _) storyID = _ ∧ _
      rw [GetStory_setStory]
      have hid0 := GetStory_ID _ _ _ hg
      by_cases he : story0.ID = storyID
      · have : sid = storyID := by rw [← hid0, he]
        subst this
        rw [hs] at hg
        injection hg with hg
        subst hg
        refine ⟨_, if_pos he, ?_⟩
        exact (h.1 story hmem).2
      · exact ⟨story, by simp [he, hs], le_refl _⟩

/-- A sequence of operations on a well-formed store keeps every stored story
and does not move its state backward. -/
theorem run_forward (k : StoryKeeper) (more : List StoryOp) (store : StoryKV)
    (h : store.wellFormed) (storyID : Int) (story : Story)
    (hs : GetStory store.stories storyID = .ok story) :
    ∃ later, GetStory (k.run store more).stories storyID = .ok later ∧
      story.State.rank ≤ later.State.rank := by
  induction more generalizing store story with
  | nil => exact ⟨story, hs, le_refl _⟩
  | cons op rest ih =>
    obtain ⟨mid, hm, hr⟩ := apply_forward k store op h storyID story hs
    obtain ⟨later, hl, hr2⟩ := ih _ (apply_wellFormed k store op h) mid hm
    exact ⟨later, hl, le_trans hr hr2⟩

/-- The loop of `storiesByID` returns stories whose IDs are the IDs it was
given up to the first that does not resolve. -/
theorem storiesByIDLoop_ids (store : StoryKV) (ids : List Int) (acc : List Story) :
    ∃ sts, (storiesByIDLoop store ids acc).1 = acc ++ sts ∧
      sts.map (fun st => st.ID) <+: ids ∧
      ((storiesByIDLoop store ids acc).2 = none → sts.map (fun st => st.ID) = ids) := by
  induction ids generalizing acc with
  | nil => exact ⟨[], by simp [storiesByIDLoop], by simp, by simp⟩
  | cons id rest ih =>
    cases hg : GetStory store.stories id with
    | error e =>
      exact ⟨[], by simp [storiesByIDLoop, hg], by simp, by simp [storiesByIDLoop, hg]⟩
    | ok st =>
      obtain ⟨sts, h1, h2, h3⟩ := ih (acc ++ [st])
      refine ⟨st :: sts, ?_, ?_, ?_⟩
      · simp only [storiesByIDLoop, hg, h1, List.append_assoc, List.singleton_append]
      · rw [List.map_cons, GetStory_ID _ _ _ hg]
        exact (List.prefix_cons_inj id).mpr h2
      · intro hn
        simp only [storiesByIDLoop, hg] at hn
        rw [List.map_cons, GetStory_ID _ _ _ hg, h3 hn]

/-- When every ID of a key space resolves, `storiesByCategory` returns no error
and the story of each of its IDs. -/
theorem storiesByCategory_resolved (r : StoryKV) (catID : Int) (challenged : Bool)
    (storyID : Int) (story : Story)
    (hall : ∀ id ∈ storyIDsByCategory r catID challenged, ∃ st, GetStory r.stories id = .ok st)
    (hmem : storyID ∈ storyIDsByCategory r catID challenged)
    (hread : GetStory r.stories storyID = .ok story) :
    (storiesByCategory r catID challenged).2 = none ∧
    story ∈ (storiesByCategory r catID challenged).1 := by
  obtain ⟨sts, h1, _, h3⟩ := storiesByIDLoop_resolved r _ [] hall
  have hne : ¬ (storyIDsByCategory r catID challenged).length = 0 := by
    intro h0
    rw [List.length_eq_zero] at h0
    rw [h0] at hmem
    exact List.not_mem_nil _ hmem
  have hget : storiesByCategory r catID challenged = (sts, none) := by
    unfold storiesByCategory storiesByID
    simp only [hne, if_false]
    rw [h1]
    rfl
  rw [hget]
  exact ⟨rfl, h3 storyID hmem _ hread⟩

/-- The feed IDs are the challenged IDs, then the IDs that are not challenged. -/
theorem feedIDs_eq (store : StoryKV) (catID : Int) :
    feedIDs store catID =
      storyIDsByCategory store catID true ++
        (storyIDsByCategory store catID false).filter
          (fun sid => decide (sid ∉ storyIDsByCategory store catID true)) := by
  unfold feedIDs
  simp only [unchallengedStoryIDs_eq, List.nil_append]

/-! ## lemmas: the checks of the release -/

/-- The bound of `sdk.Int` as inequalities. -/
theorem fitsInt_iff (i : Int) : fitsInt i = true ↔ -(2 ^ 255) < i ∧ i < 2 ^ 255 := by
  unfold fitsInt maxBitLen
  exact decide_eq_true_iff

/-- Function `sdkIntAdd` within the bound. -/
theorem sdkIntAdd_fits (i i2 : Int) (h1 : -(2 ^ 255) < i + i2) (h2 : i + i2 < 2 ^ 255) :
    sdkIntAdd i i2 = some (i + i2) := by
  have : fitsInt (i + i2) = true := (fitsInt_iff _).mpr ⟨h1, h2⟩
  simp [sdkIntAdd, this]

/-- Function `sdkIntSub` within the bound. -/
theorem sdkIntSub_fits (i i2 : Int) (h1 : -(2 ^ 255) < i - i2) (h2 : i - i2 < 2 ^ 255) :
    sdkIntSub i i2 = some (i - i2) := by
  have : fitsInt (i - i2) = true := (fitsInt_iff _).mpr ⟨h1, h2⟩
  simp [sdkIntSub, this]

/-- What `sdkIntSub` returns is the difference. -/
theorem sdkIntSub_eq (i i2 a : Int) (h : sdkIntSub i i2 = some a) : a = i - i2 := by
  unfold sdkIntSub at h
  split_ifs at h
  exact (Option.some.inj h).symm

/-- What `sdkIntAdd` returns is the sum. -/
theorem sdkIntAdd_eq (i i2 a : Int) (h : sdkIntAdd i i2 = some a) : a = i + i2 := by
  unfold sdkIntAdd at h
  split_ifs at h
  exact (Option.some.inj h).symm

/-- Where `Plus` of a release returns, it returns what `Coin.Plus` does. -/
theorem release_Plus_agrees (r : Release) (coin coinB c : Coin) (h : r.Plus coin coinB = some c) :
    c = coin.Plus coinB := by
  unfold Release.Plus at h
  unfold Coin.Plus
  cases hd : coin.SameDenomAs coinB with
  | true =>
    rw [hd, if_pos rfl] at h
    rw [if_pos rfl]
    cases ha : sdkIntAdd coin.Amount coinB.Amount with
    | none => rw [ha] at h; cases h
    | some a =>
      rw [ha] at h
      rw [sdkIntAdd_eq _ _ _ ha] at h
      exact (Option.some.inj h).symm
  | false =>
    rw [hd, if_neg Bool.false_ne_true] at h
    rw [if_neg Bool.false_ne_true]
    split_ifs at h
    exact (Option.some.inj h).symm

/-- Where `Minus` of a release returns, it returns what `Coin.Minus` does. -/
theorem release_Minus_agrees (r : Release) (coin coinB c : Coin)
    (h : r.Minus coin coinB = some c) : c = coin.Minus coinB := by
  unfold Release.Minus at h
  unfold Coin.Minus
  cases hd : coin.SameDenomAs coinB with
  | true =>
    rw [hd, if_pos rfl] at h
    rw [if_pos rfl]
    cases ha : sdkIntSub coin.Amount coinB.Amount with
    | none => rw [ha] at h; cases h
    | some a =>
      rw [ha] at h
      rw [sdkIntSub_eq _ _ _ ha] at h
      simp only at h
      split_ifs at h
      exact (Option.some.inj h).symm
  | false =>
    rw [hd, if_neg Bool.false_ne_true] at h
    rw [if_neg Bool.false_ne_true]
    split_ifs at h
    exact (Option.some.inj h).symm

/-- Where `NewCoin` of a release returns, it returns the coin. -/
theorem release_NewCoin_eq (r : Release) (denom : String) (amount : Int) (c : Coin)
    (h : r.NewCoin denom amount = some c) : c = ⟨denom, amount⟩ := by
  unfold Release.NewCoin at h
  split_ifs at h
  exact (Option.some.inj h).symm

/-- Function `NewCoin` of a release on a non-negative amount in a denomination
it accepts. -/
theorem release_NewCoin_valid (r : Release) (denom : String) (amount : Int)
    (ha : 0 ≤ amount) (hd : r.validDenom denom = true) :
    r.NewCoin denom amount = some ⟨denom, amount⟩ := by
  have : ¬ amount < 0 := not_lt.mpr ha
  simp [Release.NewCoin, this, hd]

/-- Where `confirmedPool` of a release returns, it returns what the unchecked
arithmetic gives. -/
theorem release_confirmedPool_agrees (r : Release) (falseVotes : List Voter) (pool : Coin)
    (x : Coin × Option Error) (h : r.confirmedPool falseVotes pool = some x) :
    confirmedPool falseVotes pool = x := by
  induction falseVotes generalizing pool with
  | nil =>
    simp only [Release.confirmedPool] at h
    simp only [confirmedPool]
    exact Option.some.inj h
  | cons v rest ih =>
    cases v with
    | backing b =>
      simp only [Release.confirmedPool] at h
      simp only [confirmedPool]
      cases hp : r.Plus pool b.Interest with
      | none => simp [hp] at h
      | some p1 =>
        simp only [hp] at h
        rw [← release_Plus_agrees r _ _ _ hp]
        exact ih _ h
    | challenge c =>
      simp only [Release.confirmedPool] at h
      simp only [confirmedPool]
      cases hp : r.Plus pool c.Amount with
      | none => simp [hp] at h
      | some p1 =>
        simp only [hp] at h
        rw [← release_Plus_agrees r _ _ _ hp]
        exact ih _ h
    | tokenVote t =>
      simp only [Release.confirmedPool] at h
      simp only [confirmedPool]
      cases hp : r.Plus pool t.Amount with
      | none => simp [hp] at h
      | some p1 =>
        simp only [hp] at h
        rw [← release_Plus_agrees r _ _ _ hp]
        exact ih _ h
    | other n =>
      simp only [Release.confirmedPool] at h
      simp only [confirmedPool]
      exact Option.some.inj h

/-- Function `Plus` of a release on two coins of one denomination whose sum is
within the bound. -/
theorem release_Plus_sameDenom (r : Release) (coin coinB : Coin) (h : coinB.Denom = coin.Denom)
    (h1 : -(2 ^ 255) < coin.Amount + coinB.Amount) (h2 : coin.Amount + coinB.Amount < 2 ^ 255) :
    r.Plus coin coinB = some ⟨coin.Denom, coin.Amount + coinB.Amount⟩ := by
  simp [Release.Plus, Coin.SameDenomAs, h, sdkIntAdd_fits _ _ h1 h2]

/-- The pool of positions whose coins are non-negative amounts in the
denomination of the pool, with a sum within the bound: no release panics. -/
theorem release_confirmedPool_returns (r : Release) (falseVotes : List Voter) (pool : Coin)
    (hkind : ∀ v ∈ falseVotes, v.isKnownKind = true)
    (hb : ∀ b ∈ backings falseVotes, b.Interest.Denom = pool.Denom ∧ 0 ≤ b.Interest.Amount)
    (hc : ∀ c ∈ challenges falseVotes, c.Amount.Denom = pool.Denom ∧ 0 ≤ c.Amount.Amount)
    (ht : ∀ t ∈ tokenVotes falseVotes, t.Amount.Denom = pool.Denom ∧ 0 ≤ t.Amount.Amount)
    (h0 : 0 ≤ pool.Amount)
    (hfit : pool.Amount
          + ((backings falseVotes).map fun b => b.Interest.Amount).sum
          + ((challenges falseVotes).map fun c => c.Amount.Amount).sum
          + ((tokenVotes falseVotes).map fun t => t.Amount.Amount).sum < 2 ^ 255) :
    r.confirmedPool falseVotes pool =
      some (⟨pool.Denom, pool.Amount
          + ((backings falseVotes).map fun b => b.Interest.Amount).sum
          + ((challenges falseVotes).map fun c => c.Amount.Amount).sum
          + ((tokenVotes falseVotes).map fun t => t.Amount.Amount).sum⟩, none) := by
  induction falseVotes generalizing pool with
  | nil => simp [Release.confirmedPool, backings, challenges, tokenVotes]
  | cons v rest ih =>
    have hrest : ∀ w ∈ rest, w.isKnownKind = true := fun w hw => hkind w (List.mem_cons_of_mem _ hw)
    have sb : 0 ≤ ((backings rest).map fun b => b.Interest.Amount).sum :=
      List.sum_nonneg (by
        intro x hx
        obtain ⟨b, hbm, rfl⟩ := List.mem_map.mp hx
        cases v <;> exact (hb b (by simp [backings] at hbm ⊢; simp [hbm])).2)
    have sc : 0 ≤ ((challenges rest).map fun c => c.Amount.Amount).sum :=
      List.sum_nonneg (by
        intro x hx
        obtain ⟨c, hcm, rfl⟩ := List.mem_map.mp hx
        cases v <;> exact (hc c (by simp [challenges] at hcm ⊢; simp [hcm])).2)
    have stv : 0 ≤ ((tokenVotes rest).map fun t => t.Amount.Amount).sum :=
      List.sum_nonneg (by
        intro x hx
        obtain ⟨t, htm, rfl⟩ := List.mem_map.mp hx
        cases v <;> exact (ht t (by simp [tokenVotes] at htm ⊢; simp [htm])).2)
    cases v with
    | backing b =>
      obtain ⟨hd, hn⟩ := hb b (by simp [backings])
      simp only [backings, challenges, tokenVotes, List.filterMap_cons, List.map_cons,
        List.sum_cons] at hfit sb sc stv
      simp only [Release.confirmedPool]
      rw [release_Plus_sameDenom r _ _ hd (by omega) (by omega)]
      simp only
      rw [ih ⟨pool.Denom, pool.Amount + b.Interest.Amount⟩ hrest
        (fun x hx => hb x (by simpa [backings] using Or.inr hx))
        (fun x hx => hc x (by simpa [challenges] using hx))
        (fun x hx => ht x (by simpa [tokenVotes] using hx)) (by simp only; omega)
        (by simp only [backings, challenges, tokenVotes]; omega)]
      simp [backings, challenges, tokenVotes]
      ring
    | challenge c =>
      obtain ⟨hd, hn⟩ := hc c (by simp [challenges])
      simp only [backings, challenges, tokenVotes, List.filterMap_cons, List.map_cons,
        List.sum_cons] at hfit sb sc stv
      simp only [Release.confirmedPool]
      rw [release_Plus_sameDenom r _ _ hd (by omega) (by omega)]
      simp only
      rw [ih ⟨pool.Denom, pool.Amount + c.Amount.Amount⟩ hrest
        (fun x hx => hb x (by simpa [backings] using hx))
        (fun x hx => hc x (by simpa [challenges] using Or.inr hx))
        (fun x hx => ht x (by simpa [tokenVotes] using hx)) (by simp only; omega)
        (by simp only [backings, challenges, tokenVotes]; omega)]
      simp [backings, challenges, tokenVotes]
      ring
    | tokenVote t =>
      obtain ⟨hd, hn⟩ := ht t (by simp [tokenVotes])
      simp only [backings, challenges, tokenVotes, List.filterMap_cons, List.map_cons,
        List.sum_cons] at hfit sb sc stv
      simp only [Release.confirmedPool]
      rw [release_Plus_sameDenom r _ _ hd (by omega) (by omega)]
      simp only
      rw [ih ⟨pool.Denom, pool.Amount + t.Amount.Amount⟩ hrest
        (fun x hx => hb x (by simpa [backings] using hx))
        (fun x hx => hc x (by simpa [challenges] using hx))
        (fun x hx => ht x (by simpa [tokenVotes] using Or.inr hx)) (by simp only; omega)
        (by simp only [backings, challenges, tokenVotes]; omega)]
      simp [backings, challenges, tokenVotes]
      ring
    | other n =>
      have := hkind (.other n) (by simp)
      simp [Voter.isKnownKind, Voter.isBacking, Voter.isChallenge, Voter.isTokenVote] at this

/-- Function `Minus` of a release on two coins of one denomination, where the
difference is within the bound and not a negative the release rejects. -/
theorem release_Minus_sameDenom (r : Release) (coin coinB : Coin) (h : coinB.Denom = coin.Denom)
    (h1 : -(2 ^ 255) < coin.Amount - coinB.Amount) (h2 : coin.Amount - coinB.Amount < 2 ^ 255)
    (h3 : r.negativeResultPanics = true → 0 ≤ coin.Amount - coinB.Amount) :
    r.Minus coin coinB = some ⟨coin.Denom, coin.Amount - coinB.Amount⟩ := by
  unfold Release.Minus
  have hs : coin.SameDenomAs coinB = true := by simp [Coin.SameDenomAs, h]
  rw [hs, if_pos rfl, sdkIntSub_fits _ _ h1 h2]
  simp only
  cases hp : r.negativeResultPanics with
  | false => simp
  | true =>
    have := h3 hp
    have hn : ¬ coin.Amount - coinB.Amount < 0 := not_lt.mpr this
    simp [hn]

/-- Function `Minus` of a release that rejects a negative result panics on one. -/
theorem release_Minus_negative (r : Release) (coin coinB : Coin) (h : coinB.Denom = coin.Denom)
    (hp : r.negativeResultPanics = true) (hneg : coin.Amount - coinB.Amount < 0) :
    r.Minus coin coinB = none := by
  unfold Release.Minus
  have hs : coin.SameDenomAs coinB = true := by simp [Coin.SameDenomAs, h]
  rw [hs, if_pos rfl]
  cases ha : sdkIntSub coin.Amount coinB.Amount with
  | none => rfl
  | some a =>
    have := sdkIntSub_eq _ _ _ ha
    subst this
    simp [hp, hneg]

/-- The winners loop under the checks of a release returns what the unchecked
arithmetic gives, when the reward is not negative, the denomination of the
pool is accepted, and the pool stays within the bound and, on a release that
rejects negative results, covers the rewards. -/
theorem release_rewardWinners_returns {σ : Type} (r : Release) (bk : BankKeeper σ)
    (reward : Int) (denom : String) (votes : List Voter) (st : Tally σ)
    (hr : 0 ≤ reward) (hd : r.validDenom st.pool.Denom = true)
    (hfit : st.pool.Amount < 2 ^ 255)
    (hlow : -(2 ^ 255) < st.pool.Amount - reward * ((tokenVotes votes).length : Int))
    (hcover : r.negativeResultPanics = true →
      0 ≤ st.pool.Amount - reward * ((tokenVotes votes).length : Int)) :
    r.rewardWinners bk reward denom votes st = some (rewardWinners bk reward denom votes st) := by
  induction votes generalizing st with
  | nil => simp [Release.rewardWinners, rewardWinners]
  | cons v rest ih =>
    cases v with
    | backing b =>
      simp only [Release.rewardWinners, rewardWinners]
      exact ih st hd hfit hlow hcover
    | tokenVote t =>
      have hlen : ((tokenVotes (Voter.tokenVote t :: rest)).length : Int)
          = ((tokenVotes rest).length : Int) + 1 := by simp [tokenVotes]
      rw [hlen] at hlow hcover
      have hk : 0 ≤ reward * ((tokenVotes rest).length : Int) :=
        mul_nonneg hr (Int.natCast_nonneg _)
      have hmul : reward * (((tokenVotes rest).length : Int) + 1)
          = reward * ((tokenVotes rest).length : Int) + reward := by ring
      rw [hmul] at hlow hcover
      simp only [Release.rewardWinners, rewardWinners]
      cases he : (bk.AddCoins st.bank t.Creator [t.Amount]).2 with
      | some e => rfl
      | none =>
        simp only
        rw [release_NewCoin_valid r _ _ hr hd]
        simp only
        rw [release_Minus_sameDenom r st.pool ⟨st.pool.Denom, reward⟩ rfl (by simp only; omega)
          (by simp only; omega) (fun hp => by have := hcover hp; simp only; omega)]
        simp only
        rw [Coin.Minus_sameDenom st.pool ⟨st.pool.Denom, reward⟩ rfl]
        exact ih _ hd (by simp only; omega) (by simp only; omega)
          (fun hp => by have := hcover hp; simp only; omega)
    | challenge c => simp [Release.rewardWinners, rewardWinners]
    | other n => simp [Release.rewardWinners, rewardWinners]

/-- The winners loop panics on a release that rejects negative results, when
the bank never fails and the rewards of the TokenVotes exceed the pool. -/
theorem release_rewardWinners_panics {σ : Type} (r : Release) (bk : BankKeeper σ)
    (hbank : bk.neverFails) (reward : Int) (denom : String) (votes : List Voter) (st : Tally σ)
    (hkind : ∀ v ∈ votes, v.isWinnerKind = true)
    (hp : r.negativeResultPanics = true) (h0 : 0 ≤ st.pool.Amount)
    (hshort : st.pool.Amount < reward * ((tokenVotes votes).length : Int)) :
    r.rewardWinners bk reward denom votes st = none := by
  induction votes generalizing st with
  | nil =>
    have : reward * ((tokenVotes ([] : List Voter)).length : Int) = 0 := by simp [tokenVotes]
    rw [this] at hshort
    omega
  | cons v rest ih =>
    have hrest : ∀ w ∈ rest, w.isWinnerKind = true := fun w hw => hkind w (List.mem_cons_of_mem _ hw)
    cases v with
    | backing b =>
      simp only [Release.rewardWinners]
      exact ih st hrest h0 hshort
    | tokenVote t =>
      have hlen : ((tokenVotes (Voter.tokenVote t :: rest)).length : Int)
          = ((tokenVotes rest).length : Int) + 1 := by simp [tokenVotes]
      have hmul : reward * (((tokenVotes rest).length : Int) + 1)
          = reward * ((tokenVotes rest).length : Int) + reward := by ring
      rw [hlen, hmul] at hshort
      simp only [Release.rewardWinners, hbank st.bank t.Creator [t.Amount]]
      cases hc : r.NewCoin st.pool.Denom reward with
      | none => rfl
      | some c =>
        have hce := release_NewCoin_eq r _ _ _ hc
        subst hce
        simp only
        by_cases hneg : st.pool.Amount - reward < 0
        · rw [release_Minus_negative r st.pool ⟨st.pool.Denom, reward⟩ rfl hp hneg]
        · cases hm : r.Minus st.pool ⟨st.pool.Denom, reward⟩ with
          | none => rfl
          | some p =>
            have hpe := release_Minus_agrees r _ _ _ hm
            rw [Coin.Minus_sameDenom st.pool ⟨st.pool.Denom, reward⟩ rfl] at hpe
            subst hpe
            simp only
            exact ih _ hrest (by simp only; omega) (by simp only; omega)
    | challenge c =>
      have := hkind (.challenge c) (by simp)
      simp [Voter.isWinnerKind, Voter.isBacking, Voter.isTokenVote] at this
    | other n =>
      have := hkind (.other n) (by simp)
      simp [Voter.isWinnerKind, Voter.isBacking, Voter.isTokenVote] at this

/-- Where the winners loop of a release returns, it returns what the unchecked
arithmetic gives. -/
theorem release_rewardWinners_agrees {σ : Type} (r : Release) (bk : BankKeeper σ)
    (reward : Int) (denom : String) (votes : List Voter) (st : Tally σ)
    (x : Except (Tally σ) (Tally σ)) (h : r.rewardWinners bk reward denom votes st = some x) :
    rewardWinners bk reward denom votes st = x := by
  induction votes generalizing st with
  | nil =>
    simp only [Release.rewardWinners] at h
    simp only [rewardWinners]
    exact Option.some.inj h
  | cons v rest ih =>
    cases v with
    | backing b =>
      simp only [Release.rewardWinners] at h
      simp only [rewardWinners]
      exact ih st h
    | tokenVote t =>
      simp only [Release.rewardWinners] at h
      simp only [rewardWinners]
      cases he : (bk.AddCoins st.bank t.Creator [t.Amount]).2 with
      | some e =>
        rw [he] at h
        exact Option.some.inj h
      | none =>
        rw [he] at h
        simp only at h ⊢
        cases hc : r.NewCoin st.pool.Denom reward with
        | none => rw [hc] at h; cases h
        | some c =>
          have hce := release_NewCoin_eq r _ _ _ hc
          subst hce
          rw [hc] at h
          simp only at h
          cases hm : r.Minus st.pool ⟨st.pool.Denom, reward⟩ with
          | none => rw [hm] at h; cases h
          | some p =>
            have hpe := release_Minus_agrees r _ _ _ hm
            rw [hm] at h
            simp only at h
            rw [← hpe]
            exact ih _ h
    | challenge c =>
      simp only [Release.rewardWinners] at h
      simp only [rewardWinners]
      exact Option.some.inj h
    | other n =>
      simp only [Release.rewardWinners] at h
      simp only [rewardWinners]
      exact Option.some.inj h

/-- Where `distributeRewardsConfirmed` of a release returns, it returns what
the unchecked arithmetic gives. -/
theorem release_distributeRewardsConfirmed_agrees {σ : Type} (r : Release)
    (bk : BankKeeper σ) (ctx : σ) (votes : poll) (pool : Coin) (denom : String) (st : Tally σ)
    (h : r.distributeRewardsConfirmed bk ctx votes pool denom = some st) :
    distributeRewardsConfirmed bk ctx votes pool denom = some st := by
  unfold Release.distributeRewardsConfirmed at h
  unfold distributeRewardsConfirmed
  cases hv : voterRewardAmount pool (voterCount votes.trueVotes) with
  | none => rw [hv] at h; cases h
  | some reward =>
    rw [hv] at h
    simp only at h ⊢
    cases hw : r.rewardWinners bk reward denom votes.trueVotes ⟨ctx, pool, none⟩ with
    | none => rw [hw] at h; cases h
    | some x =>
      rw [hw] at h
      rw [release_rewardWinners_agrees r bk reward denom _ _ x hw]
      cases x with
      | error st0 => exact h
      | ok st0 => exact h

/-- Settlement under the checks of a release, of a poll of valid positions on a
bank that never fails, when the share is not negative, the denomination of
the pool is accepted and the pool stays within the bound and, on a release
that rejects negative results, covers the rewards. -/
theorem release_distributeRewardsConfirmed_returns {σ : Type} (r : Release)
    (bk : BankKeeper σ) (hbank : bk.neverFails) (ctx : σ) (votes : poll) (pool : Coin)
    (denom : String) (reward : Int)
    (hv : voterRewardAmount pool (voterCount votes.trueVotes) = some reward)
    (htrue : ∀ v ∈ votes.trueVotes, v.isWinnerKind = true)
    (hfalse : ∀ v ∈ votes.falseVotes, v.isKnownKind = true)
    (hr : 0 ≤ reward) (hd : r.validDenom pool.Denom = true) (hfit : pool.Amount < 2 ^ 255)
    (hlow : -(2 ^ 255) < pool.Amount - reward * ((tokenVotes votes.trueVotes).length : Int))
    (hcover : r.negativeResultPanics = true →
      0 ≤ pool.Amount - reward * ((tokenVotes votes.trueVotes).length : Int)) :
    r.distributeRewardsConfirmed bk ctx votes pool denom =
      some ⟨applyTransfers bk ctx (confirmedTransfers reward denom votes),
        ⟨pool.Denom, pool.Amount - reward * ((tokenVotes votes.trueVotes).length : Int)⟩,
        none⟩ := by
  have hu := distributeRewardsConfirmed_neverFails bk hbank ctx votes pool denom reward hv
    htrue hfalse
  have hw := release_rewardWinners_returns r bk reward denom votes.trueVotes ⟨ctx, pool, none⟩
    hr hd hfit hlow hcover
  unfold distributeRewardsConfirmed at hu
  unfold Release.distributeRewardsConfirmed
  rw [hv] at hu ⊢
  simp only at hu ⊢
  rw [hw]
  cases hx : rewardWinners bk reward denom votes.trueVotes ⟨ctx, pool, none⟩ with
  | error st0 => rw [hx] at hu; exact hu
  | ok st0 => rw [hx] at hu; exact hu

/-- Settlement panics on a release that rejects negative results, when the bank
never fails and the rewards of the true-side TokenVotes exceed the pool. -/
theorem release_distributeRewardsConfirmed_panics {σ : Type} (r : Release)
    (bk : BankKeeper σ) (hbank : bk.neverFails) (ctx : σ) (votes : poll) (pool : Coin)
    (denom : String) (reward : Int)
    (hv : voterRewardAmount pool (voterCount votes.trueVotes) = some reward)
    (htrue : ∀ v ∈ votes.trueVotes, v.isWinnerKind = true)
    (hp : r.negativeResultPanics = true) (h0 : 0 ≤ pool.Amount)
    (hshort : pool.Amount < reward * ((tokenVotes votes.trueVotes).length : Int)) :
    r.distributeRewardsConfirmed bk ctx votes pool denom = none := by
  unfold Release.distributeRewardsConfirmed
  rw [hv]
  simp only
  rw [release_rewardWinners_panics r bk hbank reward denom votes.trueVotes ⟨ctx, pool, none⟩
    htrue hp h0 hshort]

/-- The share computed is the share in the words of the spec. -/
theorem voterRewardAmount_nearestShare (pool : Coin) (n : Int) (hp : 0 ≤ pool.Amount)
    (hn : 0 ≤ n) : voterRewardAmount pool n = some (nearestShare pool.Amount n) := by
  by_cases h0 : n = 0
  · simp [voterRewardAmount, nearestShare, h0]
  · have hpos : 0 < n := by omega
    obtain ⟨t, ht, ht0, htS, hv⟩ := voterRewardAmount_decimals pool n hp hpos
    rw [hv]
    unfold nearestShare
    rw [if_neg h0]
    simp only
    rw [← ht]
    congr 1
    by_cases c0 : t = 0
    · have : t < 5000000000 := by omega
      simp [c0]
    · simp [c0]

/-- The share of a non-negative pool is not negative and differs from the exact
quotient by at most one half: the pool minus the rewards of `n` voters lies
between `-n / 2` and `n`. -/
theorem nearestShare_bounds (p n : Int) (hp : 0 ≤ p) (hn : 0 < n) :
    0 ≤ nearestShare p n ∧ -n ≤ 2 * (p - n * nearestShare p n) ∧
      p - n * nearestShare p n < n := by
  have hc := voterRewardAmount_cases ⟨"x", p⟩ n hp hn
  have hs := voterRewardAmount_nearestShare ⟨"x", p⟩ n hp (le_of_lt hn)
  simp only at hc hs
  have hq := Int.ediv_add_emod p n
  have hr0 := Int.emod_nonneg p (ne_of_gt hn)
  have hrn := Int.emod_lt_of_pos p hn
  have hq0 : 0 ≤ p / n := Int.ediv_nonneg hp (le_of_lt hn)
  rcases hc with h | ⟨h, hhalf⟩
  · rw [hs] at h
    have e : nearestShare p n = p / n := Option.some.inj h
    rw [e]
    refine ⟨hq0, ?_, ?_⟩
    · have : p - n * (p / n) = p % n := by linarith
      rw [this]; omega
    · have : p - n * (p / n) = p % n := by linarith
      rw [this]; omega
  · rw [hs] at h
    have e : nearestShare p n = p / n + 1 := Option.some.inj h
    rw [e]
    refine ⟨by omega, ?_, ?_⟩
    · have : p - n * (p / n + 1) = p % n - n := by linarith
      rw [this]; omega
    · have : p - n * (p / n + 1) = p % n - n := by linarith
      rw [this]; omega

/-- The share of a non-negative pool is not negative. -/
theorem nearestShare_nonneg (p n : Int) (hp : 0 ≤ p) (hn : 0 ≤ n) : 0 ≤ nearestShare p n := by
  by_cases h0 : n = 0
  · simp [nearestShare, h0]
  · exact (nearestShare_bounds p n hp (by omega)).1

/-! ## lemmas: the state an error of the tick leaves -/

/-- An error of the tick is the error of the first game it could not finish:
the games ahead of it in the queue were drained, and the tick returns the
bank and the stories as those games and the unfinished one left them, with
the unfinished game popped unless it is its lookup that failed. -/
theorem checkExpiredGames_error_decomp {β γ : Type} (k : Keeper β γ) (now : Int)
    (q : List Int) (b : β) (s : γ) (e : Error)
    (h : (checkExpiredGames k now q b s).err = some e) :
    ∃ (done rest : List Int) (bm : β) (sm : γ),
      q = done ++ rest ∧
      checkExpiredGames k now done b s = ⟨[], bm, sm, none⟩ ∧
      ((∃ id tail, rest = id :: tail ∧ k.gameKeeperGet id = .error e ∧
          checkExpiredGames k now q b s = ⟨rest, bm, sm, some e⟩) ∨
       (∃ id tail g, rest = id :: tail ∧ k.gameKeeperGet id = .ok g ∧ g.ExpiresTime ≤ now ∧
          g.Started = false ∧
          (((returnFunds k bm g.ID).2 = some e ∧
              checkExpiredGames k now q b s =
                ⟨tail, (returnFunds k bm g.ID).1, sm, some e⟩) ∨
           ((returnFunds k bm g.ID).2 = none ∧ (k.EndChallenge sm g.StoryID).2 = some e ∧
              checkExpiredGames k now q b s =
                ⟨tail, (returnFunds k bm g.ID).1, (k.EndChallenge sm g.StoryID).1,
                  some e⟩)))) := by
  induction q generalizing b s with
  | nil => simp [checkExpiredGames] at h
  | cons id rest0 ih =>
    cases hg : k.gameKeeperGet id with
    | error e0 =>
      have hr : checkExpiredGames k now (id :: rest0) b s = ⟨id :: rest0, b, s, some e0⟩ := by
        simp [checkExpiredGames, hg]
      rw [hr] at h
      simp only [Option.some.injEq] at h
      subst h
      exact ⟨[], id :: rest0, b, s, rfl, by simp [checkExpiredGames],
        Or.inl ⟨id, rest0, rfl, hg, hr⟩⟩
    | ok g =>
      by_cases hexp : g.ExpiresTime > now
      · simp [checkExpiredGames, hg, hexp] at h
      · have hle : g.ExpiresTime ≤ now := by omega
        by_cases hst : g.Started = true
        · have hr : ∀ t, checkExpiredGames k now (id :: t) b s = checkExpiredGames k now t b s := by
            intro t
            simp [checkExpiredGames, hg, hexp, hst]
          rw [hr] at h
          obtain ⟨done, rest, bm, sm, hq, hd, hcase⟩ := ih b s h
          refine ⟨id :: done, rest, bm, sm, by rw [hq]; rfl, by rw [hr]; exact hd, ?_⟩
          rw [hr]
          exact hcase
        · have hst2 : g.Started = false := by simpa using hst
          cases h1 : (returnFunds k b g.ID).2 with
          | some e1 =>
            have hr : checkExpiredGames k now (id :: rest0) b s =
                ⟨rest0, (returnFunds k b g.ID).1, s, some e1⟩ := by
              simp [checkExpiredGames, hg, hexp, hst2, h1]
            rw [hr] at h
            simp only [Option.some.injEq] at h
            subst h
            exact ⟨[], id :: rest0, b, s, rfl, by simp [checkExpiredGames],
              Or.inr ⟨id, rest0, g, rfl, hg, hle, hst2, Or.inl ⟨h1, hr⟩⟩⟩
          | none =>
            cases h2 : (k.EndChallenge s g.StoryID).2 with
            | some e2 =>
              have hr : checkExpiredGames k now (id :: rest0) b s =
                  ⟨rest0, (returnFunds k b g.ID).1, (k.EndChallenge s g.StoryID).1, some e2⟩ := by
                simp [checkExpiredGames, hg, hexp, hst2, h1, h2]
              rw [hr] at h
              simp only [Option.some.injEq] at h
              subst h
              exact ⟨[], id :: rest0, b, s, rfl, by simp [checkExpiredGames],
                Or.inr ⟨id, rest0, g, rfl, hg, hle, hst2, Or.inr ⟨h1, h2, hr⟩⟩⟩
            | none =>
              have hr : ∀ t, checkExpiredGames k now (id :: t) b s =
                  checkExpiredGames k now t (returnFunds k b g.ID).1
                    (k.EndChallenge s g.StoryID).1 := by
                intro t
                simp [checkExpiredGames, hg, hexp, hst2, h1, h2]
              rw [hr] at h
              obtain ⟨done, rest, bm, sm, hq, hd, hcase⟩ := ih _ _ h
              refine ⟨id :: done, rest, bm, sm, by rw [hq]; rfl, by rw [hr]; exact hd, ?_⟩
              rw [hr]
              exact hcase

/-- The refund loop on the recording bank only adds to the journal. -/
theorem returnFundsLoop_journal_grows (games : Int → Except Error Game)
    (index : Int → List Int) (table : Int → Except Error Challenge) (ids : List Int)
    (b : Journal) : b <+: (returnFundsLoop (storeKeeper games index table) ids b).1 := by
  induction ids generalizing b with
  | nil => simp [returnFundsLoop]
  | cons id rest ih =>
    cases hc : table id with
    | error e =>
      have hk : (storeKeeper games index table).Get id = .error e := hc
      simp [returnFundsLoop, hk]
    | ok c =>
      have hk : (storeKeeper games index table).Get id = .ok c := hc
      simp only [returnFundsLoop, hk]
      have hb : (storeKeeper games index table).bankKeeper.AddCoins b c.Creator [c.Amount]
          = (b ++ [(c.Creator, [c.Amount])], none) := rfl
      simp only [hb]
      exact (List.prefix_append b _).trans (ih _)

/-- The tick on the recording bank only adds to the journal: no credit made is
taken back, whether the tick returns an error or not. -/
theorem checkExpiredGames_journal_grows (games : Int → Except Error Game)
    (index : Int → List Int) (table : Int → Except Error Challenge) (now : Int)
    (q : List Int) (b : Journal) (s : StoryStore) :
    b <+: (checkExpiredGames (storeKeeper games index table) now q b s).bank := by
  induction q generalizing b s with
  | nil => simp [checkExpiredGames]
  | cons id rest ih =>
    have hrf : ∀ gid, b <+: (returnFunds (storeKeeper games index table) b gid).1 :=
      fun gid => returnFundsLoop_journal_grows games index table _ b
    cases hg : games id with
    | error e =>
      have hk : (storeKeeper games index table).gameKeeperGet id = .error e := hg
      simp [checkExpiredGames, hk]
    | ok g =>
      have hk : (storeKeeper games index table).gameKeeperGet id = .ok g := hg
      by_cases hexp : g.ExpiresTime > now
      · simp [checkExpiredGames, hk, hexp]
      · by_cases hst : g.Started = true
        · have hr : checkExpiredGames (storeKeeper games index table) now (id :: rest) b s =
              checkExpiredGames (storeKeeper games index table) now rest b s := by
            simp [checkExpiredGames, hk, hexp, hst]
          rw [hr]
          exact ih b s
        · have hst2 : g.Started = false := by simpa using hst
          cases h1 : (returnFunds (storeKeeper games index table) b g.ID).2 with
          | some e1 =>
            have hr : checkExpiredGames (storeKeeper games index table) now (id :: rest) b s =
                ⟨rest, (returnFunds (storeKeeper games index table) b g.ID).1, s, some e1⟩ := by
              simp [checkExpiredGames, hk, hexp, hst2, h1]
            rw [hr]
            exact hrf g.ID
          | none =>
            cases h2 : ((storeKeeper games index table).EndChallenge s g.StoryID).2 with
            | some e2 =>
              have hr : checkExpiredGames (storeKeeper games index table) now (id :: rest) b s =
                  ⟨rest, (returnFunds (storeKeeper games index table) b g.ID).1,
                    ((storeKeeper games index table).EndChallenge s g.StoryID).1, some e2⟩ := by
                simp [checkExpiredGames, hk, hexp, hst2, h1, h2]
              rw [hr]
              exact hrf g.ID
            | none =>
              have hr : checkExpiredGames (storeKeeper games index table) now (id :: rest) b s =
                  checkExpiredGames (storeKeeper games index table) now rest
                    (returnFunds (storeKeeper games index table) b g.ID).1
                    ((storeKeeper games index table).EndChallenge s g.StoryID).1 := by
                simp [checkExpiredGames, hk, hexp, hst2, h1, h2]
              rw [hr]
              exact (hrf g.ID).trans (ih _ _)

/-! ## the claims -/

/-- C1, counterexample: one false Challenge of 20 in the stake denomination on
an empty pool of another denomination: a release whose `Plus` panics on two
denominations panics, any other leaves the pool at 0, and no release returns
a pool of 20.  And on a pool of `2 ^ 255 - 1` in the stake denomination the
sum is past the 255 bits of `sdk.Int`: every release panics. -/
theorem confirmedPool_other_denom :
    (∀ r : Release, r.confirmedPool [.challenge ⟨2, ⟨"trusteak", 20⟩⟩] ⟨"trudex", 0⟩ =
      if r.mismatchPanics then none else some (⟨"trudex", 0⟩, none)) ∧
    (∀ (r : Release) (x : Coin × Option Error),
      r.confirmedPool [.challenge ⟨2, ⟨"trusteak", 20⟩⟩] ⟨"trudex", 0⟩ = some x →
        x.1.Amount ≠ 0 + 20) ∧
    (∀ r : Release,
      r.confirmedPool [.challenge ⟨2, ⟨"trusteak", 20⟩⟩] ⟨"trusteak", 2 ^ 255 - 1⟩ = none) := by
  have h1 : ∀ r : Release, r.confirmedPool [.challenge ⟨2, ⟨"trusteak", 20⟩⟩] ⟨"trudex", 0⟩ =
      if r.mismatchPanics then none else some (⟨"trudex", 0⟩, none) := by
    intro r
    have hs : Coin.SameDenomAs ⟨"trudex", 0⟩ ⟨"trusteak", 20⟩ = false := by decide
    simp only [Release.confirmedPool, Release.Plus, hs]
    cases r.mismatchPanics <;> rfl
  refine ⟨h1, ?_, ?_⟩
  · intro r x hx
    rw [h1 r] at hx
    cases hm : r.mismatchPanics with
    | true => rw [hm] at hx; cases hx
    | false =>
      rw [hm] at hx
      have := Option.some.inj hx
      subst this
      decide
  · intro r
    have hs : Coin.SameDenomAs ⟨"trusteak", 2 ^ 255 - 1⟩ ⟨"trusteak", 20⟩ = true := by decide
    have ha : sdkIntAdd (2 ^ 255 - 1) 20 = none := by decide
    simp only [Release.confirmedPool, Release.Plus, hs, ha, if_true]

/-- C1 (amended): for every list of false-side positions that are Backings,
Challenges or TokenVotes, on every release of the sdk: when `confirmedPool`
returns, it returns no error and a pool of the starting denomination; and
when the starting pool and the coins of the positions are non-negative
amounts of one denomination whose sum is below `2 ^ 255`, it returns, leaving
the pool at the starting amount plus the sum of `Interest` over the Backings
plus the sum of `Amount` over the Challenges plus the sum of `Amount` over the
TokenVotes. -/
theorem confirmedPool_sum (r : Release) (falseVotes : List Voter) (pool : Coin)
    (hkind : ∀ v ∈ falseVotes, v.isKnownKind = true) :
    (∀ x, r.confirmedPool falseVotes pool = some x → x.2 = none ∧ x.1.Denom = pool.Denom) ∧
    ((∀ b ∈ backings falseVotes, b.Interest.Denom = pool.Denom ∧ 0 ≤ b.Interest.Amount) →
      (∀ c ∈ challenges falseVotes, c.Amount.Denom = pool.Denom ∧ 0 ≤ c.Amount.Amount) →
      (∀ t ∈ tokenVotes falseVotes, t.Amount.Denom = pool.Denom ∧ 0 ≤ t.Amount.Amount) →
      0 ≤ pool.Amount →
      pool.Amount
          + ((backings falseVotes).map fun b => b.Interest.Amount).sum
          + ((challenges falseVotes).map fun c => c.Amount.Amount).sum
          + ((tokenVotes falseVotes).map fun t => t.Amount.Amount).sum < 2 ^ 255 →
      r.confirmedPool falseVotes pool =
        some (⟨pool.Denom, pool.Amount
          + ((backings falseVotes).map fun b => b.Interest.Amount).sum
          + ((challenges falseVotes).map fun c => c.Amount.Amount).sum
          + ((tokenVotes falseVotes).map fun t => t.Amount.Amount).sum⟩, none)) := by
  refine ⟨?_, ?_⟩
  · intro x hx
    have := release_confirmedPool_agrees r falseVotes pool x hx
    rw [← this]
    exact confirmedPool_known falseVotes pool hkind
  · intro hb hc ht h0 hfit
    exact release_confirmedPool_returns r falseVotes pool hkind hb hc ht h0 hfit

/-- C1, witness: one false Challenge of 20 on an empty pool of the same
denomination gives a pool of 20, on a release that panics on two
denominations as on one that does not. -/
theorem confirmedPool_sum_witness :
    strictRelease.confirmedPool [.challenge ⟨2, ⟨"trusteak", 20⟩⟩] ⟨"trusteak", 0⟩ =
      some (⟨"trusteak", 20⟩, none) ∧
    lenientRelease.confirmedPool [.challenge ⟨2, ⟨"trusteak", 20⟩⟩] ⟨"trusteak", 0⟩ =
      some (⟨"trusteak", 20⟩, none) :=
  ⟨(confirmedPool_sum strictRelease [.challenge ⟨2, ⟨"trusteak", 20⟩⟩] ⟨"trusteak", 0⟩
      (by decide)).2 (by decide) (by decide) (by decide) (by decide) (by decide),
   (confirmedPool_sum lenientRelease [.challenge ⟨2, ⟨"trusteak", 20⟩⟩] ⟨"trusteak", 0⟩
      (by decide)).2 (by decide) (by decide) (by decide) (by decide) (by decide)⟩

/-- C2, counterexample: a pool of 2 shared by 3 voters gives each a share of 1,
while the floor of 2/3 is 0. -/
theorem voterRewardAmount_not_floor :
    voterRewardAmount ⟨"trusteak", 2⟩ 3 = some 1 ∧
      voterRewardAmount ⟨"trusteak", 2⟩ 3 ≠ some ((2 : Int) / 3) := by
  decide

/-- C2 (amended): for every non-negative pool amount `p` and every voter count
`n > 0` with `2 * n` within the decimal scale, `voterRewardAmount(pool, n)` is
`p / n` rounded to the nearest integer, not floored: the floor when
`2 * (p mod n) < n`, the floor plus one when `2 * (p mod n) > n`, and on a tie
whichever of the two is even. -/
theorem voterRewardAmount_rounds (pool : Coin) (n : Int) (hp : 0 ≤ pool.Amount) (hn : 0 < n)
    (hbig : 2 * n ≤ precisionReuse) :
    voterRewardAmount pool n = some
      (if 2 * (pool.Amount % n) < n then pool.Amount / n
       else if n < 2 * (pool.Amount % n) then pool.Amount / n + 1
       else if (pool.Amount / n) % 2 = 0 then pool.Amount / n
       else pool.Amount / n + 1) := by
  rw [precisionReuse_eq] at hbig
  obtain ⟨t, ht, ht0, htS, hv⟩ := voterRewardAmount_decimals pool n hp hn
  have hr0 : 0 ≤ pool.Amount % n := Int.emod_nonneg _ (ne_of_gt hn)
  have hrn : pool.Amount % n < n := Int.emod_lt_of_pos _ hn
  have h0 : t < 1 ↔ pool.Amount % n * 10000000000 < 1 * n := by
    rw [ht]; exact Int.ediv_lt_iff_lt_mul hn
  have h1 : t < 5000000000 ↔ pool.Amount % n * 10000000000 < 5000000000 * n := by
    rw [ht]; exact Int.ediv_lt_iff_lt_mul hn
  have h2 : 5000000001 ≤ t ↔ 5000000001 * n ≤ pool.Amount % n * 10000000000 := by
    rw [ht]; exact Int.le_ediv_iff_mul_le hn
  rw [hv]
  congr 1
  by_cases c1 : 2 * (pool.Amount % n) < n
  · have : t < 5000000000 := h1.mpr (by omega)
    simp only [c1, if_true]
    split_ifs <;> rfl
  · by_cases c2 : n < 2 * (pool.Amount % n)
    · have : 5000000001 ≤ t := h2.mpr (by omega)
      simp only [c1, c2, if_true, if_false]
      split_ifs <;> first | rfl | omega
    · have e1 : ¬ t < 5000000000 := fun h => by have := h1.mp h; omega
      have e2 : ¬ 5000000001 ≤ t := fun h => by have := h2.mp h; omega
      simp only [c1, c2, if_false]
      split_ifs <;> first | rfl | omega

/-- C2, witness: a pool of 2 and 3 voters: `2 * (2 mod 3) > 3`, the share is 1. -/
theorem voterRewardAmount_rounds_witness :
    voterRewardAmount ⟨"trusteak", 2⟩ 3 = some 1 :=
  voterRewardAmount_rounds ⟨"trusteak", 2⟩ 3 (by decide) (by decide) (by decide)

/-- C3, counterexample: a pool of 2 and three true-side TokenVotes.  The share
is 1, so the rewards due are 3.  A release whose `Minus` panics on a negative
result panics at the third voter; a release whose `Minus` allows it pays all
three and leaves the pool at -1.  No release returns with a pool left that is
not negative. -/
theorem distributeRewardsConfirmed_overpays :
    voterRewardAmount ⟨"trusteak", 2⟩ (voterCount [Voter.tokenVote ⟨1, ⟨"trusteak", 50⟩⟩,
      Voter.tokenVote ⟨2, ⟨"trusteak", 50⟩⟩, Voter.tokenVote ⟨3, ⟨"trusteak", 50⟩⟩]) = some 1 ∧
    (∀ r : Release, r.negativeResultPanics = true →
      r.distributeRewardsConfirmed journalKeeper []
        ⟨[.tokenVote ⟨1, ⟨"trusteak", 50⟩⟩, .tokenVote ⟨2, ⟨"trusteak", 50⟩⟩,
          .tokenVote ⟨3, ⟨"trusteak", 50⟩⟩], [.challenge ⟨4, ⟨"trusteak", 2⟩⟩]⟩
        ⟨"trusteak", 2⟩ "trudex" = none) ∧
    (∀ r : Release, r.negativeResultPanics = false → r.validDenom "trusteak" = true →
      r.distributeRewardsConfirmed journalKeeper []
        ⟨[.tokenVote ⟨1, ⟨"trusteak", 50⟩⟩, .tokenVote ⟨2, ⟨"trusteak", 50⟩⟩,
          .tokenVote ⟨3, ⟨"trusteak", 50⟩⟩], [.challenge ⟨4, ⟨"trusteak", 2⟩⟩]⟩
        ⟨"trusteak", 2⟩ "trudex" =
        some ⟨[(1, [⟨"trusteak", 50⟩]), (1, [⟨"trudex", 1⟩]), (2, [⟨"trusteak", 50⟩]),
          (2, [⟨"trudex", 1⟩]), (3, [⟨"trusteak", 50⟩]), (3, [⟨"trudex", 1⟩])],
          ⟨"trusteak", -1⟩, none⟩) ∧
    (∀ (r : Release) (st : Tally Journal),
      r.distributeRewardsConfirmed journalKeeper []
        ⟨[.tokenVote ⟨1, ⟨"trusteak", 50⟩⟩, .tokenVote ⟨2, ⟨"trusteak", 50⟩⟩,
          .tokenVote ⟨3, ⟨"trusteak", 50⟩⟩], [.challenge ⟨4, ⟨"trusteak", 2⟩⟩]⟩
        ⟨"trusteak", 2⟩ "trudex" = some st → st.pool.Amount = -1) := by
  have hv : voterRewardAmount ⟨"trusteak", 2⟩ (voterCount [Voter.tokenVote ⟨1, ⟨"trusteak", 50⟩⟩,
      Voter.tokenVote ⟨2, ⟨"trusteak", 50⟩⟩, Voter.tokenVote ⟨3, ⟨"trusteak", 50⟩⟩]) = some 1 := by
    decide
  refine ⟨hv, ?_, ?_, ?_⟩
  · intro r hp
    exact release_distributeRewardsConfirmed_panics r journalKeeper journalKeeper_neverFails []
      _ _ _ 1 hv (by decide) hp (by decide) (by decide)
  · intro r hp hd
    rw [release_distributeRewardsConfirmed_returns r journalKeeper journalKeeper_neverFails []
      _ _ _ 1 hv (by decide) (by decide) (by decide) hd (by decide) (by decide)
      (fun h => by rw [hp] at h; cases h)]
    rfl
  · intro r st h
    have hu := release_distributeRewardsConfirmed_agrees r journalKeeper [] _ _ _ st h
    have he : distributeRewardsConfirmed journalKeeper []
        ⟨[.tokenVote ⟨1, ⟨"trusteak", 50⟩⟩, .tokenVote ⟨2, ⟨"trusteak", 50⟩⟩,
          .tokenVote ⟨3, ⟨"trusteak", 50⟩⟩], [.challenge ⟨4, ⟨"trusteak", 2⟩⟩]⟩
        ⟨"trusteak", 2⟩ "trudex" =
        some ⟨[(1, [⟨"trusteak", 50⟩]), (1, [⟨"trudex", 1⟩]), (2, [⟨"trusteak", 50⟩]),
          (2, [⟨"trudex", 1⟩]), (3, [⟨"trusteak", 50⟩]), (3, [⟨"trudex", 1⟩])],
          ⟨"trusteak", -1⟩, none⟩ := rfl
    rw [he] at hu
    have := Option.some.inj hu
    rw [← this]

/-- C3 (amended): on a bank that never fails, for a poll of valid positions, a
pool `0 ≤ p < 2 ^ 255` in a denomination `NewCoin` accepts and `n > 0`
true-side TokenVotes (a count within its `int64`), the share `s` is `p / n`
rounded to the nearest integer, and `p - n * s` lies between `-n / 2` and
`n`.  The sum of the rewards due is `n * s`.  On every release on which a
negative pool is not a panic, and on every release when `n * s ≤ p`,
`distributeRewardsConfirmed` returns nil, every voter has been paid `s` and
the pool left is `p - n * s`; with `n * s ≤ p` that remainder is not negative
and below `n`.  When `n * s > p`, a release whose `Minus` panics on a
negative result panics, and on the others the pool left is negative. -/
theorem distributeRewardsConfirmed_conservation {σ : Type} (r : Release)
    (bankKeeper : BankKeeper σ) (ctx : σ) (votes : poll) (pool : Coin) (denom : String)
    (hbank : bankKeeper.neverFails)
    (htrue : ∀ v ∈ votes.trueVotes, v.isWinnerKind = true)
    (hfalse : ∀ v ∈ votes.falseVotes, v.isKnownKind = true)
    (hpool : 0 ≤ pool.Amount) (hfit : pool.Amount < 2 ^ 255)
    (hn : 0 < voterCount votes.trueVotes) (hcount : voterCount votes.trueVotes < 2 ^ 63)
    (hdenom : r.validDenom pool.Denom = true) :
    voterCount votes.trueVotes = ((tokenVotes votes.trueVotes).length : Int) ∧
    voterRewardAmount pool (voterCount votes.trueVotes) =
      some (nearestShare pool.Amount (voterCount votes.trueVotes)) ∧
    ((tokenVotes votes.trueVotes).map
        fun _ => nearestShare pool.Amount (voterCount votes.trueVotes)).sum =
      voterCount votes.trueVotes * nearestShare pool.Amount (voterCount votes.trueVotes) ∧
    -(voterCount votes.trueVotes) ≤ 2 * (pool.Amount -
      voterCount votes.trueVotes * nearestShare pool.Amount (voterCount votes.trueVotes)) ∧
    pool.Amount - voterCount votes.trueVotes *
      nearestShare pool.Amount (voterCount votes.trueVotes) < voterCount votes.trueVotes ∧
    ((r.negativeResultPanics = true →
        voterCount votes.trueVotes * nearestShare pool.Amount (voterCount votes.trueVotes)
          ≤ pool.Amount) →
      r.distributeRewardsConfirmed bankKeeper ctx votes pool denom =
        some ⟨applyTransfers bankKeeper ctx
            (confirmedTransfers (nearestShare pool.Amount (voterCount votes.trueVotes)) denom
              votes),
          ⟨pool.Denom, pool.Amount - voterCount votes.trueVotes *
            nearestShare pool.Amount (voterCount votes.trueVotes)⟩, none⟩) ∧
    (pool.Amount <
        voterCount votes.trueVotes * nearestShare pool.Amount (voterCount votes.trueVotes) →
      r.negativeResultPanics = true →
      r.distributeRewardsConfirmed bankKeeper ctx votes pool denom = none) := by
  have hc := voterCount_eq votes.trueVotes
  have hv := voterRewardAmount_nearestShare pool (voterCount votes.trueVotes) hpool (le_of_lt hn)
  obtain ⟨hs0, hlo, hhi⟩ := nearestShare_bounds pool.Amount (voterCount votes.trueVotes) hpool hn
  have hcomm : nearestShare pool.Amount (voterCount votes.trueVotes) *
      ((tokenVotes votes.trueVotes).length : Int) =
      voterCount votes.trueVotes * nearestShare pool.Amount (voterCount votes.trueVotes) := by
    rw [← hc]; ring
  refine ⟨hc, hv, ?_, hlo, hhi, ?_, ?_⟩
  · rw [List.map_const', List.sum_replicate, nsmul_eq_mul, hc]
  · intro hcover
    have := release_distributeRewardsConfirmed_returns r bankKeeper hbank ctx votes pool denom
      _ hv htrue hfalse hs0 hdenom hfit (by rw [hcomm]; omega)
      (fun hp => by rw [hcomm]; have := hcover hp; omega)
    rw [this, hcomm]
  · intro hshort hp
    exact release_distributeRewardsConfirmed_panics r bankKeeper hbank ctx votes pool denom _ hv
      htrue hp hpool (by rw [hcomm]; exact hshort)

/-- C3, witness: three true-side TokenVotes.  A pool of 4 gives a share of 1 and
a remainder of 1 on a release that rejects negative results; a pool of 2 gives
a share of 1 and that release panics. -/
theorem distributeRewardsConfirmed_conservation_witness :
    strictRelease.distributeRewardsConfirmed journalKeeper []
        ⟨[.tokenVote ⟨1, ⟨"trusteak", 50⟩⟩, .tokenVote ⟨2, ⟨"trusteak", 50⟩⟩,
          .tokenVote ⟨3, ⟨"trusteak", 50⟩⟩], [.challenge ⟨4, ⟨"trusteak", 4⟩⟩]⟩
        ⟨"trusteak", 4⟩ "trudex" =
      some ⟨[(1, [⟨"trusteak", 50⟩]), (1, [⟨"trudex", 1⟩]), (2, [⟨"trusteak", 50⟩]),
          (2, [⟨"trudex", 1⟩]), (3, [⟨"trusteak", 50⟩]), (3, [⟨"trudex", 1⟩])],
        ⟨"trusteak", 1⟩, none⟩ ∧
    strictRelease.distributeRewardsConfirmed journalKeeper []
        ⟨[.tokenVote ⟨1, ⟨"trusteak", 50⟩⟩, .tokenVote ⟨2, ⟨"trusteak", 50⟩⟩,
          .tokenVote ⟨3, ⟨"trusteak", 50⟩⟩], [.challenge ⟨4, ⟨"trusteak", 2⟩⟩]⟩
        ⟨"trusteak", 2⟩ "trudex" = none :=
  ⟨(distributeRewardsConfirmed_conservation strictRelease journalKeeper []
      ⟨[.tokenVote ⟨1, ⟨"trusteak", 50⟩⟩, .tokenVote ⟨2, ⟨"trusteak", 50⟩⟩,
        .tokenVote ⟨3, ⟨"trusteak", 50⟩⟩], [.challenge ⟨4, ⟨"trusteak", 4⟩⟩]⟩
      ⟨"trusteak", 4⟩ "trudex" journalKeeper_neverFails (by decide) (by decide) (by decide)
      (by decide) (by decide) (by decide) rfl).2.2.2.2.2.1 (fun _ => by decide),
   (distributeRewardsConfirmed_conservation strictRelease journalKeeper []
      ⟨[.tokenVote ⟨1, ⟨"trusteak", 50⟩⟩, .tokenVote ⟨2, ⟨"trusteak", 50⟩⟩,
        .tokenVote ⟨3, ⟨"trusteak", 50⟩⟩], [.challenge ⟨4, ⟨"trusteak", 2⟩⟩]⟩
      ⟨"trusteak", 2⟩ "trudex" journalKeeper_neverFails (by decide) (by decide) (by decide)
      (by decide) (by decide) (by decide) rfl).2.2.2.2.2.2 (by decide) rfl⟩

/-- C4: for every pool `voterRewardAmount(pool, 0)` is the integer 0 and no
panic; hence on a poll with no true-side TokenVote the voter count is 0, the
share computed is 0, and `distributeRewardsConfirmed` returns without a
division-by-zero panic. -/
theorem voterRewardAmount_no_voters :
    (∀ pool : Coin, voterRewardAmount pool 0 = some 0) ∧
    (∀ {σ : Type} (bankKeeper : BankKeeper σ) (ctx : σ) (votes : poll) (pool : Coin)
        (denom : String),
      (∀ v ∈ votes.trueVotes, v.isTokenVote = false) →
        voterCount votes.trueVotes = 0 ∧
        voterRewardAmount pool (voterCount votes.trueVotes) = some 0 ∧
        ∃ st, distributeRewardsConfirmed bankKeeper ctx votes pool denom = some st) := by
  refine ⟨fun pool => by simp [voterRewardAmount], ?_⟩
  intro σ bankKeeper ctx votes pool denom h
  have hnil : tokenVotes votes.trueVotes = [] := by
    unfold tokenVotes
    rw [List.filterMap_eq_nil_iff]
    intro v hv
    have := h v hv
    cases v <;> simp_all [Voter.isTokenVote]
  have hc : voterCount votes.trueVotes = 0 := by rw [voterCount_eq, hnil]; rfl
  refine ⟨hc, by simp [hc, voterRewardAmount], ?_⟩
  unfold distributeRewardsConfirmed
  simp only [hc, voterRewardAmount, if_true]
  cases rewardWinners bankKeeper 0 denom votes.trueVotes ⟨ctx, pool, none⟩ with
  | error st => exact ⟨_, rfl⟩
  | ok st =>
    simp only
    cases slashLosers bankKeeper votes.falseVotes st with
    | error st1 => exact ⟨_, rfl⟩
    | ok st1 => exact ⟨_, rfl⟩

/-- C4, witness: a poll with one true-side Backing and one false-side Challenge. -/
theorem voterRewardAmount_no_voters_witness :
    voterCount [Voter.backing ⟨1, ⟨"trusteak", 50⟩, ⟨"trusteak", 5⟩⟩] = 0 ∧
    voterRewardAmount ⟨"trusteak", 20⟩
      (voterCount [Voter.backing ⟨1, ⟨"trusteak", 50⟩, ⟨"trusteak", 5⟩⟩]) = some 0 ∧
    ∃ st, distributeRewardsConfirmed journalKeeper []
      ⟨[.backing ⟨1, ⟨"trusteak", 50⟩, ⟨"trusteak", 5⟩⟩], [.challenge ⟨2, ⟨"trusteak", 20⟩⟩]⟩
      ⟨"trusteak", 20⟩ "trudex" = some st :=
  voterRewardAmount_no_voters.2 journalKeeper []
    ⟨[.backing ⟨1, ⟨"trusteak", 50⟩, ⟨"trusteak", 5⟩⟩], [.challenge ⟨2, ⟨"trusteak", 20⟩⟩]⟩
    ⟨"trusteak", 20⟩ "trudex" (by decide)

/-- C5, counterexample: a pool of 3 and two true-side TokenVotes.  The share is
2, so the rewards due are 4.  On a release whose `Minus` panics on a negative
result the call panics at the second voter and returns nothing. -/
theorem distributeRewardsConfirmed_short_pool :
    voterRewardAmount ⟨"trusteak", 3⟩ (voterCount [Voter.tokenVote ⟨1, ⟨"trusteak", 50⟩⟩,
      Voter.tokenVote ⟨2, ⟨"trusteak", 50⟩⟩]) = some 2 ∧
    (∀ r : Release, r.negativeResultPanics = true →
      r.distributeRewardsConfirmed journalKeeper []
        ⟨[.tokenVote ⟨1, ⟨"trusteak", 50⟩⟩, .tokenVote ⟨2, ⟨"trusteak", 50⟩⟩],
          [.challenge ⟨4, ⟨"trusteak", 3⟩⟩]⟩ ⟨"trusteak", 3⟩ "trudex" = none) ∧
    strictRelease.distributeRewardsConfirmed journalKeeper []
        ⟨[.tokenVote ⟨1, ⟨"trusteak", 50⟩⟩, .tokenVote ⟨2, ⟨"trusteak", 50⟩⟩],
          [.challenge ⟨4, ⟨"trusteak", 3⟩⟩]⟩ ⟨"trusteak", 3⟩ "trudex" = none := by
  have hv : voterRewardAmount ⟨"trusteak", 3⟩ (voterCount [Voter.tokenVote ⟨1, ⟨"trusteak", 50⟩⟩,
      Voter.tokenVote ⟨2, ⟨"trusteak", 50⟩⟩]) = some 2 := by decide
  have h : ∀ r : Release, r.negativeResultPanics = true →
      r.distributeRewardsConfirmed journalKeeper []
        ⟨[.tokenVote ⟨1, ⟨"trusteak", 50⟩⟩, .tokenVote ⟨2, ⟨"trusteak", 50⟩⟩],
          [.challenge ⟨4, ⟨"trusteak", 3⟩⟩]⟩ ⟨"trusteak", 3⟩ "trudex" = none := by
    intro r hp
    exact release_distributeRewardsConfirmed_panics r journalKeeper journalKeeper_neverFails []
      _ _ _ 2 hv (by decide) hp (by decide) (by decide)
  exact ⟨hv, h, h strictRelease rfl⟩

/-- C5 (amended): on a bank that never fails, for a poll whose true side holds
only Backings and TokenVotes and whose false side holds only Backings,
Challenges and TokenVotes, and a pool `0 ≤ p < 2 ^ 255` in a denomination
`NewCoin` accepts that covers the rewards (`n * s ≤ p`, with `n` the number of
true-side TokenVotes, which is what `voterCount` returns, and `s` the share,
`p / n` rounded to the nearest integer, which is what `voterRewardAmount`
returns): on every release `distributeRewardsConfirmed` returns nil and the
bank is left as after exactly these calls, in order: for each true-side
TokenVote its stake to its creator and then one coin of amount `s` in the
category denomination, for each false-side Backing its amount to its
creator, and nothing for any other position. -/
theorem distributeRewardsConfirmed_transfers {σ : Type} (r : Release)
    (bankKeeper : BankKeeper σ) (ctx : σ) (votes : poll) (pool : Coin) (denom : String)
    (hbank : bankKeeper.neverFails)
    (htrue : ∀ v ∈ votes.trueVotes, v.isWinnerKind = true)
    (hfalse : ∀ v ∈ votes.falseVotes, v.isKnownKind = true)
    (hpool : 0 ≤ pool.Amount) (hfit : pool.Amount < 2 ^ 255)
    (hdenom : r.validDenom pool.Denom = true)
    (hcover : ((tokenVotes votes.trueVotes).length : Int) *
      nearestShare pool.Amount ((tokenVotes votes.trueVotes).length : Int) ≤ pool.Amount) :
    voterCount votes.trueVotes = ((tokenVotes votes.trueVotes).length : Int) ∧
    voterRewardAmount pool (voterCount votes.trueVotes) =
      some (nearestShare pool.Amount ((tokenVotes votes.trueVotes).length : Int)) ∧
    r.distributeRewardsConfirmed bankKeeper ctx votes pool denom =
      some ⟨applyTransfers bankKeeper ctx
          (votes.trueVotes.flatMap (fun v =>
              match v with
              | .tokenVote t =>
                [(t.Creator, [t.Amount]),
                 (t.Creator, [⟨denom,
                   nearestShare pool.Amount ((tokenVotes votes.trueVotes).length : Int)⟩])]
              | _ => []) ++
            votes.falseVotes.flatMap (fun v =>
              match v with
              | .backing b => [(b.Creator, [b.Amount])]
              | _ => [])),
        ⟨pool.Denom, pool.Amount - ((tokenVotes votes.trueVotes).length : Int) *
          nearestShare pool.Amount ((tokenVotes votes.trueVotes).length : Int)⟩, none⟩ := by
  have hc := voterCount_eq votes.trueVotes
  have hv := voterRewardAmount_nearestShare pool (voterCount votes.trueVotes) hpool
    (by rw [hc]; exact Int.natCast_nonneg _)
  rw [hc] at hv
  have hs0 := nearestShare_nonneg pool.Amount ((tokenVotes votes.trueVotes).length : Int) hpool
    (Int.natCast_nonneg _)
  have hcomm : nearestShare pool.Amount ((tokenVotes votes.trueVotes).length : Int) *
      ((tokenVotes votes.trueVotes).length : Int) =
      ((tokenVotes votes.trueVotes).length : Int) *
        nearestShare pool.Amount ((tokenVotes votes.trueVotes).length : Int) := by ring
  refine ⟨hc, by rw [hc]; exact hv, ?_⟩
  have := release_distributeRewardsConfirmed_returns r bankKeeper hbank ctx votes pool denom
    _ (by rw [hc]; exact hv) htrue hfalse hs0 hdenom hfit (by rw [hcomm]; omega)
    (fun _ => by rw [hcomm]; omega)
  rw [this, hcomm]
  have h1 : winnerTransfers
      (nearestShare pool.Amount ((tokenVotes votes.trueVotes).length : Int)) denom = fun v =>
      match v with
      | .tokenVote t =>
        [(t.Creator, [t.Amount]),
         (t.Creator, [⟨denom,
           nearestShare pool.Amount ((tokenVotes votes.trueVotes).length : Int)⟩])]
      | _ => [] := by
    funext v; cases v <;> rfl
  have h2 : loserTransfers = fun v =>
      match v with
      | .backing b => [(b.Creator, [b.Amount])]
      | _ => [] := by
    funext v; cases v <;> rfl
  simp only [confirmedTransfers, h1, h2]

/-- C5, witness: one true-side TokenVote of stake 50 and one false-side
Challenge of 20, with a pool of 20: the count is 1, the share is 20, the voter
gets 50 back and a reward of 20, nobody else is paid, and the pool is left
at 0.  And with a true-side Backing and, on the false side, a Backing of 5 and
a TokenVote of 7 more, the false Backing gets 5 back. -/
theorem distributeRewardsConfirmed_transfers_witness :
    (voterCount [Voter.tokenVote ⟨1, ⟨"trusteak", 50⟩⟩] = 1 ∧
      voterRewardAmount ⟨"trusteak", 20⟩ (voterCount [Voter.tokenVote ⟨1, ⟨"trusteak", 50⟩⟩])
        = some 20 ∧
      strictRelease.distributeRewardsConfirmed journalKeeper []
        ⟨[.tokenVote ⟨1, ⟨"trusteak", 50⟩⟩], [.challenge ⟨2, ⟨"trusteak", 20⟩⟩]⟩
        ⟨"trusteak", 20⟩ "trudex" =
        some ⟨[(1, [⟨"trusteak", 50⟩]), (1, [⟨"trudex", 20⟩])], ⟨"trusteak", 0⟩, none⟩) ∧
    lenientRelease.distributeRewardsConfirmed journalKeeper []
        ⟨[.tokenVote ⟨1, ⟨"trusteak", 50⟩⟩, .backing ⟨5, ⟨"trusteak", 9⟩, ⟨"trusteak", 1⟩⟩],
         [.challenge ⟨2, ⟨"trusteak", 20⟩⟩, .backing ⟨3, ⟨"trusteak", 5⟩, ⟨"trusteak", 0⟩⟩,
          .tokenVote ⟨4, ⟨"trusteak", 7⟩⟩]⟩ ⟨"trusteak", 20⟩ "trudex" =
      some ⟨[(1, [⟨"trusteak", 50⟩]), (1, [⟨"trudex", 20⟩]), (3, [⟨"trusteak", 5⟩])],
        ⟨"trusteak", 0⟩, none⟩ :=
  ⟨distributeRewardsConfirmed_transfers strictRelease journalKeeper []
      ⟨[.tokenVote ⟨1, ⟨"trusteak", 50⟩⟩], [.challenge ⟨2, ⟨"trusteak", 20⟩⟩]⟩
      ⟨"trusteak", 20⟩ "trudex" journalKeeper_neverFails (by decide) (by decide) (by decide)
      (by decide) rfl (by decide),
   (distributeRewardsConfirmed_transfers lenientRelease journalKeeper []
      ⟨[.tokenVote ⟨1, ⟨"trusteak", 50⟩⟩, .backing ⟨5, ⟨"trusteak", 9⟩, ⟨"trusteak", 1⟩⟩],
       [.challenge ⟨2, ⟨"trusteak", 20⟩⟩, .backing ⟨3, ⟨"trusteak", 5⟩, ⟨"trusteak", 0⟩⟩,
        .tokenVote ⟨4, ⟨"trusteak", 7⟩⟩]⟩ ⟨"trusteak", 20⟩ "trudex"
      journalKeeper_neverFails (by decide) (by decide) (by decide) (by decide) rfl
      (by decide)).2.2⟩

/-- C6, counterexample: a true-side TokenVote followed by a true-side position of
unknown kind, and a false-side Challenge of 20.  `confirmedPool` succeeds
with a pool of 20; `distributeRewardsConfirmed` fails with the invalid-vote
error, and the voter has by then been paid the stake and the reward. -/
theorem invalid_vote_after_payout :
    confirmedPool [.challenge ⟨2, ⟨"trusteak", 20⟩⟩] ⟨"trusteak", 0⟩ = (⟨"trusteak", 20⟩, none) ∧
    ∃ st, distributeRewardsConfirmed journalKeeper []
        ⟨[.tokenVote ⟨1, ⟨"trusteak", 50⟩⟩, .other (some "Flag")],
         [.challenge ⟨2, ⟨"trusteak", 20⟩⟩]⟩ ⟨"trusteak", 20⟩ "trudex" = some st ∧
      st.err = some (ErrInvalidVote (.other (some "Flag"))) ∧
      st.bank = [(1, [⟨"trusteak", 50⟩]), (1, [⟨"trudex", 20⟩])] ∧
      st.bank ≠ [] :=
  ⟨by decide, _, rfl, by decide, by decide, by decide⟩

/-- C6 (amended): confirmed settlement of a poll that holds a position of unknown
kind fails: `confirmedPool` with the invalid-vote error of the first
false-side position of unknown kind, having no access to the bank, and
`distributeRewardsConfirmed` with some error, whatever the bank does.  On a
bank that never fails that error is the invalid-vote error of the first
position its loops reject: the first true-side position that is not a Backing
or TokenVote, else the first false-side position of unknown kind.  When
`distributeRewardsConfirmed` fails, the bank holds exactly the transfers due
to the positions before the rejected one, and they are not undone. -/
theorem invalid_vote_fails {σ : Type} (bankKeeper : BankKeeper σ) (ctx : σ) (pool : Coin)
    (denom : String) :
    (∀ (pre : List Voter) (n : Option String) (post : List Voter) (pool0 : Coin),
      (∀ v ∈ pre, v.isKnownKind = true) →
      (confirmedPool (pre ++ .other n :: post) pool0).2 = some (ErrInvalidVote (.other n))) ∧
    (∀ votes : poll,
      (∃ v, (v ∈ votes.trueVotes ∨ v ∈ votes.falseVotes) ∧ v.isKnownKind = false) →
      ∃ st e, distributeRewardsConfirmed bankKeeper ctx votes pool denom = some st ∧
        st.err = some e) ∧
    (bankKeeper.neverFails →
      (∀ (pre : List Voter) (w : Voter) (post falseVotes : List Voter),
        (∀ v ∈ pre, v.isWinnerKind = true) → w.isWinnerKind = false →
        ∃ reward st,
          voterRewardAmount pool (voterCount (pre ++ w :: post)) = some reward ∧
          distributeRewardsConfirmed bankKeeper ctx ⟨pre ++ w :: post, falseVotes⟩ pool denom
            = some st ∧
          st.err = some (ErrInvalidVote w) ∧
          st.bank = applyTransfers bankKeeper ctx (pre.flatMap (winnerTransfers reward denom))) ∧
      (∀ (trueVotes pre : List Voter) (n : Option String) (post : List Voter),
        (∀ v ∈ trueVotes, v.isWinnerKind = true) → (∀ v ∈ pre, v.isKnownKind = true) →
        ∃ reward st,
          voterRewardAmount pool (voterCount trueVotes) = some reward ∧
          distributeRewardsConfirmed bankKeeper ctx ⟨trueVotes, pre ++ .other n :: post⟩ pool
            denom = some st ∧
          st.err = some (ErrInvalidVote (.other n)) ∧
          st.bank = applyTransfers bankKeeper ctx
            (trueVotes.flatMap (winnerTransfers reward denom) ++ pre.flatMap loserTransfers)) ∧
      (∀ votes : poll,
        (∃ v, (v ∈ votes.trueVotes ∨ v ∈ votes.falseVotes) ∧ v.isKnownKind = false) →
        ∃ st w,
          distributeRewardsConfirmed bankKeeper ctx votes pool denom = some st ∧
          st.err = some (ErrInvalidVote w) ∧
          ((w ∈ votes.trueVotes ∧ w.isWinnerKind = false) ∨
            (w ∈ votes.falseVotes ∧ w.isKnownKind = false)))) := by
  refine ⟨fun pre n post pool0 h => confirmedPool_rejects pre n post pool0 h,
    fun votes h => distributeRewardsConfirmed_never_nil bankKeeper ctx votes pool denom h, ?_⟩
  intro hbank
  have part2 : ∀ (pre : List Voter) (w : Voter) (post falseVotes : List Voter),
      (∀ v ∈ pre, v.isWinnerKind = true) → w.isWinnerKind = false →
      ∃ reward st,
        voterRewardAmount pool (voterCount (pre ++ w :: post)) = some reward ∧
        distributeRewardsConfirmed bankKeeper ctx ⟨pre ++ w :: post, falseVotes⟩ pool denom
          = some st ∧
        st.err = some (ErrInvalidVote w) ∧
        st.bank = applyTransfers bankKeeper ctx (pre.flatMap (winnerTransfers reward denom)) := by
    intro pre w post falseVotes hpre hw
    obtain ⟨reward, hr⟩ := voterRewardAmount_isSome pool (voterCount (pre ++ w :: post))
    exact ⟨reward, _, hr, distributeRewardsConfirmed_rejects_true bankKeeper hbank ctx pool denom
      pre w post falseVotes reward hr hpre hw, rfl, rfl⟩
  have part3 : ∀ (trueVotes pre : List Voter) (n : Option String) (post : List Voter),
      (∀ v ∈ trueVotes, v.isWinnerKind = true) → (∀ v ∈ pre, v.isKnownKind = true) →
      ∃ reward st,
        voterRewardAmount pool (voterCount trueVotes) = some reward ∧
        distributeRewardsConfirmed bankKeeper ctx ⟨trueVotes, pre ++ .other n :: post⟩ pool denom
          = some st ∧
        st.err = some (ErrInvalidVote (.other n)) ∧
        st.bank = applyTransfers bankKeeper ctx
          (trueVotes.flatMap (winnerTransfers reward denom) ++ pre.flatMap loserTransfers) := by
    intro trueVotes pre n post htrue hpre
    obtain ⟨reward, hr⟩ := voterRewardAmount_isSome pool (voterCount trueVotes)
    exact ⟨reward, _, hr, distributeRewardsConfirmed_rejects_false bankKeeper hbank ctx pool denom
      trueVotes pre n post reward hr htrue hpre, rfl, rfl⟩
  refine ⟨part2, part3, ?_⟩
  rintro ⟨trueVotes, falseVotes⟩ ⟨v, hv, hvk⟩
  by_cases hT : ∃ x ∈ trueVotes, x.isWinnerKind = false
  · obtain ⟨pre, w, post, e, hpre, hw⟩ := exists_first_failing Voter.isWinnerKind trueVotes hT
    obtain ⟨reward, st, _, hd, herr, _⟩ := part2 pre w post falseVotes hpre hw
    subst e
    exact ⟨st, w, hd, herr, Or.inl ⟨by simp, hw⟩⟩
  · have htrue : ∀ x ∈ trueVotes, x.isWinnerKind = true := by
      intro x hx
      by_contra hc
      exact hT ⟨x, hx, by simpa using hc⟩
    have hvF : v ∈ falseVotes := by
      rcases hv with h | h
      · have key : ∀ x : Voter, x.isWinnerKind = true → x.isKnownKind = false → False := by
          intro x
          cases x <;> simp [Voter.isWinnerKind, Voter.isKnownKind, Voter.isBacking,
            Voter.isTokenVote, Voter.isChallenge]
        exact (key v (htrue v h) hvk).elim
      · exact h
    obtain ⟨pre, w, post, e, hpre, hw⟩ :=
      exists_first_failing Voter.isKnownKind falseVotes ⟨v, hvF, hvk⟩
    cases w with
    | other n =>
      obtain ⟨reward, st, _, hd, herr, _⟩ := part3 trueVotes pre n post htrue hpre
      subst e
      exact ⟨st, .other n, hd, herr, Or.inr ⟨by simp, hw⟩⟩
    | backing b => simp [Voter.isKnownKind, Voter.isBacking] at hw
    | challenge c => simp [Voter.isKnownKind, Voter.isChallenge] at hw
    | tokenVote t => simp [Voter.isKnownKind, Voter.isTokenVote] at hw

/-- C6, witness: the poll of the counterexample; the TokenVote before the
rejected position has been paid. -/
theorem invalid_vote_fails_witness :
    ∃ reward st,
      voterRewardAmount ⟨"trusteak", 20⟩
        (voterCount ([Voter.tokenVote ⟨1, ⟨"trusteak", 50⟩⟩] ++ .other (some "Flag") :: []))
        = some reward ∧
      distributeRewardsConfirmed journalKeeper []
        ⟨[.tokenVote ⟨1, ⟨"trusteak", 50⟩⟩] ++ .other (some "Flag") :: [],
         [.challenge ⟨2, ⟨"trusteak", 20⟩⟩]⟩ ⟨"trusteak", 20⟩ "trudex" = some st ∧
      st.err = some (ErrInvalidVote (.other (some "Flag"))) ∧
      st.bank = applyTransfers journalKeeper []
        [(1, [⟨"trusteak", 50⟩]), (1, [⟨"trudex", reward⟩])] :=
  ((invalid_vote_fails journalKeeper [] ⟨"trusteak", 20⟩ "trudex").2.2
      journalKeeper_neverFails).1
    [.tokenVote ⟨1, ⟨"trusteak", 50⟩⟩] (.other (some "Flag")) []
    [.challenge ⟨2, ⟨"trusteak", 20⟩⟩] (by decide) (by decide)

/-- C7, failing input: a true-side TokenVote of stake 50, a false-side Backing of
5 and Challenge of 20, a pool of 20, and a bank that refuses the category
denomination.  The `AddCoins` call paying the reward fails, yet
`distributeRewardsConfirmed` goes on to refund the Backing and returns nil. -/
theorem distributeRewardsConfirmed_drops_reward_error :
    ((refusingKeeper "trudex").AddCoins [(1, [⟨"trusteak", 50⟩])] 1 [⟨"trudex", 20⟩]).2
      = some (ErrTransferringCoinsToUser 1) ∧
    voterRewardAmount ⟨"trusteak", 20⟩ (voterCount [Voter.tokenVote ⟨1, ⟨"trusteak", 50⟩⟩])
      = some 20 ∧
    ∃ st, distributeRewardsConfirmed (refusingKeeper "trudex") []
        ⟨[.tokenVote ⟨1, ⟨"trusteak", 50⟩⟩],
         [.backing ⟨3, ⟨"trusteak", 5⟩, ⟨"trusteak", 0⟩⟩, .challenge ⟨2, ⟨"trusteak", 20⟩⟩]⟩
        ⟨"trusteak", 20⟩ "trudex" = some st ∧
      st.err = none ∧
      st.bank = [(1, [⟨"trusteak", 50⟩]), (3, [⟨"trusteak", 5⟩])] :=
  ⟨rfl, by decide, _, rfl, by decide, by decide⟩

/-- C8, counterexample: settling the same poll twice on the recording bank.  The
second call is not rejected, and the voter's balances go from 50 and 20 to 100
and 40. -/
theorem distributeRewardsConfirmed_pays_twice :
    ∃ st1 st2,
      distributeRewardsConfirmed journalKeeper []
        ⟨[.tokenVote ⟨1, ⟨"trusteak", 50⟩⟩], [.challenge ⟨2, ⟨"trusteak", 20⟩⟩]⟩
        ⟨"trusteak", 20⟩ "trudex" = some st1 ∧
      distributeRewardsConfirmed journalKeeper st1.bank
        ⟨[.tokenVote ⟨1, ⟨"trusteak", 50⟩⟩], [.challenge ⟨2, ⟨"trusteak", 20⟩⟩]⟩
        ⟨"trusteak", 20⟩ "trudex" = some st2 ∧
      st1.err = none ∧ st2.err = none ∧
      st1.bank.balance 1 "trusteak" = 50 ∧ st1.bank.balance 1 "trudex" = 20 ∧
      st2.bank.balance 1 "trusteak" = 100 ∧ st2.bank.balance 1 "trudex" = 40 :=
  ⟨_, _, rfl, rfl, by decide, by decide, by decide, by decide, by decide, by decide⟩

/-- C8 (amended): `distributeRewardsConfirmed` keeps no record of a settled game.
On a bank that never fails and a poll of valid positions, a second call with
the same poll, pool and denomination is not rejected and makes every transfer
of the first call once more; paying once per game is left to the caller. -/
theorem distributeRewardsConfirmed_repeats {σ : Type} (bankKeeper : BankKeeper σ)
    (ctx : σ) (votes : poll) (pool : Coin) (denom : String)
    (hbank : bankKeeper.neverFails)
    (htrue : ∀ v ∈ votes.trueVotes, v.isWinnerKind = true)
    (hfalse : ∀ v ∈ votes.falseVotes, v.isKnownKind = true) :
    ∃ reward st1 st2,
      voterRewardAmount pool (voterCount votes.trueVotes) = some reward ∧
      distributeRewardsConfirmed bankKeeper ctx votes pool denom = some st1 ∧
      distributeRewardsConfirmed bankKeeper st1.bank votes pool denom = some st2 ∧
      st1.err = none ∧ st2.err = none ∧
      st1.bank = applyTransfers bankKeeper ctx (confirmedTransfers reward denom votes) ∧
      st2.bank = applyTransfers bankKeeper st1.bank (confirmedTransfers reward denom votes) := by
  obtain ⟨reward, hr⟩ := voterRewardAmount_isSome pool (voterCount votes.trueVotes)
  exact ⟨reward, _, _,  hr,
    distributeRewardsConfirmed_neverFails bankKeeper hbank ctx votes pool denom reward hr
      htrue hfalse,
    distributeRewardsConfirmed_neverFails bankKeeper hbank _ votes pool denom reward hr
      htrue hfalse, rfl, rfl, rfl, rfl⟩

/-- C8, witness: the poll of the counterexample. -/
theorem distributeRewardsConfirmed_repeats_witness :
    ∃ reward st1 st2,
      voterRewardAmount ⟨"trusteak", 20⟩ (voterCount [Voter.tokenVote ⟨1, ⟨"trusteak", 50⟩⟩])
        = some reward ∧
      distributeRewardsConfirmed journalKeeper []
        ⟨[.tokenVote ⟨1, ⟨"trusteak", 50⟩⟩], [.challenge ⟨2, ⟨"trusteak", 20⟩⟩]⟩
        ⟨"trusteak", 20⟩ "trudex" = some st1 ∧
      distributeRewardsConfirmed journalKeeper st1.bank
        ⟨[.tokenVote ⟨1, ⟨"trusteak", 50⟩⟩], [.challenge ⟨2, ⟨"trusteak", 20⟩⟩]⟩
        ⟨"trusteak", 20⟩ "trudex" = some st2 ∧
      st1.err = none ∧ st2.err = none ∧
      st1.bank = applyTransfers journalKeeper []
        [(1, [⟨"trusteak", 50⟩]), (1, [⟨"trudex", reward⟩])] ∧
      st2.bank = applyTransfers journalKeeper st1.bank
        [(1, [⟨"trusteak", 50⟩]), (1, [⟨"trudex", reward⟩])] :=
  distributeRewardsConfirmed_repeats journalKeeper []
    ⟨[.tokenVote ⟨1, ⟨"trusteak", 50⟩⟩], [.challenge ⟨2, ⟨"trusteak", 20⟩⟩]⟩
    ⟨"trusteak", 20⟩ "trudex" journalKeeper_neverFails (by decide) (by decide)

/-- C9, counterexample: games 1 and 2 have both expired at time 250, every queued
ID resolves and every refund succeeds, but the story of game 1 is not stored:
`EndChallenge` fails, the tick returns its error, and game 2 stays at the head
of the queue although it has expired. -/
theorem checkExpiredGames_stops_on_story_error :
    (∀ id ∈ [(1 : Int), 2], ∃ g, (storeKeeper sampleGames sampleIndex sampleTable).gameKeeperGet id
      = .ok g) ∧
    (∀ (b : Journal) (gameID : Int),
      (returnFunds (storeKeeper sampleGames sampleIndex sampleTable) b gameID).2 = none) ∧
    (checkExpiredGames (storeKeeper sampleGames sampleIndex sampleTable) 250 [1, 2] []
      [sampleStory 8]).err = some (ErrStoryNotFound 7) ∧
    (checkExpiredGames (storeKeeper sampleGames sampleIndex sampleTable) 250 [1, 2] []
      [sampleStory 8]).queue = [2] ∧
    hasExpired (storeKeeper sampleGames sampleIndex sampleTable) 250 2 = true := by
  refine ⟨fun id _ => ⟨_, rfl⟩, ?_, by decide, by decide, by decide⟩
  intro b gameID
  rw [returnFunds_storeKeeper sampleGames sampleIndex sampleTable gameID b (fun id _ => ⟨_, rfl⟩)]

/-- C9 (amended): for every expiry queue, game table and block time such that
every queued ID resolves to a game and, in every state the drain can reach
(the states of an invariant), every refund and every `EndChallenge` call for
a queued game that never started succeeds, `checkExpiredGames` returns nil
having removed exactly the longest head run of the queue whose games have
`ExpiresTime <= now`: every game removed has `ExpiresTime <= now`, and the
queue left is empty or has a head game with `ExpiresTime > now`, its entries
in their original order. -/
theorem checkExpiredGames_removes_expired_head {β γ : Type} (k : Keeper β γ) (now : Int)
    (q : List Int) (b : β) (s : γ) (Inv : β → γ → Prop) (hInv : Inv b s)
    (hget : ∀ id ∈ q, ∃ g, k.gameKeeperGet id = .ok g)
    (hstep : ∀ id ∈ q, ∀ g, k.gameKeeperGet id = .ok g → g.Started = false →
      ∀ b0 s0, Inv b0 s0 →
        (returnFunds k b0 g.ID).2 = none ∧ (k.EndChallenge s0 g.StoryID).2 = none ∧
        Inv (returnFunds k b0 g.ID).1 (k.EndChallenge s0 g.StoryID).1) :
    (checkExpiredGames k now q b s).err = none ∧
    (checkExpiredGames k now q b s).queue = q.dropWhile (hasExpired k now) ∧
    q = q.takeWhile (hasExpired k now) ++ (checkExpiredGames k now q b s).queue ∧
    (∀ id ∈ q.takeWhile (hasExpired k now),
      ∃ g, k.gameKeeperGet id = .ok g ∧ g.ExpiresTime ≤ now) ∧
    ((checkExpiredGames k now q b s).queue = [] ∨
      ∃ id rest g, (checkExpiredGames k now q b s).queue = id :: rest ∧
        k.gameKeeperGet id = .ok g ∧ now < g.ExpiresTime) := by
  obtain ⟨herr, hq⟩ := checkExpiredGames_drains k now q b s Inv hInv hget hstep
  refine ⟨herr, hq, ?_, ?_, ?_⟩
  · rw [hq, List.takeWhile_append_dropWhile]
  · intro id hid
    have hp := List.mem_takeWhile_imp hid
    obtain ⟨g, hg⟩ := hget id ((List.takeWhile_sublist _).subset hid)
    refine ⟨g, hg, ?_⟩
    simpa [hasExpired, hg] using hp
  · rw [hq]
    cases hd : q.dropWhile (hasExpired k now) with
    | nil => exact Or.inl rfl
    | cons id rest =>
      right
      have hne : q.dropWhile (hasExpired k now) ≠ [] := by simp [hd]
      have hp := List.head_dropWhile_not (hasExpired k now) q hne
      have hhead : (q.dropWhile (hasExpired k now)).head hne = id := by simp [hd]
      rw [hhead] at hp
      have hmem : id ∈ q := by
        have : id ∈ q.dropWhile (hasExpired k now) := by simp [hd]
        exact (List.dropWhile_sublist _).subset this
      obtain ⟨g, hg⟩ := hget id hmem
      refine ⟨id, rest, g, rfl, hg, ?_⟩
      have : ¬ g.ExpiresTime ≤ now := by simpa [hasExpired, hg] using hp
      omega

/-- C9, witness: game 1 expires at 100 and game 2 at 200; the tick at 150 removes
game 1 only and leaves game 2 queued. -/
theorem checkExpiredGames_removes_expired_head_witness :
    (checkExpiredGames (storeKeeper sampleGames sampleIndex sampleTable) 150 [1, 2] []
      [sampleStory 7, sampleStory 8]).err = none ∧
    (checkExpiredGames (storeKeeper sampleGames sampleIndex sampleTable) 150 [1, 2] []
      [sampleStory 7, sampleStory 8]).queue = [2] ∧
    [(1 : Int), 2] = [1] ++
      (checkExpiredGames (storeKeeper sampleGames sampleIndex sampleTable) 150 [1, 2] []
        [sampleStory 7, sampleStory 8]).queue ∧
    (∀ id ∈ [(1 : Int)],
      ∃ g, (storeKeeper sampleGames sampleIndex sampleTable).gameKeeperGet id = .ok g ∧
        g.ExpiresTime ≤ 150) ∧
    ((checkExpiredGames (storeKeeper sampleGames sampleIndex sampleTable) 150 [1, 2] []
        [sampleStory 7, sampleStory 8]).queue = [] ∨
      ∃ id rest g, (checkExpiredGames (storeKeeper sampleGames sampleIndex sampleTable) 150
          [1, 2] [] [sampleStory 7, sampleStory 8]).queue = id :: rest ∧
        (storeKeeper sampleGames sampleIndex sampleTable).gameKeeperGet id = .ok g ∧
        150 < g.ExpiresTime) :=
  checkExpiredGames_removes_expired_head (storeKeeper sampleGames sampleIndex sampleTable) 150
    [1, 2] [] [sampleStory 7, sampleStory 8] sampleInv
    ⟨⟨_, rfl⟩, ⟨_, rfl⟩⟩
    (fun _ _ => ⟨_, rfl⟩)
    (fun id hid g hg _ b0 s0 h0 => sample_refund_step id hid g hg b0 s0 h0)

/-- C10, counterexample: game 1 is at the queue head, expired at 100 and never
started, with the challenges 11 and 12 recorded under it; the bank refuses the
first refund.  The tick at 150 pops the game and returns the error of the
bank: no challenge creator has been credited and story 7 is still Challenged,
not Expired. -/
theorem checkExpiredGames_refund_refused :
    (checkExpiredGames sampleRefusingKeeper 150 [1, 2] [] [sampleStory 7, sampleStory 8]).err
      = some (ErrTransferringCoinsToUser 11) ∧
    (checkExpiredGames sampleRefusingKeeper 150 [1, 2] [] [sampleStory 7, sampleStory 8]).queue
      = [2] ∧
    (checkExpiredGames sampleRefusingKeeper 150 [1, 2] [] [sampleStory 7, sampleStory 8]).bank
      = [] ∧
    (checkExpiredGames sampleRefusingKeeper 150 [1, 2] [] [sampleStory 7, sampleStory 8]).stories
      = [sampleStory 7, sampleStory 8] ∧
    (sampleStory 7).State = .Challenged := by
  decide

/-- C10 (amended): for a game at the queue head with `ExpiresTime <= now` that
never started, whose recorded challenge IDs resolve and whose story is stored,
on a bank that credits without failing, the tick pops it and goes on with the
rest of the queue from the state in which every challenge recorded under the
game has been credited once to its creator (the balance of every account and
denomination grows by exactly the amounts of that account's challenges in that
denomination, so no other account is credited) and the story of the game is
stored in state Expired.  When no further game is due, that state is what the
tick leaves. -/
theorem checkExpiredGames_refunds_unstarted_head (games : Int → Except Error Game)
    (index : Int → List Int) (table : Int → Except Error Challenge) (now gameID : Int)
    (rest : List Int) (b : Journal) (s : StoryStore) (game : Game) (story : Story)
    (hgame : games gameID = .ok game) (hexp : game.ExpiresTime ≤ now)
    (hstart : game.Started = false)
    (hch : ∀ id ∈ index game.ID, ∃ c, table id = .ok c)
    (hstory : GetStory s game.StoryID = .ok story) :
    checkExpiredGames (storeKeeper games index table) now (gameID :: rest) b s =
      checkExpiredGames (storeKeeper games index table) now rest
        (b ++ (challengesOf (storeKeeper games index table) game.ID).map
          fun c => (c.Creator, [c.Amount]))
        (setStory s { story with State := .Expired }) ∧
    (∀ (addr : AccAddress) (denom : String),
      Journal.balance (b ++ (challengesOf (storeKeeper games index table) game.ID).map
          fun c => (c.Creator, [c.Amount])) addr denom =
        Journal.balance b addr denom +
          (((challengesOf (storeKeeper games index table) game.ID).filter
            fun c => c.Creator = addr ∧ c.Amount.Denom = denom).map
              fun c => c.Amount.Amount).sum) ∧
    GetStory (setStory s { story with State := .Expired }) game.StoryID =
      .ok { story with State := .Expired } ∧
    ((rest = [] ∨ ∃ next tail g, rest = next :: tail ∧ games next = .ok g ∧ now < g.ExpiresTime) →
      (checkExpiredGames (storeKeeper games index table) now (gameID :: rest) b s).queue = rest ∧
      (checkExpiredGames (storeKeeper games index table) now (gameID :: rest) b s).bank =
        b ++ (challengesOf (storeKeeper games index table) game.ID).map
          (fun c => (c.Creator, [c.Amount])) ∧
      (checkExpiredGames (storeKeeper games index table) now (gameID :: rest) b s).stories =
        setStory s { story with State := .Expired } ∧
      (checkExpiredGames (storeKeeper games index table) now (gameID :: rest) b s).err = none) := by
  have hstep : checkExpiredGames (storeKeeper games index table) now (gameID :: rest) b s =
      checkExpiredGames (storeKeeper games index table) now rest
        (b ++ (challengesOf (storeKeeper games index table) game.ID).map
          fun c => (c.Creator, [c.Amount]))
        (setStory s { story with State := .Expired }) := by
    have hk : (storeKeeper games index table).gameKeeperGet gameID = .ok game := hgame
    have hnot : ¬ game.ExpiresTime > now := by omega
    have hr := returnFunds_storeKeeper games index table game.ID b hch
    have he : (storeKeeper games index table).EndChallenge s game.StoryID
        = (setStory s { story with State := .Expired }, none) :=
      EndChallenge_stored s game.StoryID story hstory
    simp only [checkExpiredGames, hk, hnot, if_false, hstart, Bool.not_false, if_true, hr, he]
  refine ⟨hstep, ?_, ?_, ?_⟩
  · intro addr denom
    rw [Journal.balance_append, Journal.balance_refunds]
  · rw [GetStory_setStory]
    have := GetStory_ID s game.StoryID story hstory
    simp [this]
  · intro hrest
    rw [hstep]
    rcases hrest with e | ⟨next, tail, g, e, hg, hlt⟩
    · subst e; simp [checkExpiredGames]
    · subst e
      rw [checkExpiredGames_not_due (storeKeeper games index table) now next tail _ _ g hg hlt]
      simp

/-- C10, witness: game 1, expired at 100 and never started, holds the challenges
11 and 12 of 10 each; the tick at 150 refunds both, marks story 7 Expired and
leaves game 2 queued. -/
theorem checkExpiredGames_refunds_unstarted_head_witness :
    (checkExpiredGames (storeKeeper sampleGames sampleIndex sampleTable) 150 [1, 2] []
      [sampleStory 7, sampleStory 8]).queue = [2] ∧
    (checkExpiredGames (storeKeeper sampleGames sampleIndex sampleTable) 150 [1, 2] []
      [sampleStory 7, sampleStory 8]).bank
        = [(11, [⟨"trusteak", 10⟩]), (12, [⟨"trusteak", 10⟩])] ∧
    (checkExpiredGames (storeKeeper sampleGames sampleIndex sampleTable) 150 [1, 2] []
      [sampleStory 7, sampleStory 8]).stories
        = setStory [sampleStory 7, sampleStory 8] { sampleStory 7 with State := .Expired } ∧
    (checkExpiredGames (storeKeeper sampleGames sampleIndex sampleTable) 150 [1, 2] []
      [sampleStory 7, sampleStory 8]).err = none :=
  (checkExpiredGames_refunds_unstarted_head sampleGames sampleIndex sampleTable 150 1 [2] []
    [sampleStory 7, sampleStory 8] ⟨1, 7, 100, false⟩ (sampleStory 7) rfl (by decide) rfl
    (fun id _ => ⟨_, rfl⟩) rfl).2.2.2 (Or.inr ⟨2, [], ⟨2, 8, 200, false⟩, rfl, rfl, by decide⟩)

/-- C11, counterexample: games 1 and 2 have both expired at time 250 and never
started; story 7 of game 1 is stored, story 8 of game 2 is not.  The tick
returns the error of `EndChallenge` for game 2, and by then both games have
left the queue, the two challenges of game 1 have been refunded and story 7
has been marked Expired: nothing is as it was before the call. -/
theorem checkExpiredGames_error_after_mutation :
    (checkExpiredGames (storeKeeper sampleGames sampleIndex sampleTable) 250 [1, 2] []
      [sampleStory 7]).err = some (ErrStoryNotFound 8) ∧
    (checkExpiredGames (storeKeeper sampleGames sampleIndex sampleTable) 250 [1, 2] []
      [sampleStory 7]).queue = [] ∧
    (checkExpiredGames (storeKeeper sampleGames sampleIndex sampleTable) 250 [1, 2] []
      [sampleStory 7]).bank = [(11, [⟨"trusteak", 10⟩]), (12, [⟨"trusteak", 10⟩])] ∧
    (checkExpiredGames (storeKeeper sampleGames sampleIndex sampleTable) 250 [1, 2] []
      [sampleStory 7]).stories = [{ sampleStory 7 with State := .Expired }] ∧
    Journal.balance (checkExpiredGames (storeKeeper sampleGames sampleIndex sampleTable) 250
      [1, 2] [] [sampleStory 7]).bank 11 "trusteak" = 10 ∧
    Journal.balance [] 11 "trusteak" = 0 := by
  decide

/-- C11 (amended): `checkExpiredGames` has no rollback.  When it returns an error
because the head of the queue on entry does not resolve, the queue, the bank
and the stories are exactly what they were before the call.  Every other
error is returned after the head game was popped: the queue is shorter than
it was, what is gone from it is a head run of expired games.  In every case
the error is that of the first game the tick could not finish: the games
ahead of it were drained, and the tick returns the bank and the stories as
those games and the unfinished one left them: the bank after the refunds of
the unfinished game made before the error, and the stories as its
`EndChallenge` left them when that is the call that failed.  On the recording
bank no credit made is ever taken back.  The block tick does not go on from
such a state: `NewResponseEndBlock` turns every error into a panic. -/
theorem checkExpiredGames_error_state {β γ : Type} (k : Keeper β γ) (now : Int)
    (q : List Int) (b : β) (s : γ) :
    (∀ id rest e, q = id :: rest → k.gameKeeperGet id = .error e →
      (checkExpiredGames k now q b s).err = some e ∧
      (checkExpiredGames k now q b s).queue = q ∧
      (checkExpiredGames k now q b s).bank = b ∧
      (checkExpiredGames k now q b s).stories = s) ∧
    (∀ e, (checkExpiredGames k now q b s).err = some e →
      ((checkExpiredGames k now q b s).queue = q ∧ (checkExpiredGames k now q b s).bank = b ∧
        (checkExpiredGames k now q b s).stories = s ∧
        ∃ id rest, q = id :: rest ∧ k.gameKeeperGet id = .error e) ∨
      (checkExpiredGames k now q b s).queue.length < q.length) ∧
    (∃ n, (checkExpiredGames k now q b s).queue = q.drop n ∧
      ∀ id ∈ q.take n, ∃ g, k.gameKeeperGet id = .ok g ∧ g.ExpiresTime ≤ now) ∧
    ((checkExpiredGames k now q b s).err ≠ none ↔ NewResponseEndBlock k now q b s = none) ∧
    (∀ e, (checkExpiredGames k now q b s).err = some e →
      ∃ (done rest : List Int) (bm : β) (sm : γ),
        q = done ++ rest ∧
        checkExpiredGames k now done b s = ⟨[], bm, sm, none⟩ ∧
        ((∃ id tail, rest = id :: tail ∧ k.gameKeeperGet id = .error e ∧
            checkExpiredGames k now q b s = ⟨rest, bm, sm, some e⟩) ∨
         (∃ id tail g, rest = id :: tail ∧ k.gameKeeperGet id = .ok g ∧
            g.ExpiresTime ≤ now ∧ g.Started = false ∧
            (((returnFunds k bm g.ID).2 = some e ∧
                checkExpiredGames k now q b s =
                  ⟨tail, (returnFunds k bm g.ID).1, sm, some e⟩) ∨
             ((returnFunds k bm g.ID).2 = none ∧ (k.EndChallenge sm g.StoryID).2 = some e ∧
                checkExpiredGames k now q b s =
                  ⟨tail, (returnFunds k bm g.ID).1, (k.EndChallenge sm g.StoryID).1,
                    some e⟩))))) ∧
    (∀ (games : Int → Except Error Game) (index : Int → List Int)
        (table : Int → Except Error Challenge) (journal : Journal) (stories : StoryStore),
      journal <+:
        (checkExpiredGames (storeKeeper games index table) now q journal stories).bank) := by
  refine ⟨?_, fun e h => checkExpiredGames_error_cases k now q b s e h, ?_, ?_,
    fun e h => checkExpiredGames_error_decomp k now q b s e h,
    fun games index table journal stories =>
      checkExpiredGames_journal_grows games index table now q journal stories⟩
  · intro id rest e hq hg
    subst hq
    simp [checkExpiredGames, hg]
  · obtain ⟨n, hq, hn⟩ := checkExpiredGames_removes_head_run k now q b s
    exact ⟨n, hq, fun id hid => (hasExpired_iff k now id).mp (hn id hid)⟩
  · unfold NewResponseEndBlock
    cases h : (checkExpiredGames k now q b s).err with
    | none => simp
    | some e => simp

/-- C11, witness: game 3 at the head of the queue does not resolve: the error is
returned and nothing has changed. -/
theorem checkExpiredGames_error_state_witness :
    (checkExpiredGames (storeKeeper sampleGamesBut3 sampleIndex sampleTable) 250 [3, 1] []
      [sampleStory 7]).err = some ⟨"games", 0, "Game not found"⟩ ∧
    (checkExpiredGames (storeKeeper sampleGamesBut3 sampleIndex sampleTable) 250 [3, 1] []
      [sampleStory 7]).queue = [3, 1] ∧
    (checkExpiredGames (storeKeeper sampleGamesBut3 sampleIndex sampleTable) 250 [3, 1] []
      [sampleStory 7]).bank = [] ∧
    (checkExpiredGames (storeKeeper sampleGamesBut3 sampleIndex sampleTable) 250 [3, 1] []
      [sampleStory 7]).stories = [sampleStory 7] :=
  (checkExpiredGames_error_state (storeKeeper sampleGamesBut3 sampleIndex sampleTable) 250
    [3, 1] [] [sampleStory 7]).1 3 [1] ⟨"games", 0, "Game not found"⟩ rfl rfl

/-- C12, failing input: claim 1 is stored with nothing staked; a backing stake of
100 is added.  The sum `claim.TotalBacked.Add(stake)` is computed and dropped:
the call succeeds, the stored claim has one staker more, and its
`TotalBacked` is still 0. -/
theorem AddBackingStake_drops_sum :
    ClaimKeeper.Claim sampleClaimStore1 1 = some sampleClaim ∧
    sampleClaim.TotalBacked = ⟨"trusteak", 0⟩ ∧
    sampleClaim.TotalBacked.Add ⟨"trusteak", 100⟩ = some ⟨"trusteak", 100⟩ ∧
    ClaimKeeper.AddBackingStake sampleClaimStore1 1 ⟨"trusteak", 100⟩ =
      some (ClaimKeeper.setClaim sampleClaimStore1 { sampleClaim with TotalStakers := 1 }, none) ∧
    (ClaimKeeper.Claim
      (ClaimKeeper.setClaim sampleClaimStore1 { sampleClaim with TotalStakers := 1 }) 1).map
        (fun claim => (claim.TotalBacked, claim.TotalStakers)) = some (⟨"trusteak", 0⟩, 1) := by
  decide

/-- C13, counterexample: a body of 30 runes, the unknown community "nope", and a
creator whose jailed lookup fails.  `SubmitClaim` returns the error of the
lookup, not the invalid-community error. -/
theorem SubmitClaim_lookup_error_first :
    sampleBody.length = 30 ∧
    (sampleClaimKeeper.Community "nope").2 = some ⟨"community", 0, "not found"⟩ ∧
    sampleClaimKeeper.SubmitClaim 100 sampleClaimStore sampleBody "nope" 8 "http://x" =
      (sampleClaimStore, .error ⟨"account", 0, "account not found"⟩) ∧
    (⟨"account", 0, "account not found"⟩ : Error) ≠ ErrInvalidCommunityID "" ∧
    (⟨"account", 0, "account not found"⟩ : Error) ≠ ErrInvalidCommunityID "nope" :=
  ⟨by decide, by decide, rfl, by decide, by decide⟩

/-- C13 (amended): `SubmitClaim` runs its checks in the order body length, jailed
lookup of the creator, creator jailed, community, and returns the error of the
first check that fails: body too short for a rune count below
`MinClaimLength`; body too long for one above `MaxClaimLength` and not below
the minimum; with the length in range, the error of the jailed lookup when
the lookup itself fails, creator jailed for a jailed creator, and invalid
community for an unknown community when the creator is found not jailed.
Whenever it returns an error the store is what it was: no claim record, no
counter change and no association entry is written.  A body with
`MinClaimLength <= length <= MaxClaimLength` passes the length check. -/
theorem SubmitClaim_validation (k : ClaimKeeper) (now : Int) (store : ClaimStore)
    (body communityID : String) (creator : AccAddress) (source : String) :
    (∀ e, (k.SubmitClaim now store body communityID creator source).2 = .error e →
      (k.SubmitClaim now store body communityID creator source).1 = store) ∧
    ((body.length : Int) < k.minClaimLength →
      k.SubmitClaim now store body communityID creator source =
        (store, .error (ErrInvalidBodyTooShort body))) ∧
    (k.minClaimLength ≤ (body.length : Int) → k.maxClaimLength < (body.length : Int) →
      k.SubmitClaim now store body communityID creator source =
        (store, .error ErrInvalidBodyTooLong)) ∧
    (k.minClaimLength ≤ (body.length : Int) → (body.length : Int) ≤ k.maxClaimLength →
      k.validateLength body = none ∧
      (∀ e, (k.IsJailed creator).2 = some e →
        k.SubmitClaim now store body communityID creator source = (store, .error e)) ∧
      (k.IsJailed creator = (true, none) →
        k.SubmitClaim now store body communityID creator source =
          (store, .error (ErrCreatorJailed creator))) ∧
      (k.IsJailed creator = (false, none) → ∀ e, (k.Community communityID).2 = some e →
        k.SubmitClaim now store body communityID creator source =
          (store, .error (ErrInvalidCommunityID (k.Community communityID).1.ID)))) := by
  refine ⟨?_, ?_, ?_, ?_⟩
  · intro e he
    rcases SubmitClaim_cases k now store body communityID creator source
      with ⟨e1, h1⟩ | ⟨n, _, h1⟩
    · rw [h1]
    · rw [h1] at he; cases he
  · intro h
    simp [ClaimKeeper.SubmitClaim, ClaimKeeper.validateLength, h]
  · intro h1 h2
    simp [ClaimKeeper.SubmitClaim, ClaimKeeper.validateLength, not_lt.mpr h1, h2]
  · intro h1 h2
    have hv : k.validateLength body = none := by
      simp [ClaimKeeper.validateLength, not_lt.mpr h1, not_lt.mpr h2]
    refine ⟨hv, ?_, ?_, ?_⟩
    · intro e he
      simp [ClaimKeeper.SubmitClaim, hv, he]
    · intro hj
      simp [ClaimKeeper.SubmitClaim, hv, hj]
    · intro hj e he
      simp [ClaimKeeper.SubmitClaim, hv, hj, he]

/-- C13, witness: a body of 24 runes (49 bytes) is too short for a minimum of 25;
a body of 30 runes passes the length check, and a jailed creator and an
unknown community are then refused, the store staying as it was. -/
theorem SubmitClaim_validation_witness :
    ("ééééééééééééééééééééééé€".length = 24 ∧ "ééééééééééééééééééééééé€".utf8ByteSize = 49 ∧
      sampleClaimKeeper.SubmitClaim 100 sampleClaimStore "ééééééééééééééééééééééé€" "crypto" 1
        "http://x" =
        (sampleClaimStore, .error (ErrInvalidBodyTooShort "ééééééééééééééééééééééé€"))) ∧
    (sampleClaimKeeper.validateLength sampleBody = none ∧
      sampleClaimKeeper.SubmitClaim 100 sampleClaimStore sampleBody "crypto" 9 "http://x" =
        (sampleClaimStore, .error (ErrCreatorJailed 9)) ∧
      sampleClaimKeeper.SubmitClaim 100 sampleClaimStore sampleBody "nope" 1 "http://x" =
        (sampleClaimStore, .error (ErrInvalidCommunityID ""))) :=
  have h := SubmitClaim_validation sampleClaimKeeper 100 sampleClaimStore
  ⟨⟨by decide, by decide,
      (h "ééééééééééééééééééééééé€" "crypto" 1 "http://x").2.1 (by decide)⟩,
    ((h sampleBody "crypto" 9 "http://x").2.2.2 (by decide) (by decide)).1,
    ((h sampleBody "crypto" 9 "http://x").2.2.2 (by decide) (by decide)).2.2.1 rfl,
    ((h sampleBody "nope" 1 "http://x").2.2.2 (by decide) (by decide)).2.2.2 rfl _ rfl⟩

/-- C14, counterexample: the counter holds the largest `uint64`.  A successful
`SubmitClaim` returns the claim with that ID and sets the counter to 0, not to
one more; the next successful submission gets the ID 0, which is smaller. -/
theorem SubmitClaim_counter_wraps :
    sampleClaimStoreMax.claimID = some 18446744073709551615 ∧
    (sampleClaimKeeper.SubmitClaim 100 sampleClaimStoreMax sampleBody "crypto" 1 "http://x").1.claimID
      = some 0 ∧
    (sampleClaimKeeper.submitAll sampleClaimStoreMax [sampleSubmission, sampleSubmission]).2
      = [18446744073709551615, 0] := by
  decide

/-- C14 (amended): for every store state whose claim-ID counter holds `n` with
`n + 1 < 2 ^ 64`, a successful `SubmitClaim` returns a claim with ID `n`,
stores it so that `Claim(n)` returns that claim, and sets the counter to
`n + 1`; over submissions that cannot exhaust the counter, the successful ones
get the IDs `n, n + 1, ...` in order, so any two of them get distinct IDs and
the later one the strictly larger ID. -/
theorem SubmitClaim_counter (k : ClaimKeeper) (store : ClaimStore) (n : Nat)
    (hn : store.claimID = some n) :
    (∀ (now : Int) (body communityID : String) (creator : AccAddress) (source : String)
        (store1 : ClaimStore) (claim : Claim),
      n + 1 < 2 ^ 64 →
      k.SubmitClaim now store body communityID creator source = (store1, .ok claim) →
        claim.ID = n ∧ ClaimKeeper.Claim store1 n = some claim ∧
        store1.claimID = some (n + 1)) ∧
    (∀ subs : List Submission, n + subs.length < 2 ^ 64 →
      (k.submitAll store subs).2 = List.range' n (k.submitAll store subs).2.length ∧
      (k.submitAll store subs).2.Pairwise (· < ·)) := by
  constructor
  · intro now body communityID creator source store1 claim hlt h
    rcases SubmitClaim_cases k now store body communityID creator source
      with ⟨e, he⟩ | ⟨m, hm, hok⟩
    · rw [he] at h; cases h
    · have hmn : m = n := by rw [hn] at hm; exact (Option.some.inj hm).symm
      subst hmn
      rw [hok] at h
      injection h with h1 h2
      injection h2 with h3
      subst h3
      subst h1
      have hr := submittedStore_reads store m
        (NewClaim m communityID body creator source now) rfl
      refine ⟨rfl, hr.1, ?_⟩
      rw [hr.2, uint64, Nat.mod_eq_of_lt hlt]
  · intro subs hlt
    have h := submitAll_ids k subs store n hn hlt
    refine ⟨h, ?_⟩
    rw [h]
    exact List.pairwise_lt_range' n _

/-- C14, witness: from the counter at 1, three submissions of which the second is
refused: the successful ones get the IDs 1 and 2. -/
theorem SubmitClaim_counter_witness :
    (sampleClaimKeeper.submitAll sampleClaimStore
      [sampleSubmission, { sampleSubmission with creator := 9 }, sampleSubmission]).2
        = [1, 2] ∧
    (sampleClaimKeeper.submitAll sampleClaimStore
      [sampleSubmission, { sampleSubmission with creator := 9 }, sampleSubmission]).2.Pairwise
        (· < ·) :=
  (SubmitClaim_counter sampleClaimKeeper sampleClaimStore 1 rfl).2
    [sampleSubmission, { sampleSubmission with creator := 9 }, sampleSubmission] (by decide)

/-- C15: for a stored story `StartChallenge` returns nil and stores the story
with State Challenged and the timestamp updated, its ID, Body, CategoryID,
Creator, GameID and Kind as they were; the ID is in the challenged index of the
story's category, and in a store whose list entries are IDs of stored stories
`GetChallengedStoriesWithCategory` for that category returns no error and a
list that holds the story.  Every store a sequence of NewStory and
StartChallenge builds from the empty store is such a store.  For an ID that is
not stored `StartChallenge` returns the story-not-found error and the store as
it was. -/
theorem StartChallenge_challenged (k : StoryKeeper) (ctx : Header) (store : StoryKV)
    (storyID : Int) :
    (∀ story, GetStory store.stories storyID = .ok story →
      (k.StartChallenge ctx store storyID).2 = none ∧
      GetStory (k.StartChallenge ctx store storyID).1.stories storyID =
        .ok ⟨story.ID, story.Body, story.CategoryID, story.Creator, story.GameID, .Challenged,
          story.Kind, story.Timestamp.Update ctx⟩ ∧
      storyID ∈ storyIDsByCategory (k.StartChallenge ctx store storyID).1 story.CategoryID true ∧
      ((∀ e ∈ store.lists, ∃ st, GetStory store.stories e.2 = .ok st) →
        (GetChallengedStoriesWithCategory (k.StartChallenge ctx store storyID).1
          story.CategoryID).2 = none ∧
        (⟨story.ID, story.Body, story.CategoryID, story.Creator, story.GameID, .Challenged,
          story.Kind, story.Timestamp.Update ctx⟩ : Story) ∈
          (GetChallengedStoriesWithCategory (k.StartChallenge ctx store storyID).1
            story.CategoryID).1)) ∧
    (∀ ops, ∀ e ∈ (k.run emptyStoryKV ops).lists,
      ∃ st, GetStory (k.run emptyStoryKV ops).stories e.2 = .ok st) ∧
    ((∀ story, GetStory store.stories storyID ≠ .ok story) →
      k.StartChallenge ctx store storyID = (store, some (ErrStoryNotFound storyID))) := by
  refine ⟨?_, ?_, ?_⟩
  · intro story hs
    have hid := GetStory_ID _ _ _ hs
    rw [StartChallenge_stored_eq k ctx store storyID story hs]
    have hread : GetStory (setStory store.stories
        { story with State := .Challenged, Timestamp := story.Timestamp.Update ctx }) storyID =
        .ok ⟨story.ID, story.Body, story.CategoryID, story.Creator, story.GameID, .Challenged,
          story.Kind, story.Timestamp.Update ctx⟩ := by
      rw [GetStory_setStory]
      exact if_pos hid
    have hmem : storyID ∈ storyIDsByCategory
        (⟨setStory store.stories
          { story with State := .Challenged, Timestamp := story.Timestamp.Update ctx },
          listSet store.lists (storyIDsByCategoryKey story.CategoryID story.Timestamp true)
            story.ID, store.len⟩ : StoryKV) story.CategoryID true := by
      rw [mem_storyIDsByCategory]
      refine ⟨story.Timestamp, ?_⟩
      rw [← hid]
      exact mem_listSet_self _ _ _
    refine ⟨rfl, hread, hmem, ?_⟩
    intro hres
    have hall : ∀ id ∈ storyIDsByCategory
        (⟨setStory store.stories
          { story with State := .Challenged, Timestamp := story.Timestamp.Update ctx },
          listSet store.lists (storyIDsByCategoryKey story.CategoryID story.Timestamp true)
            story.ID, store.len⟩ : StoryKV) story.CategoryID true,
        ∃ st, GetStory (setStory store.stories
          { story with State := .Challenged, Timestamp := story.Timestamp.Update ctx }) id =
            .ok st := by
      intro id hidm
      rw [mem_storyIDsByCategory] at hidm
      obtain ⟨ts, hts⟩ := hidm
      rcases mem_listSet _ _ _ _ hts with e | e
      · have : id = story.ID := (Prod.mk.inj e).2
        rw [this]
        exact ⟨_, GetStory_setStory_self _ _⟩
      · exact GetStory_setStory_resolves _ _ _ (hres _ e)
    exact storiesByCategory_resolved
      (⟨setStory store.stories
        { story with State := .Challenged, Timestamp := story.Timestamp.Update ctx },
        listSet store.lists (storyIDsByCategoryKey story.CategoryID story.Timestamp true)
          story.ID, store.len⟩ : StoryKV) story.CategoryID true storyID _ hall hmem hread
  · intro ops
    exact (run_wellFormed k ops _ emptyStoryKV_wellFormed).2
  · intro hno
    cases hg : GetStory store.stories storyID with
    | ok story => exact absurd hg (hno story)
    | error e =>
      have he : e = ErrStoryNotFound storyID := by
        unfold GetStory at hg
        cases hf : store.stories.find? (fun x => x.ID == storyID) with
        | none => simp [hf] at hg; exact hg.symm
        | some st => simp [hf] at hg
      simp [StoryKeeper.StartChallenge, hg, he]

/-- C15, witness: story 2 of the example store, challenged in block 4. -/
theorem StartChallenge_challenged_witness :
    (sampleStoryKeeper.StartChallenge ⟨4, 40⟩ (sampleStoryKeeper.run emptyStoryKV sampleStoryOps)
      2).2 = none ∧
    GetStory (sampleStoryKeeper.StartChallenge ⟨4, 40⟩
        (sampleStoryKeeper.run emptyStoryKV sampleStoryOps) 2).1.stories 2 =
      .ok ⟨2, "Body of story two.", 1, 2, 0, .Challenged, 0, ⟨2, 20, 4, 40⟩⟩ ∧
    (2 : Int) ∈ storyIDsByCategory (sampleStoryKeeper.StartChallenge ⟨4, 40⟩
        (sampleStoryKeeper.run emptyStoryKV sampleStoryOps) 2).1 1 true ∧
    (GetChallengedStoriesWithCategory (sampleStoryKeeper.StartChallenge ⟨4, 40⟩
        (sampleStoryKeeper.run emptyStoryKV sampleStoryOps) 2).1 1).2 = none ∧
    (⟨2, "Body of story two.", 1, 2, 0, .Challenged, 0, ⟨2, 20, 4, 40⟩⟩ : Story) ∈
      (GetChallengedStoriesWithCategory (sampleStoryKeeper.StartChallenge ⟨4, 40⟩
        (sampleStoryKeeper.run emptyStoryKV sampleStoryOps) 2).1 1).1 :=
  have h := (StartChallenge_challenged sampleStoryKeeper ⟨4, 40⟩
    (sampleStoryKeeper.run emptyStoryKV sampleStoryOps) 2).1
    ⟨2, "Body of story two.", 1, 2, 0, .Created, 0, ⟨2, 20, 2, 20⟩⟩ rfl
  ⟨h.1, h.2.1, h.2.2.1,
    h.2.2.2 (run_wellFormed sampleStoryKeeper sampleStoryOps _ emptyStoryKV_wellFormed).2⟩

/-- C16, counterexample: story 7 is stored in the terminal state Expired;
`StartChallenge` returns nil and the stored story is Challenged, a state
earlier in the order than Expired. -/
theorem StartChallenge_reopens_terminal :
    GetStory sampleExpiredKV.stories 7 =
      .ok ⟨7, "Body of story.", 1, 1, 0, .Expired, 0, ⟨0, 0, 0, 0⟩⟩ ∧
    (sampleStoryKeeper.StartChallenge ⟨3, 30⟩ sampleExpiredKV 7).2 = none ∧
    GetStory (sampleStoryKeeper.StartChallenge ⟨3, 30⟩ sampleExpiredKV 7).1.stories 7 =
      .ok ⟨7, "Body of story.", 1, 1, 0, .Challenged, 0, ⟨0, 0, 3, 30⟩⟩ ∧
    State.rank .Challenged < State.rank .Expired :=
  ⟨rfl, rfl, rfl, by decide⟩

/-- C16, amended: over every sequence of NewStory and StartChallenge operations
from the empty store, every stored story is Created or Challenged, every
stored story stays stored under every further sequence of these operations,
and its State does not move backward in the order Created, Challenged,
terminal; so no operation returns a story to Created.  `StartChallenge` does
not look at the State: applied to a stored story in any state, a terminal one
included, it stores the story with State Challenged. -/
theorem story_state_forward (k : StoryKeeper) :
    (∀ (ops more : List StoryOp) (storyID : Int) (story : Story),
      GetStory (k.run emptyStoryKV ops).stories storyID = .ok story →
        story.State.rank ≤ 1 ∧
        ∃ later, GetStory (k.run emptyStoryKV (ops ++ more)).stories storyID = .ok later ∧
          story.State.rank ≤ later.State.rank ∧
          (later.State = .Created → story.State = .Created)) ∧
    (∀ (ctx : Header) (store : StoryKV) (storyID : Int) (story : Story),
      GetStory store.stories storyID = .ok story →
        GetStory (k.StartChallenge ctx store storyID).1.stories storyID =
          .ok ⟨story.ID, story.Body, story.CategoryID, story.Creator, story.GameID, .Challenged,
            story.Kind, story.Timestamp.Update ctx⟩) := by
  refine ⟨?_, ?_⟩
  · intro ops more storyID story hs
    have hwf := run_wellFormed k ops _ emptyStoryKV_wellFormed
    refine ⟨(hwf.1 story (GetStory_mem _ _ _ hs)).2, ?_⟩
    obtain ⟨later, hl, hr⟩ := run_forward k more _ hwf storyID story hs
    refine ⟨later, ?_, hr, ?_⟩
    · unfold StoryKeeper.run at hl ⊢
      rw [List.foldl_append]
      exact hl
    · intro hc
      rw [hc] at hr
      cases hst : story.State with
      | Created => rfl
      | _ => rw [hst] at hr; exact absurd hr (by decide)
  · intro ctx store storyID story hs
    rw [StartChallenge_stored_eq k ctx store storyID story hs]
    show GetStory (setStory _ _) storyID = _
    rw [GetStory_setStory]
    exact if_pos (GetStory_ID _ _ _ hs)

/-- C16, witness: story 2 of the example store is Created after the three
NewStory operations; story 7 of the other example store has expired and
`StartChallenge` stores it as Challenged. -/
theorem story_state_forward_witness :
    State.rank .Created ≤ 1 ∧
    GetStory (sampleStoryKeeper.StartChallenge ⟨3, 30⟩ sampleExpiredKV 7).1.stories 7 =
      .ok ⟨7, "Body of story.", 1, 1, 0, .Challenged, 0, ⟨0, 0, 3, 30⟩⟩ :=
  ⟨((story_state_forward sampleStoryKeeper).1 sampleStoryOps [.startChallenge ⟨4, 40⟩ 2] 2
      ⟨2, "Body of story two.", 1, 2, 0, .Created, 0, ⟨2, 20, 2, 20⟩⟩ rfl).1,
   (story_state_forward sampleStoryKeeper).2 ⟨3, 30⟩ sampleExpiredKV 7
      ⟨7, "Body of story.", 1, 1, 0, .Expired, 0, ⟨0, 0, 0, 0⟩⟩ rfl⟩

/-- C17: the ID list that `GetFeedByCategory` builds and reads the stories of is
the challenged-index IDs, in index order, followed by the IDs of the
all-stories index that are not in the challenged index, in index order.  The
stories returned carry the IDs of that list, up to the first that does not
resolve, and all of it when no error is returned, which is so when every ID
resolves.  The challenged IDs are the head of the list and no ID after them is
challenged; every ID of the all-stories index is in the list, and when the
challenged index is a subset of the all-stories index the list holds the IDs of
that index and no other; and when each index is duplicate-free, so is the
list. -/
theorem GetFeedByCategory_ids (store : StoryKV) (catID : Int) :
    feedIDs store catID =
      storyIDsByCategory store catID true ++
        (storyIDsByCategory store catID false).filter
          (fun sid => decide (sid ∉ storyIDsByCategory store catID true)) ∧
    GetFeedByCategory store catID = storiesByID store (feedIDs store catID) ∧
    (GetFeedByCategory store catID).1.map (fun st => st.ID) <+: feedIDs store catID ∧
    ((GetFeedByCategory store catID).2 = none →
      (GetFeedByCategory store catID).1.map (fun st => st.ID) = feedIDs store catID) ∧
    ((∀ sid ∈ feedIDs store catID, ∃ st, GetStory store.stories sid = .ok st) →
      (GetFeedByCategory store catID).2 = none) ∧
    (feedIDs store catID).take (storyIDsByCategory store catID true).length =
      storyIDsByCategory store catID true ∧
    (∀ sid ∈ (feedIDs store catID).drop (storyIDsByCategory store catID true).length,
      sid ∉ storyIDsByCategory store catID true) ∧
    (∀ sid ∈ storyIDsByCategory store catID false, sid ∈ feedIDs store catID) ∧
    ((∀ sid ∈ storyIDsByCategory store catID true, sid ∈ storyIDsByCategory store catID false) →
      ∀ sid, sid ∈ feedIDs store catID ↔ sid ∈ storyIDsByCategory store catID false) ∧
    ((storyIDsByCategory store catID true).Nodup →
      (storyIDsByCategory store catID false).Nodup → (feedIDs store catID).Nodup) := by
  have hfeed := feedIDs_eq store catID
  obtain ⟨sts, h1, h2, h3⟩ := storiesByIDLoop_ids store (feedIDs store catID) []
  have hres : (GetFeedByCategory store catID).1 = sts := by
    unfold GetFeedByCategory storiesByID
    rw [h1]
    rfl
  refine ⟨hfeed, rfl, ?_, ?_, ?_, ?_, ?_, ?_, ?_, ?_⟩
  · rw [hres]
    exact h2
  · intro hn
    rw [hres]
    exact h3 hn
  · intro hall
    obtain ⟨sts2, h4, _, _⟩ := storiesByIDLoop_resolved store (feedIDs store catID) [] hall
    unfold GetFeedByCategory storiesByID
    rw [h4]
  · rw [hfeed, List.take_left]
  · intro sid hsid
    rw [hfeed, List.drop_left] at hsid
    simpa using (List.mem_filter.mp hsid).2
  · intro sid hsid
    rw [hfeed, List.mem_append]
    by_cases hc : sid ∈ storyIDsByCategory store catID true
    · exact Or.inl hc
    · exact Or.inr (List.mem_filter.mpr ⟨hsid, by simpa using hc⟩)
  · intro hsub sid
    rw [hfeed, List.mem_append]
    constructor
    · rintro (h | h)
      · exact hsub sid h
      · exact (List.mem_filter.mp h).1
    · intro hsid
      by_cases hc : sid ∈ storyIDsByCategory store catID true
      · exact Or.inl hc
      · exact Or.inr (List.mem_filter.mpr ⟨hsid, by simpa using hc⟩)
  · intro hc ha
    rw [hfeed]
    refine List.Nodup.append hc (ha.filter _) ?_
    intro x hx hx2
    have := (List.mem_filter.mp hx2).2
    simp at this
    exact this hx

/-- C17, witness: in the example store, with story 2 challenged, the feed is
story 2, then the stories 1 and 3. -/
theorem GetFeedByCategory_ids_witness :
    feedIDs sampleFeedKV 1 = [2, 1, 3] ∧
    (GetFeedByCategory sampleFeedKV 1).1.map (fun st => st.ID) = feedIDs sampleFeedKV 1 ∧
    ((3 : Int) ∈ feedIDs sampleFeedKV 1 ↔ (3 : Int) ∈ storyIDsByCategory sampleFeedKV 1 false) ∧
    (feedIDs sampleFeedKV 1).Nodup :=
  ⟨rfl,
   (GetFeedByCategory_ids sampleFeedKV 1).2.2.2.1 rfl,
   (GetFeedByCategory_ids sampleFeedKV 1).2.2.2.2.2.2.2.2.1 (by decide) 3,
   (GetFeedByCategory_ids sampleFeedKV 1).2.2.2.2.2.2.2.2.2 (by decide) (by decide)⟩

/-- C18: head-of-line blocking exists.  With game 2 (expiring at 200) queued
ahead of game 1 (expired at 100), the tick at 150 returns success and leaves
game 1 queued; the tick at 200 removes both.  In general a tick whose head game has `ExpiresTime > now`
returns success and leaves queue, bank and stories as they were, whatever is
queued behind the head; and whatever a tick removes is a head run of the
queue whose games all have `ExpiresTime <= now`, so a game is removed only by
a tick at which every entry ahead of it has expired. -/
theorem head_of_line_blocking :
    ((checkExpiredGames (storeKeeper sampleGames sampleIndex sampleTable) 150 [2, 1] []
        [sampleStory 7, sampleStory 8]).err = none ∧
      (checkExpiredGames (storeKeeper sampleGames sampleIndex sampleTable) 150 [2, 1] []
        [sampleStory 7, sampleStory 8]).queue = [2, 1] ∧
      hasExpired (storeKeeper sampleGames sampleIndex sampleTable) 150 1 = true ∧
      (checkExpiredGames (storeKeeper sampleGames sampleIndex sampleTable) 200 [2, 1] []
        [sampleStory 7, sampleStory 8]).queue = []) ∧
    (∀ {β γ : Type} (k : Keeper β γ) (now head : Int) (rest : List Int) (b : β) (s : γ)
        (g : Game),
      k.gameKeeperGet head = .ok g → now < g.ExpiresTime →
        (checkExpiredGames k now (head :: rest) b s).err = none ∧
        (checkExpiredGames k now (head :: rest) b s).queue = head :: rest ∧
        (checkExpiredGames k now (head :: rest) b s).bank = b ∧
        (checkExpiredGames k now (head :: rest) b s).stories = s) ∧
    (∀ {β γ : Type} (k : Keeper β γ) (now : Int) (q : List Int) (b : β) (s : γ),
      ∃ n, (checkExpiredGames k now q b s).queue = q.drop n ∧
        ∀ id ∈ q.take n, ∃ g, k.gameKeeperGet id = .ok g ∧ g.ExpiresTime ≤ now) := by
  refine ⟨by decide, ?_, ?_⟩
  · intro β γ k now head rest b s g hg hlt
    rw [checkExpiredGames_not_due k now head rest b s g hg hlt]
    exact ⟨rfl, rfl, rfl, rfl⟩
  · intro β γ k now q b s
    obtain ⟨n, hq, hn⟩ := checkExpiredGames_removes_head_run k now q b s
    exact ⟨n, hq, fun id hid => (hasExpired_iff k now id).mp (hn id hid)⟩

/-- C18, witness: the head game 2 expires at 200; at 150 the tick leaves the
queue, with the expired game 1 in it, as it was. -/
theorem head_of_line_blocking_witness :
    (checkExpiredGames (storeKeeper sampleGames sampleIndex sampleTable) 150 (2 :: [1]) []
      [sampleStory 7, sampleStory 8]).err = none ∧
    (checkExpiredGames (storeKeeper sampleGames sampleIndex sampleTable) 150 (2 :: [1]) []
      [sampleStory 7, sampleStory 8]).queue = 2 :: [1] ∧
    (checkExpiredGames (storeKeeper sampleGames sampleIndex sampleTable) 150 (2 :: [1]) []
      [sampleStory 7, sampleStory 8]).bank = [] ∧
    (checkExpiredGames (storeKeeper sampleGames sampleIndex sampleTable) 150 (2 :: [1]) []
      [sampleStory 7, sampleStory 8]).stories = [sampleStory 7, sampleStory 8] :=
  head_of_line_blocking.2.1 (storeKeeper sampleGames sampleIndex sampleTable) 150 2 [1] []
    [sampleStory 7, sampleStory 8] ⟨2, 8, 200, false⟩ rfl (by decide)

end TruChain
